import Mathlib

/-!
# AtakAtak transient designer: embedding of `Source/PluginProcessor.h`

The per-sample DSP chain of the plugin (`DualEnvelopeDetector`, `EnvelopeFollower`,
`TransientDesigner`) is translated function by function.

Modelling conventions

* C++ `float` is an arbitrary linearly ordered field `α` with exact arithmetic: every
  definition is computable and runs on `ℚ`; the theorems that need facts about the
  `<cmath>` functions are stated on `ℝ`.  Rounding, infinities and NaN are not modelled.
* The `<cmath>` functions that have no field counterpart (`exp`, `pow` with a real
  exponent, `sqrt`, `tanh`, `atan`) are collected in a record `Libm α` that every function
  calling them receives; `Libm.real` is the intended interpretation on `ℝ`.
  `std::pow(x, 5.0f)`, `std::pow(x, 3.0f)` and `powf(x, 5)` have a whole exponent and are
  written `x ^ 5`, `x ^ 3`.  The constant `M_PI` belongs to the same record: in floating point
  `atan` never returns more than `M_PI / 2`, which the exact model keeps by reading `M_PI` as π
  (the decimal fallback literal of the header differs from π by less than `1e-20`).
* Member functions that mutate the object return the new object (and the returned value).
* `std::vector` is `List`; an index outside a vector is undefined behaviour in the source
  and `none` here.
* The `std::cout` debug prints and their counters do not touch the audio and are left out.
-/

namespace AtakAtak

variable {α : Type} [LinearOrderedField α]

/-! ## `<cmath>` -/

/-- The `<cmath>` functions used by the processor, over the sample type. -/
structure Libm (α : Type) where
  /-- The function `std::exp`. -/
  exp : α → α
  /-- The function `std::pow` / `powf` with an arbitrary exponent. -/
  pow : α → α → α
  /-- The function `std::sqrt`. -/
  sqrt : α → α
  /-- The function `std::tanh` / `tanhf`. -/
  tanh : α → α
  /-- The function `std::atan`. -/
  atan : α → α
  /-- The constant `M_PI` of `<cmath>`, the `double` nearest to π. -/
  pi : α

/-- The real-number interpretation of `<cmath>`. -/
noncomputable def Libm.real : Libm ℝ where
  exp := Real.exp
  pow := fun x y => x ^ y
  sqrt := Real.sqrt
  tanh := Real.tanh
  atan := Real.arctan
  pi := Real.pi

/-- The fallback `#define M_PI` of `PluginProcessor.h` lines 8-10, used only where `<cmath>`
does not provide `M_PI`: the same constant written to 21 digits. -/
def M_PI : α := 3.14159265358979323846

/-- JUCE `jlimit (lowerLimit, upperLimit, valueToConstrain)`:
`value < lower ? lower : (upper < value ? upper : value)`. -/
def jlimit (lowerLimit upperLimit valueToConstrain : α) : α :=
  if valueToConstrain < lowerLimit then lowerLimit
  else if upperLimit < valueToConstrain then upperLimit
  else valueToConstrain

/-- The enumeration `ClipperType` (`PluginProcessor.h` lines 17-24). -/
inductive ClipperType where
  | HARD
  | QUINTIC
  | CUBIC
  | TANGENT
  | ALGEBRAIC
  | ARCTANGENT
  deriving DecidableEq

/-! ## `DualEnvelopeDetector` (lines 98-145) -/

/-- Members of `class DualEnvelopeDetector`. -/
structure DualEnvelopeDetector (α : Type) where
  fastAttackCoeff : α
  fastReleaseCoeff : α
  slowAttackCoeff : α
  slowReleaseCoeff : α
  fastEnvelope : α
  slowEnvelope : α

/-- The constructor `DualEnvelopeDetector()`: it initialises the two envelopes only; the four
coefficients are indeterminate until `prepare` and are given as arguments. -/
def DualEnvelopeDetector.new (c1 c2 c3 c4 : α) : DualEnvelopeDetector α :=
  { fastAttackCoeff := c1, fastReleaseCoeff := c2, slowAttackCoeff := c3,
    slowReleaseCoeff := c4, fastEnvelope := 0, slowEnvelope := 0 }

/-- The method `DualEnvelopeDetector::prepare` (lines 107-115). -/
def DualEnvelopeDetector.prepare (m : Libm α) (d : DualEnvelopeDetector α) (sampleRate : α) :
    DualEnvelopeDetector α :=
  { d with
    fastAttackCoeff := 0
    fastReleaseCoeff := m.exp (-1 / (sampleRate * 0.01))
    slowAttackCoeff := m.exp (-1 / (sampleRate * 0.05))
    slowReleaseCoeff := m.exp (-1 / (sampleRate * 0.1)) }

/-- The method `DualEnvelopeDetector::process` (lines 117-136): the updated detector and the
returned transient strength. -/
def DualEnvelopeDetector.process (d : DualEnvelopeDetector α) (input : α) :
    DualEnvelopeDetector α × α :=
  let absInput := |input|
  let fastEnvelope :=
    if absInput > d.fastEnvelope then absInput
    else d.fastEnvelope * d.fastReleaseCoeff + absInput * (1 - d.fastReleaseCoeff)
  let slowEnvelope :=
    if absInput > d.slowEnvelope then
      d.slowEnvelope * d.slowAttackCoeff + absInput * (1 - d.slowAttackCoeff)
    else d.slowEnvelope * d.slowReleaseCoeff + absInput * (1 - d.slowReleaseCoeff)
  ({ d with fastEnvelope := fastEnvelope, slowEnvelope := slowEnvelope },
    max 0 (fastEnvelope - slowEnvelope))

/-- The method `DualEnvelopeDetector::reset` (lines 138-140). -/
def DualEnvelopeDetector.reset (d : DualEnvelopeDetector α) : DualEnvelopeDetector α :=
  { d with fastEnvelope := 0, slowEnvelope := 0 }

/-- The detector after `process` has been called on each sample of `xs` in turn. -/
def DualEnvelopeDetector.processAll (d : DualEnvelopeDetector α) : List α → DualEnvelopeDetector α
  | [] => d
  | x :: xs => DualEnvelopeDetector.processAll (d.process x).1 xs

/-- A call made on a detector once it is prepared: `process (input)`, from the sample loop, or
`reset ()`, from `TransientDesigner::reset`. -/
inductive DetectorCall (α : Type) where
  | process (input : α) : DetectorCall α
  | reset : DetectorCall α

/-- The detector after a sequence of `process` and `reset` calls, carried out in order. -/
def DualEnvelopeDetector.run (d : DualEnvelopeDetector α) :
    List (DetectorCall α) → DualEnvelopeDetector α
  | [] => d
  | DetectorCall.process input :: rest => DualEnvelopeDetector.run (d.process input).1 rest
  | DetectorCall.reset :: rest => DualEnvelopeDetector.run d.reset rest

/-! ## `EnvelopeFollower` (lines 149-177) -/

/-- Members of `class EnvelopeFollower`. -/
structure EnvelopeFollower (α : Type) where
  attack_coeff : α
  release_coeff : α
  envelope : α

/-- The constructor `EnvelopeFollower()`: it initialises `envelope` only; the coefficients are
indeterminate until `set_times` and are given as arguments. -/
def EnvelopeFollower.new (c1 c2 : α) : EnvelopeFollower α :=
  { attack_coeff := c1, release_coeff := c2, envelope := 0 }

/-- The method `EnvelopeFollower::set_times` (lines 157-160). -/
def EnvelopeFollower.set_times (m : Libm α) (e : EnvelopeFollower α)
    (attack_ms release_ms sample_rate : α) : EnvelopeFollower α :=
  { e with
    attack_coeff := m.exp (-1 / (attack_ms * sample_rate * 0.001))
    release_coeff := m.exp (-1 / (release_ms * sample_rate * 0.001)) }

/-- The method `EnvelopeFollower::process` (lines 162-172): the updated follower and the returned
envelope. -/
def EnvelopeFollower.process (e : EnvelopeFollower α) (input : α) : EnvelopeFollower α × α :=
  let input_level := |input|
  let envelope :=
    if input_level > e.envelope then
      e.attack_coeff * e.envelope + (1 - e.attack_coeff) * input_level
    else e.release_coeff * e.envelope + (1 - e.release_coeff) * input_level
  ({ e with envelope := envelope }, envelope)

/-- The method `EnvelopeFollower::reset` (lines 174-176). -/
def EnvelopeFollower.reset (e : EnvelopeFollower α) : EnvelopeFollower α :=
  { e with envelope := 0 }

/-- The follower after `process` has been called on each sample of `xs` in turn. -/
def EnvelopeFollower.processAll (e : EnvelopeFollower α) : List α → EnvelopeFollower α
  | [] => e
  | x :: xs => EnvelopeFollower.processAll (e.process x).1 xs

/-! ## `TransientDesigner` (lines 212-663) -/

/-- Members of `class TransientDesigner` (lines 540-586). -/
structure TransientDesigner (α : Type) where
  sampleRate : α
  numChannels : Nat
  attackEnvelopes : List (EnvelopeFollower α)
  sustainEnvelopes : List (EnvelopeFollower α)
  dualEnvelopeDetectors : List (DualEnvelopeDetector α)
  attackAmount : α
  sustainAmount : α
  attackTime : α
  releaseTime : α
  attackThreshold : α
  sustainThreshold : α
  mix : α
  maskingThreshold : α
  criticalBandWeight : α
  temporalWeight : α
  snapAmount : α
  snapHardness : α
  harmonicEnhancement : α
  focus : α
  hfGain : α
  hfSaturation : α
  tapeClip : Bool
  clipperEnabled : Bool
  clipperCeiling : α
  clipperDrive : α
  clipperType : ClipperType
  autoGainComp : Bool
  inputRMS : α
  outputRMS : α
  rmsCoeff : α

/-- A default-constructed `TransientDesigner`: the member initialisers of lines 540-586 and
empty vectors. -/
def TransientDesigner.new : TransientDesigner α :=
  { sampleRate := 44100.0
    numChannels := 2
    attackEnvelopes := []
    sustainEnvelopes := []
    dualEnvelopeDetectors := []
    attackAmount := 0.0
    sustainAmount := 0.0
    attackTime := 1.0
    releaseTime := 100.0
    attackThreshold := 0.1
    sustainThreshold := 0.1
    mix := 1.0
    maskingThreshold := -15.0
    criticalBandWeight := 1.0
    temporalWeight := 1.0
    snapAmount := 0.0
    snapHardness := 1.0
    harmonicEnhancement := 0.0
    focus := 1.0
    hfGain := 1.0
    hfSaturation := 0.0
    tapeClip := false
    clipperEnabled := false
    clipperCeiling := 0.8
    clipperDrive := 2.0
    clipperType := ClipperType.QUINTIC
    autoGainComp := true
    inputRMS := 0.0
    outputRMS := 0.0
    rmsCoeff := 0.999 }

/-- The method `TransientDesigner::reset` (lines 240-248). -/
def TransientDesigner.reset (td : TransientDesigner α) : TransientDesigner α :=
  { td with
    attackEnvelopes := td.attackEnvelopes.map EnvelopeFollower.reset
    sustainEnvelopes := td.sustainEnvelopes.map EnvelopeFollower.reset
    dualEnvelopeDetectors := td.dualEnvelopeDetectors.map DualEnvelopeDetector.reset }

/-- The method `TransientDesigner::prepare` (lines 215-238).  The three vectors are cleared and
refilled with `numChannels` default-constructed elements; `indet k` stands for the indeterminate
value of the `k`-th coefficient that the default constructors leave uninitialised. -/
def TransientDesigner.prepare (m : Libm α) (td : TransientDesigner α) (sampleRate : α)
    (numChannels : Nat) (indet : Nat → α) : TransientDesigner α :=
  let attackEnvelopes := (List.range numChannels).map
    (fun ch => EnvelopeFollower.new (indet (8 * ch)) (indet (8 * ch + 1)))
  let sustainEnvelopes := (List.range numChannels).map
    (fun ch => EnvelopeFollower.new (indet (8 * ch + 2)) (indet (8 * ch + 3)))
  let dualEnvelopeDetectors := (List.range numChannels).map
    (fun ch => DualEnvelopeDetector.new (indet (8 * ch + 4)) (indet (8 * ch + 5))
      (indet (8 * ch + 6)) (indet (8 * ch + 7)))
  TransientDesigner.reset
    { td with
      sampleRate := sampleRate
      numChannels := numChannels
      attackEnvelopes := attackEnvelopes
      sustainEnvelopes := sustainEnvelopes
      dualEnvelopeDetectors :=
        dualEnvelopeDetectors.map (fun detector => detector.prepare m sampleRate) }

/-- The setter `setAttackAmount` (line 250). -/
def TransientDesigner.setAttackAmount (td : TransientDesigner α) (amount : α) :
    TransientDesigner α :=
  { td with attackAmount := amount }

/-- The setter `setSustainAmount` (line 251). -/
def TransientDesigner.setSustainAmount (td : TransientDesigner α) (amount : α) :
    TransientDesigner α :=
  { td with sustainAmount := amount }

/-- The setter `setAttackTime` (lines 252-256). -/
def TransientDesigner.setAttackTime (m : Libm α) (td : TransientDesigner α) (time : α) :
    TransientDesigner α :=
  { td with
    attackTime := time
    attackEnvelopes :=
      td.attackEnvelopes.map (fun env => env.set_times m time td.releaseTime td.sampleRate) }

/-- The setter `setReleaseTime` (lines 257-263). -/
def TransientDesigner.setReleaseTime (m : Libm α) (td : TransientDesigner α) (time : α) :
    TransientDesigner α :=
  { td with
    releaseTime := time
    attackEnvelopes :=
      td.attackEnvelopes.map (fun env => env.set_times m td.attackTime time td.sampleRate)
    sustainEnvelopes :=
      td.sustainEnvelopes.map (fun env => env.set_times m td.attackTime time td.sampleRate) }

/-- The setter `setAttackThreshold` (line 264). -/
def TransientDesigner.setAttackThreshold (td : TransientDesigner α) (threshold : α) :
    TransientDesigner α :=
  { td with attackThreshold := threshold }

/-- The setter `setSustainThreshold` (line 265). -/
def TransientDesigner.setSustainThreshold (td : TransientDesigner α) (threshold : α) :
    TransientDesigner α :=
  { td with sustainThreshold := threshold }

/-- The setter `setMix` (line 267). -/
def TransientDesigner.setMix (td : TransientDesigner α) (mixAmount : α) : TransientDesigner α :=
  { td with mix := mixAmount }

/-- The setter `setMaskingThreshold` (line 268). -/
def TransientDesigner.setMaskingThreshold (td : TransientDesigner α) (threshold : α) :
    TransientDesigner α :=
  { td with maskingThreshold := threshold }

/-- The setter `setCriticalBandWeight` (line 269). -/
def TransientDesigner.setCriticalBandWeight (td : TransientDesigner α) (weight : α) :
    TransientDesigner α :=
  { td with criticalBandWeight := weight }

/-- The setter `setTemporalWeight` (line 270). -/
def TransientDesigner.setTemporalWeight (td : TransientDesigner α) (weight : α) :
    TransientDesigner α :=
  { td with temporalWeight := weight }

/-- The setter `setSnapAmount` (line 271). -/
def TransientDesigner.setSnapAmount (td : TransientDesigner α) (amount : α) :
    TransientDesigner α :=
  { td with snapAmount := amount }

/-- The setter `setSnapHardness` (line 272). -/
def TransientDesigner.setSnapHardness (td : TransientDesigner α) (hardness : α) :
    TransientDesigner α :=
  { td with snapHardness := hardness }

/-- The setter `setHarmonicEnhancement` (line 273). -/
def TransientDesigner.setHarmonicEnhancement (td : TransientDesigner α) (enhancement : α) :
    TransientDesigner α :=
  { td with harmonicEnhancement := enhancement }

/-- The setter `setFocus` (line 276). -/
def TransientDesigner.setFocus (td : TransientDesigner α) (amount : α) : TransientDesigner α :=
  { td with focus := amount }

/-- The setter `setHFGain` (line 277). -/
def TransientDesigner.setHFGain (td : TransientDesigner α) (gain : α) : TransientDesigner α :=
  { td with hfGain := gain }

/-- The setter `setHFSaturation` (line 278). -/
def TransientDesigner.setHFSaturation (td : TransientDesigner α) (saturation : α) :
    TransientDesigner α :=
  { td with hfSaturation := saturation }

/-- The setter `setTapeClip` (line 279). -/
def TransientDesigner.setTapeClip (td : TransientDesigner α) (enabled : Bool) :
    TransientDesigner α :=
  { td with tapeClip := enabled }

/-- The setter `setAutoGainComp` (line 280). -/
def TransientDesigner.setAutoGainComp (td : TransientDesigner α) (enabled : Bool) :
    TransientDesigner α :=
  { td with autoGainComp := enabled }

/-- The setter `setClipperEnabled` (line 283). -/
def TransientDesigner.setClipperEnabled (td : TransientDesigner α) (enabled : Bool) :
    TransientDesigner α :=
  { td with clipperEnabled := enabled }

/-- The setter `setClipperCeiling` (line 284). -/
def TransientDesigner.setClipperCeiling (td : TransientDesigner α) (ceiling : α) :
    TransientDesigner α :=
  { td with clipperCeiling := ceiling }

/-- The setter `setClipperDrive` (line 285). -/
def TransientDesigner.setClipperDrive (td : TransientDesigner α) (drive : α) :
    TransientDesigner α :=
  { td with clipperDrive := drive }

/-- The setter `setClipperType` (line 286). -/
def TransientDesigner.setClipperType (td : TransientDesigner α) (type : ClipperType) :
    TransientDesigner α :=
  { td with clipperType := type }

/-- The method `TransientDesigner::processSnapWaveshaper` (lines 589-610). -/
def TransientDesigner.processSnapWaveshaper (td : TransientDesigner α) (input : α) : α :=
  if input = 0 then 1
  else
    let absInput := |input|
    if absInput < 0.1 then
      let boost := absInput * td.snapHardness * 0.5
      1 + boost
    else if absInput < 0.5 then
      let normalized := absInput / 0.5
      let saturation := normalized * normalized * td.snapHardness * 0.3
      1 + saturation
    else
      let excess := absInput - 0.5
      let softLimit := excess / (1 + excess * td.snapHardness)
      1 + 0.3 + softLimit * 0.2

/-- The method `TransientDesigner::processClipper` (lines 614-655).  It reads no member, so the
object is not an argument; `M_PI` is the constant `m.pi` of `<cmath>`. -/
def processClipper (m : Libm α) (input ceiling drive : α) (type : ClipperType) : α :=
  let drivenInput := input * drive
  let absInput := |drivenInput|
  if absInput ≤ ceiling then drivenInput
  else
    let sign : α := if drivenInput ≥ 0 then 1 else -1
    let normalizedInput := absInput / ceiling
    let clippedValue : α :=
      match type with
      | ClipperType.HARD => 1
      | ClipperType.QUINTIC => min 1 (normalizedInput - (1 / 5) * normalizedInput ^ 5)
      | ClipperType.CUBIC => min 1 (normalizedInput - (1 / 3) * normalizedInput ^ 3)
      | ClipperType.TANGENT => m.tanh (normalizedInput * 0.7) / m.tanh 0.7
      | ClipperType.ALGEBRAIC => normalizedInput / m.sqrt (1 + normalizedInput * normalizedInput)
      | ClipperType.ARCTANGENT => (2 / m.pi) * m.atan (normalizedInput * m.pi * 0.5)
    sign * clippedValue * ceiling

/-- The method `TransientDesigner::processTapeClipper` (lines 658-662). -/
def processTapeClipper (m : Libm α) (sample : α) : α :=
  let x := sample
  jlimit (-0.95) 0.95 (m.tanh (x ^ 5 + x) * 0.95)

/-! ### The loop body of `TransientDesigner::process` (lines 307-522), stage by stage

`transientDetected` is the value returned by the channel's `DualEnvelopeDetector`. -/

/-- Stage 4, attack half (lines 330-344): the attack gain before weighting. -/
def TransientDesigner.rawAttackGain (td : TransientDesigner α) (transientDetected : α) : α :=
  if td.attackAmount > 0 then
    let attackScale := td.attackAmount / 100
    1 + attackScale * 3 * transientDetected
  else if td.attackAmount < 0 then
    let attackReduction := -td.attackAmount / 100
    1 / (1 + attackReduction * 3 * transientDetected)
  else 1

/-- Stage 4, sustain half (lines 331, 346-357): the sustain gain before weighting. -/
def TransientDesigner.rawSustainGain (td : TransientDesigner α) : α :=
  if td.sustainAmount > 0 then
    let sustainScale := td.sustainAmount / 100
    1 + sustainScale * 3
  else if td.sustainAmount < 0 then
    let sustainReduction := -td.sustainAmount / 100
    1 / (1 + sustainReduction * 3)
  else 1

/-- The attack-path SNAP factor `snapGain` (lines 371-382). -/
def TransientDesigner.snapGain (td : TransientDesigner α) (transientDetected : α) : α :=
  if td.snapAmount > 0 then
    let normalizedTransient := min 1 (transientDetected * 5)
    let snapInput := td.snapAmount / 100 * (0.2 + normalizedTransient * 0.5)
    min 2 (td.processSnapWaveshaper snapInput)
  else 1

/-- The sustain-path SNAP factor `sustainSnapGain` (lines 386-393). -/
def TransientDesigner.sustainSnapGain (td : TransientDesigner α) : α :=
  if td.snapAmount > 0 then
    let sustainSnapInput := td.snapAmount / 300
    min 1.3 (td.processSnapWaveshaper sustainSnapInput)
  else 1

/-- Stages 4-8 for the attack gain (lines 330-423): the value of `attackGain` just before the
safety limiting of line 426. -/
def TransientDesigner.attackGainUnclamped (td : TransientDesigner α) (transientDetected : α) : α :=
  let attackGain := td.rawAttackGain transientDetected
  let psychoacousticWeight := 1 + (td.criticalBandWeight - 1) * transientDetected
  let attackGain := attackGain * psychoacousticWeight
  let attackGain := attackGain * td.snapGain transientDetected
  let attackGain :=
    if td.harmonicEnhancement > 0 then
      let harmonicScale := 0.1 + transientDetected * 0.9
      let harmonicContent := attackGain * attackGain * 0.3
      attackGain + harmonicContent * td.harmonicEnhancement * 0.06 * harmonicScale
    else attackGain
  if td.focus > 1 then attackGain * td.focus else attackGain

/-- Stages 4-8 for the sustain gain (lines 331-417): the value of `sustainGain` just before the
safety limiting of line 427. -/
def TransientDesigner.sustainGainUnclamped (td : TransientDesigner α) (transientDetected : α) : α :=
  let sustainGain := td.rawSustainGain
  let sustainGain := sustainGain * (1 + (td.temporalWeight - 1) * (1 - transientDetected))
  let sustainGain := sustainGain * td.sustainSnapGain
  if td.harmonicEnhancement > 0 then
    let sustainHarmonicContent := sustainGain * sustainGain * 0.15
    sustainGain + sustainHarmonicContent * td.harmonicEnhancement * 0.03
  else sustainGain

/-- Stage 8.5 (line 426): `attackGain` as it reaches component assembly. -/
def TransientDesigner.attackGain (td : TransientDesigner α) (transientDetected : α) : α :=
  max 0.1 (min 5 (td.attackGainUnclamped transientDetected))

/-- Stage 8.5 (line 427): `sustainGain` as it reaches component assembly. -/
def TransientDesigner.sustainGain (td : TransientDesigner α) (transientDetected : α) : α :=
  max 0.1 (min 3 (td.sustainGainUnclamped transientDetected))

/-- Stage 9 (lines 436-448): `attackComponent`. -/
def TransientDesigner.attackComponent (m : Libm α) (td : TransientDesigner α)
    (inputSample transientDetected : α) : α :=
  if td.attackAmount > 0 then
    let expValue := max (-5) (min 5 (td.attackGain transientDetected - 1))
    let expGain := m.pow 2 expValue
    ((inputSample * expGain) - inputSample) * 2
  else if td.attackAmount < 0 then inputSample * td.attackGain transientDetected
  else 0

/-- Stage 9 (line 451): `sustainComponent`. -/
def TransientDesigner.sustainComponent (td : TransientDesigner α)
    (inputSample transientDetected : α) : α :=
  inputSample * td.sustainGain transientDetected

/-- Stage 10 (lines 455-462): `physicalSustainEnv`. -/
def TransientDesigner.physicalSustainEnv (m : Libm α) (td : TransientDesigner α)
    (transientDetected : α) : α :=
  let physicalSustainEnv := 1 - transientDetected
  if td.sustainAmount < 0 then
    let sustainReduction := -td.sustainAmount / 100
    m.pow physicalSustainEnv (1 + sustainReduction * 3)
  else physicalSustainEnv

/-- Stage 11 (lines 465-480): `processedSample` before HF saturation and the tape clipper. -/
def TransientDesigner.preSaturation (m : Libm α) (td : TransientDesigner α)
    (inputSample transientDetected : α) : α :=
  let attackComponent := td.attackComponent m inputSample transientDetected
  let sustainComponent := td.sustainComponent inputSample transientDetected
  let physicalSustainEnv := td.physicalSustainEnv m transientDetected
  if transientDetected > 0.05 then
    let attackMix := min 1 (transientDetected * 2)
    sustainComponent + (attackComponent * attackMix)
  else
    let finalSustainComponent := sustainComponent
    if td.sustainAmount < 0 then finalSustainComponent * physicalSustainEnv
    else finalSustainComponent

/-- The HF saturation stage (lines 483-487). -/
def TransientDesigner.hfSaturate (td : TransientDesigner α) (processedSample : α) : α :=
  if td.hfSaturation > 0 then
    let hfContent := processedSample * processedSample * td.hfGain
    processedSample + hfContent * (td.hfSaturation / 100) * 0.3
  else processedSample

/-- Lines 465-492: `processedSample` as it reaches the mix control. -/
def TransientDesigner.processedSample (m : Libm α) (td : TransientDesigner α)
    (inputSample transientDetected : α) : α :=
  let processedSample := td.hfSaturate (td.preSaturation m inputSample transientDetected)
  if td.tapeClip then processTapeClipper m processedSample else processedSample

/-- Stages 13 and 13.5 (lines 495-498): `mixedSample` after the hard limit to `[-2, 2]`. -/
def TransientDesigner.mixedSample (td : TransientDesigner α) (inputSample processedSample : α) :
    α :=
  let mixedSample := inputSample * (1 - td.mix) + processedSample * td.mix
  max (-2) (min 2 mixedSample)

/-- The value of `makeupGain` in stage 14 (lines 508-512), from the updated RMS members. -/
def makeupGain (m : Libm α) (inputRMS outputRMS : α) : α :=
  if outputRMS > 1e-10 ∧ inputRMS > 1e-10 then max 0.1 (min 3 (m.sqrt (inputRMS / outputRMS)))
  else 1

/-- What one pass through the loop body leaves behind: the three per-channel objects, the two
RMS members and the sample written to `output[sample]`. -/
structure SampleResult (α : Type) where
  detector : DualEnvelopeDetector α
  attackEnvelope : EnvelopeFollower α
  sustainEnvelope : EnvelopeFollower α
  inputRMS : α
  outputRMS : α
  output : α

/-- The loop body of `TransientDesigner::process` (lines 307-522) for one sample, given the
channel's detector and followers. -/
def TransientDesigner.processSample (m : Libm α) (td : TransientDesigner α)
    (detector : DualEnvelopeDetector α) (attackEnvelope sustainEnvelope : EnvelopeFollower α)
    (inputSample : α) : SampleResult α :=
  let (detector, transientDetected) := detector.process inputSample
  let (attackEnvelope, _attackEnv) := attackEnvelope.process inputSample
  let (sustainEnvelope, _sustainEnv) := sustainEnvelope.process inputSample
  let processedSample := td.processedSample m inputSample transientDetected
  let mixedSample := td.mixedSample inputSample processedSample
  let inputRMS :=
    if td.autoGainComp then td.rmsCoeff * td.inputRMS + (1 - td.rmsCoeff) * (inputSample * inputSample)
    else td.inputRMS
  let outputRMS :=
    if td.autoGainComp then td.rmsCoeff * td.outputRMS + (1 - td.rmsCoeff) * (mixedSample * mixedSample)
    else td.outputRMS
  let mixedSample :=
    if td.autoGainComp then mixedSample * makeupGain m inputRMS outputRMS else mixedSample
  let mixedSample :=
    if td.clipperEnabled then processClipper m mixedSample td.clipperCeiling td.clipperDrive td.clipperType
    else mixedSample
  { detector := detector, attackEnvelope := attackEnvelope, sustainEnvelope := sustainEnvelope,
    inputRMS := inputRMS, outputRMS := outputRMS, output := mixedSample }

/-- One iteration of the sample loop on channel `ch`: the objects are read from and written back
to the three vectors at index `ch`. -/
def TransientDesigner.stepSample (m : Libm α) (td : TransientDesigner α) (ch : Nat)
    (inputSample : α) : Option (TransientDesigner α × α) :=
  match td.dualEnvelopeDetectors[ch]?, td.attackEnvelopes[ch]?, td.sustainEnvelopes[ch]? with
  | some detector, some attackEnvelope, some sustainEnvelope =>
    let r := td.processSample m detector attackEnvelope sustainEnvelope inputSample
    some ({ td with
            dualEnvelopeDetectors := td.dualEnvelopeDetectors.set ch r.detector
            attackEnvelopes := td.attackEnvelopes.set ch r.attackEnvelope
            sustainEnvelopes := td.sustainEnvelopes.set ch r.sustainEnvelope
            inputRMS := r.inputRMS
            outputRMS := r.outputRMS }, r.output)
  | _, _, _ => none

/-- The sample loop (lines 305-535) over the samples of channel `ch`. -/
def TransientDesigner.processChannel (m : Libm α) (td : TransientDesigner α) (ch : Nat) :
    List α → Option (TransientDesigner α × List α)
  | [] => some (td, [])
  | inputSample :: rest =>
    match td.stepSample m ch inputSample with
    | none => none
    | some (td1, out) =>
      match TransientDesigner.processChannel m td1 ch rest with
      | none => none
      | some (td2, outs) => some (td2, out :: outs)

/-- The channel loop (lines 300-536) from channel `ch` on, with `remaining` channels to go.  The
block holds one list of samples per channel and is processed in place. -/
def TransientDesigner.processChannels (m : Libm α) :
    Nat → Nat → TransientDesigner α → List (List α) → Option (TransientDesigner α × List (List α))
  | 0, _, td, block => some (td, block)
  | remaining + 1, ch, td, block =>
    match block[ch]? with
    | none => none
    | some input =>
      match td.processChannel m ch input with
      | none => none
      | some (td1, output) =>
        TransientDesigner.processChannels m remaining (ch + 1) td1 (block.set ch output)

/-- The method `TransientDesigner::process` (lines 290-537) on a replacing context. -/
def TransientDesigner.process (m : Libm α) (td : TransientDesigner α) (block : List (List α)) :
    Option (TransientDesigner α × List (List α)) :=
  TransientDesigner.processChannels m td.numChannels 0 td block

/-- Successive calls of `process`, one per block of the stream. -/
def TransientDesigner.processStream (m : Libm α) (td : TransientDesigner α) :
    List (List (List α)) → Option (TransientDesigner α × List (List (List α)))
  | [] => some (td, [])
  | block :: rest =>
    match td.process m block with
    | none => none
    | some (td1, out) =>
      match TransientDesigner.processStream m td1 rest with
      | none => none
      | some (td2, outs) => some (td2, out :: outs)

/-! ### Silent runs -/

/-- The follower's envelope after `n` samples of silence. -/
def EnvelopeFollower.afterSilence (e : EnvelopeFollower α) (n : Nat) : α :=
  (e.processAll (List.replicate n 0)).envelope

/-- The detector's fast envelope after `n` samples of silence. -/
def DualEnvelopeDetector.fastAfterSilence (d : DualEnvelopeDetector α) (n : Nat) : α :=
  (d.processAll (List.replicate n 0)).fastEnvelope

/-- The detector's slow envelope after `n` samples of silence. -/
def DualEnvelopeDetector.slowAfterSilence (d : DualEnvelopeDetector α) (n : Nat) : α :=
  (d.processAll (List.replicate n 0)).slowEnvelope

/-! ### Invariant of a run at `mix = 0` -/

/-- The state of a designer with `n` channels that passes its input through: `mix` is `0`, the
clipper is off, the two RMS members agree and the three vectors hold `n = numChannels`
elements. -/
def TransientDesigner.Transparent (td : TransientDesigner α) (n : Nat) : Prop :=
  td.mix = 0 ∧ td.clipperEnabled = false ∧ td.inputRMS = td.outputRMS ∧ td.numChannels = n ∧
    td.dualEnvelopeDetectors.length = n ∧ td.attackEnvelopes.length = n ∧
    td.sustainEnvelopes.length = n

/-! ### Host side: `AtakAtakAudioProcessor::updateParameters` (`PluginProcessor.cpp` lines 277-340) -/

/-- JUCE `Decibels::decibelsToGain (decibels)` with the default floor of -100 dB:
`decibels > -100 ? pow (10, decibels * 0.05) : 0`. -/
def decibelsToGain (m : Libm α) (decibels : α) : α :=
  if decibels > -100 then m.pow 10 (decibels * 0.05) else 0

/-- The current parameter values that `updateParameters` loads from the host's parameter tree
(`PluginProcessor.cpp` lines 287-339).  The choice parameter `clipperType` has the six entries
of `ClipperType`, to which its index is cast.  The input/output gains, `bypass` and
`resetToDefaults` never reach the transient designer and are left out. -/
structure HostParameters (α : Type) where
  attackAmount : α
  sustainAmount : α
  attackTime : α
  releaseTime : α
  attackThreshold : α
  sustainThreshold : α
  mix : α
  maskingThreshold : α
  criticalBandWeight : α
  temporalWeight : α
  fastAttackMs : α
  slowAttackMs : α
  releaseMs : α
  powerMemoryMs : α
  snapAmount : α
  snapHardness : α
  harmonicEnhancement : α
  focus : α
  hfGain : α
  hfSaturation : α
  tapeClip : Bool
  clipperEnabled : Bool
  clipperCeiling : α
  clipperType : ClipperType
  autoGainComp : Bool

/-- The calls that `AtakAtakAudioProcessor::updateParameters` makes on the transient designer
(`PluginProcessor.cpp` lines 287-340), in order.  The values `fastAttackMs`, `slowAttackMs`,
`releaseMs` and `powerMemoryMs` are loaded (lines 302-305) and passed to no setter. -/
def updateParameters (m : Libm α) (td : TransientDesigner α) (p : HostParameters α) :
    TransientDesigner α :=
  let td := td.setAttackAmount p.attackAmount
  let td := td.setSustainAmount p.sustainAmount
  let td := td.setAttackTime m p.attackTime
  let td := td.setReleaseTime m p.releaseTime
  let td := td.setAttackThreshold (decibelsToGain m p.attackThreshold)
  let td := td.setSustainThreshold (decibelsToGain m p.sustainThreshold)
  let td := td.setMix (p.mix / 100)
  let td := td.setMaskingThreshold p.maskingThreshold
  let td := td.setCriticalBandWeight p.criticalBandWeight
  let td := td.setTemporalWeight p.temporalWeight
  let td := td.setSnapAmount p.snapAmount
  let td := td.setSnapHardness p.snapHardness
  let td := td.setHarmonicEnhancement p.harmonicEnhancement
  let td := td.setFocus p.focus
  let td := td.setHFGain p.hfGain
  let td := td.setHFSaturation p.hfSaturation
  let td := td.setTapeClip p.tapeClip
  let td := td.setClipperEnabled p.clipperEnabled
  let td := td.setClipperCeiling p.clipperCeiling
  let td := td.setClipperType p.clipperType
  td.setAutoGainComp p.autoGainComp

/-- The host parameter values other than the legacy ones: `attackTime`, `releaseTime`, the three
thresholds and the four detector times are blanked. -/
def HostParameters.audioParameters (p : HostParameters α) : HostParameters α :=
  { p with
    attackTime := 0, releaseTime := 0, attackThreshold := 0, sustainThreshold := 0,
    maskingThreshold := 0, fastAttackMs := 0, slowAttackMs := 0, releaseMs := 0,
    powerMemoryMs := 0 }

/-- The designer state other than the legacy members: `attackTime`, `releaseTime`, the three
thresholds and the two follower vectors are blanked; the detectors, the RMS accumulators and
the remaining parameters are kept. -/
def TransientDesigner.audioView (td : TransientDesigner α) : TransientDesigner α :=
  { td with
    attackTime := 0, releaseTime := 0, attackThreshold := 0, sustainThreshold := 0,
    maskingThreshold := 0, attackEnvelopes := [], sustainEnvelopes := [] }

/-- The host parameter values at the defaults of `createParameterLayout`
(`PluginProcessor.cpp` lines 229-270). -/
def HostParameters.defaults : HostParameters α :=
  { attackAmount := 0.0, sustainAmount := 0.0, attackTime := 1.0, releaseTime := 100.0,
    attackThreshold := -40.0, sustainThreshold := -40.0, mix := 100.0,
    maskingThreshold := -15.0, criticalBandWeight := 1.0, temporalWeight := 1.0,
    fastAttackMs := 1.0, slowAttackMs := 15.0, releaseMs := 20.0, powerMemoryMs := 1.0,
    snapAmount := 0.0, snapHardness := 1.0, harmonicEnhancement := 0.0, focus := 1.0,
    hfGain := 1.0, hfSaturation := 0.0, tapeClip := false, clipperEnabled := false,
    clipperCeiling := 0.8, clipperType := ClipperType.QUINTIC, autoGainComp := true }

/-! ### Views of the designer state -/

/-- The members of a designer other than the three per-channel vectors: the parameters and the
two RMS accumulators. -/
def TransientDesigner.scalars (td : TransientDesigner α) : TransientDesigner α :=
  { td with attackEnvelopes := [], sustainEnvelopes := [], dualEnvelopeDetectors := [] }

/-- The members of a designer that `process` never writes: everything but the three per-channel
vectors and the two RMS accumulators. -/
def TransientDesigner.params (td : TransientDesigner α) : TransientDesigner α :=
  { td.scalars with inputRMS := 0, outputRMS := 0 }

/-- The three per-channel vectors hold `n = numChannels` elements, as after `prepare`. -/
def TransientDesigner.Sized (td : TransientDesigner α) (n : Nat) : Prop :=
  td.numChannels = n ∧ td.dualEnvelopeDetectors.length = n ∧ td.attackEnvelopes.length = n ∧
    td.sustainEnvelopes.length = n

/-- What channel `c` can see of a designer: the parameters and RMS accumulators, and the
channel's own detector and followers. -/
def TransientDesigner.channelView (td : TransientDesigner α) (c : Nat) :
    TransientDesigner α × Option (DualEnvelopeDetector α) × Option (EnvelopeFollower α) ×
      Option (EnvelopeFollower α) :=
  (td.scalars, td.dualEnvelopeDetectors[c]?, td.attackEnvelopes[c]?, td.sustainEnvelopes[c]?)

/-- The designer after the result `r` of one pass through the loop body on channel `ch` has
been written back. -/
def TransientDesigner.writeBack (td : TransientDesigner α) (ch : Nat) (r : SampleResult α) :
    TransientDesigner α :=
  { td with
    dualEnvelopeDetectors := td.dualEnvelopeDetectors.set ch r.detector
    attackEnvelopes := td.attackEnvelopes.set ch r.attackEnvelope
    sustainEnvelopes := td.sustainEnvelopes.set ch r.sustainEnvelope
    inputRMS := r.inputRMS
    outputRMS := r.outputRMS }

/-- The designer of the impulse scenario: default-constructed, prepared for one channel at
44100 Hz, then `attackAmount = 50`, `sustainAmount = 0`, `mix = 1`, auto gain compensation off
and clipper off through the setters. -/
def impulseDesigner (m : Libm α) (indet : Nat → α) : TransientDesigner α :=
  ((((((TransientDesigner.new : TransientDesigner α).prepare m 44100 1 indet).setAttackAmount
    50).setSustainAmount 0).setMix 1).setAutoGainComp false).setClipperEnabled false

/-! ### Concrete states on which the theorems are instantiated -/

/-- A follower with coefficients `1/2`, `3/4` and envelope `1`. -/
def sampleFollower : EnvelopeFollower ℚ :=
  { attack_coeff := 1 / 2, release_coeff := 3 / 4, envelope := 1 }

/-- A detector with instant attack, release coefficients `1/2` and `3/4`, and envelopes
`1` and `1/2`. -/
def sampleDetector : DualEnvelopeDetector ℚ :=
  { fastAttackCoeff := 0, fastReleaseCoeff := 1 / 2, slowAttackCoeff := 1 / 4,
    slowReleaseCoeff := 3 / 4, fastEnvelope := 1, slowEnvelope := 1 / 2 }

/-- A freshly constructed detector with release coefficients `1/2`. -/
def freshDetector : DualEnvelopeDetector α := DualEnvelopeDetector.new 0 (1 / 2) (1 / 2) (1 / 2)

/-- A freshly constructed follower with coefficients `1/2`. -/
def freshFollower : EnvelopeFollower α := EnvelopeFollower.new (1 / 2) (1 / 2)

/-! ### Invariant of a run at the member defaults -/

/-- The state of a run of `n` channels at the member defaults: every parameter but the sample
rate and the channel count has the value of its member initialiser, the two RMS members agree
and the three vectors hold `n = numChannels` elements. -/
def TransientDesigner.AtDefaults (td : TransientDesigner α) (n : Nat) : Prop :=
  td.params = { (TransientDesigner.new : TransientDesigner α).params with
      sampleRate := td.sampleRate, numChannels := n } ∧
    td.inputRMS = td.outputRMS ∧ td.Sized n

/-! ## Theorems -/

/-! ### Envelope trackers -/

/-- C1: for every detector state, every coefficient setting and every input sample,
`DualEnvelopeDetector.process` returns a value `≥ 0`, and that value is
`max(0, fastEnvelope - slowEnvelope)` of the envelopes as updated by the same call. -/
theorem DualEnvelopeDetector.process_nonneg_and_eq (d : DualEnvelopeDetector α) (input : α) :
    0 ≤ (d.process input).2 ∧
      (d.process input).2 =
        max 0 ((d.process input).1.fastEnvelope - (d.process input).1.slowEnvelope) :=
  ⟨le_max_left _ _, rfl⟩

/-- A convex combination `c * a + (1 - c) * b` with `0 ≤ c ≤ 1` lies between `min a b` and
`max a b`. -/
theorem convex_between (c a b : α) (hc0 : 0 ≤ c) (hc1 : c ≤ 1) :
    min a b ≤ c * a + (1 - c) * b ∧ c * a + (1 - c) * b ≤ max a b := by
  have h1 : 0 ≤ 1 - c := sub_nonneg.mpr hc1
  constructor
  · have ha : c * min a b ≤ c * a := mul_le_mul_of_nonneg_left (min_le_left a b) hc0
    have hb : (1 - c) * min a b ≤ (1 - c) * b := mul_le_mul_of_nonneg_left (min_le_right a b) h1
    linarith
  · have ha : c * a ≤ c * max a b := mul_le_mul_of_nonneg_left (le_max_left a b) hc0
    have hb : (1 - c) * b ≤ (1 - c) * max a b := mul_le_mul_of_nonneg_left (le_max_right a b) h1
    linarith

/-- C2: with attack and release coefficients in `(0,1)` and a stored envelope `≥ 0`,
`EnvelopeFollower.process` returns the new stored envelope `e'`, and
`min(envelope, |input|) ≤ e' ≤ max(envelope, |input|)`: no overshoot, and `e' ≥ 0`. -/
theorem EnvelopeFollower.process_between (e : EnvelopeFollower α) (input : α)
    (ha0 : 0 < e.attack_coeff) (ha1 : e.attack_coeff < 1)
    (hr0 : 0 < e.release_coeff) (hr1 : e.release_coeff < 1) (he : 0 ≤ e.envelope) :
    (e.process input).1.envelope = (e.process input).2 ∧
      min e.envelope |input| ≤ (e.process input).2 ∧
      (e.process input).2 ≤ max e.envelope |input| ∧
      0 ≤ (e.process input).2 := by
  have hmin : 0 ≤ min e.envelope |input| := le_min he (abs_nonneg input)
  have key : min e.envelope |input| ≤ (e.process input).2 ∧
      (e.process input).2 ≤ max e.envelope |input| := by
    unfold EnvelopeFollower.process
    dsimp only
    split_ifs
    · exact convex_between _ _ _ ha0.le ha1.le
    · exact convex_between _ _ _ hr0.le hr1.le
  exact ⟨rfl, key.1, key.2, hmin.trans key.1⟩

/-- C2 at `sampleFollower` and input `-3`: the hypotheses hold and the new envelope `2` lies
between `1` and `3`. -/
theorem EnvelopeFollower.process_between_witness :
    ((0 : ℚ) < sampleFollower.attack_coeff ∧ sampleFollower.attack_coeff < 1 ∧
        0 < sampleFollower.release_coeff ∧ sampleFollower.release_coeff < 1 ∧
        0 ≤ sampleFollower.envelope) ∧
      ((sampleFollower.process (-3)).1.envelope = (sampleFollower.process (-3)).2 ∧
        min sampleFollower.envelope |(-3 : ℚ)| ≤ (sampleFollower.process (-3)).2 ∧
        (sampleFollower.process (-3)).2 ≤ max sampleFollower.envelope |(-3 : ℚ)| ∧
        0 ≤ (sampleFollower.process (-3)).2) :=
  ⟨by norm_num [sampleFollower],
    EnvelopeFollower.process_between sampleFollower (-3)
      (by norm_num [sampleFollower]) (by norm_num [sampleFollower])
      (by norm_num [sampleFollower]) (by norm_num [sampleFollower])
      (by norm_num [sampleFollower])⟩

/-- One silent sample multiplies a non-negative follower envelope by the release
coefficient and leaves the coefficients alone. -/
theorem EnvelopeFollower.follower_process_zero (e : EnvelopeFollower α) (he : 0 ≤ e.envelope) :
    (e.process 0).1 = { e with envelope := e.release_coeff * e.envelope } := by
  unfold EnvelopeFollower.process
  simp [not_lt.mpr he]

/-- Closed form of the follower envelope on a silent run. -/
theorem EnvelopeFollower.follower_afterSilence_eq (n : Nat) (e : EnvelopeFollower α)
    (hr0 : 0 ≤ e.release_coeff) (he : 0 ≤ e.envelope) :
    e.afterSilence n = e.release_coeff ^ n * e.envelope := by
  induction n generalizing e with
  | zero => simp [EnvelopeFollower.afterSilence, EnvelopeFollower.processAll]
  | succ k ih =>
    have hstep := ih { e with envelope := e.release_coeff * e.envelope } hr0 (mul_nonneg hr0 he)
    unfold EnvelopeFollower.afterSilence at hstep ⊢
    rw [List.replicate_succ, EnvelopeFollower.processAll, EnvelopeFollower.follower_process_zero e he,
      hstep]
    ring

/-- One silent sample multiplies each non-negative detector envelope by its release
coefficient and leaves the coefficients alone. -/
theorem DualEnvelopeDetector.detector_process_zero (d : DualEnvelopeDetector α)
    (hf : 0 ≤ d.fastEnvelope) (hs : 0 ≤ d.slowEnvelope) :
    (d.process 0).1 =
      { d with
        fastEnvelope := d.fastEnvelope * d.fastReleaseCoeff
        slowEnvelope := d.slowEnvelope * d.slowReleaseCoeff } := by
  unfold DualEnvelopeDetector.process
  simp [not_lt.mpr hf, not_lt.mpr hs]

/-- Closed form of the two detector envelopes on a silent run. -/
theorem DualEnvelopeDetector.detector_afterSilence_eq (n : Nat) (d : DualEnvelopeDetector α)
    (hfr : 0 ≤ d.fastReleaseCoeff) (hsr : 0 ≤ d.slowReleaseCoeff)
    (hf : 0 ≤ d.fastEnvelope) (hs : 0 ≤ d.slowEnvelope) :
    d.fastAfterSilence n = d.fastReleaseCoeff ^ n * d.fastEnvelope ∧
      d.slowAfterSilence n = d.slowReleaseCoeff ^ n * d.slowEnvelope := by
  induction n generalizing d with
  | zero =>
    simp [DualEnvelopeDetector.fastAfterSilence, DualEnvelopeDetector.slowAfterSilence,
      DualEnvelopeDetector.processAll]
  | succ k ih =>
    have hstep := ih
      { d with
        fastEnvelope := d.fastEnvelope * d.fastReleaseCoeff
        slowEnvelope := d.slowEnvelope * d.slowReleaseCoeff }
      hfr hsr (mul_nonneg hf hfr) (mul_nonneg hs hsr)
    unfold DualEnvelopeDetector.fastAfterSilence DualEnvelopeDetector.slowAfterSilence
      at hstep ⊢
    rw [List.replicate_succ, DualEnvelopeDetector.processAll,
      DualEnvelopeDetector.detector_process_zero d hf hs, hstep.1, hstep.2]
    constructor <;> ring

/-- A geometric sequence `c ^ n * a` with `0 ≤ c < 1`, `0 ≤ a` is non-negative, non-increasing
and eventually below every positive bound. -/
theorem geometric_decay [Archimedean α] (c a : α) (hc0 : 0 ≤ c) (hc1 : c < 1) (ha : 0 ≤ a) :
    (∀ n : Nat, 0 ≤ c ^ n * a ∧ c ^ (n + 1) * a ≤ c ^ n * a) ∧
      ∀ eps : α, 0 < eps → ∃ N : Nat, ∀ n : Nat, N ≤ n → c ^ n * a < eps := by
  refine ⟨fun n => ⟨mul_nonneg (pow_nonneg hc0 n) ha, ?_⟩, fun eps heps => ?_⟩
  · have h1 : c ^ (n + 1) ≤ c ^ n := by
      rw [pow_succ]
      exact mul_le_of_le_one_right (pow_nonneg hc0 n) hc1.le
    exact mul_le_mul_of_nonneg_right h1 ha
  · have hpos : 0 < eps / (a + 1) := div_pos heps (by linarith)
    obtain ⟨N, hN⟩ := exists_pow_lt_of_lt_one hpos hc1
    refine ⟨N, fun n hn => ?_⟩
    have h2 : c ^ n ≤ c ^ N := pow_le_pow_of_le_one hc0 hc1.le hn
    have h3 : c ^ n * a ≤ c ^ N * a := mul_le_mul_of_nonneg_right h2 ha
    have h4 : c ^ N * a ≤ eps / (a + 1) * a := mul_le_mul_of_nonneg_right hN.le ha
    have h5 : eps / (a + 1) * a < eps := by
      rw [div_mul_eq_mul_div, div_lt_iff₀ (by linarith)]
      nlinarith
    linarith

/-- C3: on an all-zero input run, with release coefficients in `(0,1)` and non-negative
starting envelopes, the `EnvelopeFollower` envelope and both `DualEnvelopeDetector` envelopes
equal `releaseCoeff ^ n` times their starting value after `n` silent samples, stay `≥ 0`, are
non-increasing from sample to sample, and for every `eps > 0` there is a run length `N` after
which each of them is below `eps`. -/
theorem silence_decays [Archimedean α] (e : EnvelopeFollower α) (d : DualEnvelopeDetector α)
    (her : 0 < e.release_coeff ∧ e.release_coeff < 1)
    (hfr : 0 < d.fastReleaseCoeff ∧ d.fastReleaseCoeff < 1)
    (hsr : 0 < d.slowReleaseCoeff ∧ d.slowReleaseCoeff < 1)
    (he : 0 ≤ e.envelope) (hf : 0 ≤ d.fastEnvelope) (hs : 0 ≤ d.slowEnvelope) :
    (∀ n : Nat,
        e.afterSilence n = e.release_coeff ^ n * e.envelope ∧
        d.fastAfterSilence n = d.fastReleaseCoeff ^ n * d.fastEnvelope ∧
        d.slowAfterSilence n = d.slowReleaseCoeff ^ n * d.slowEnvelope) ∧
      (∀ n : Nat,
        (0 ≤ e.afterSilence n ∧ e.afterSilence (n + 1) ≤ e.afterSilence n) ∧
        (0 ≤ d.fastAfterSilence n ∧ d.fastAfterSilence (n + 1) ≤ d.fastAfterSilence n) ∧
        (0 ≤ d.slowAfterSilence n ∧ d.slowAfterSilence (n + 1) ≤ d.slowAfterSilence n)) ∧
      ∀ eps : α, 0 < eps → ∃ N : Nat, ∀ n : Nat, N ≤ n →
        e.afterSilence n < eps ∧ d.fastAfterSilence n < eps ∧ d.slowAfterSilence n < eps := by
  have hE := fun n => EnvelopeFollower.follower_afterSilence_eq n e her.1.le he
  have hD := fun n => DualEnvelopeDetector.detector_afterSilence_eq n d hfr.1.le hsr.1.le hf hs
  have gE := geometric_decay e.release_coeff e.envelope her.1.le her.2 he
  have gF := geometric_decay d.fastReleaseCoeff d.fastEnvelope hfr.1.le hfr.2 hf
  have gS := geometric_decay d.slowReleaseCoeff d.slowEnvelope hsr.1.le hsr.2 hs
  refine ⟨fun n => ⟨hE n, (hD n).1, (hD n).2⟩, fun n => ?_, fun eps heps => ?_⟩
  · rw [hE n, hE (n + 1), (hD n).1, (hD (n + 1)).1, (hD n).2, (hD (n + 1)).2]
    exact ⟨gE.1 n, gF.1 n, gS.1 n⟩
  · obtain ⟨N1, h1⟩ := gE.2 eps heps
    obtain ⟨N2, h2⟩ := gF.2 eps heps
    obtain ⟨N3, h3⟩ := gS.2 eps heps
    refine ⟨max N1 (max N2 N3), fun n hn => ?_⟩
    have hn1 : N1 ≤ n := (le_max_left _ _).trans hn
    have hn2 : N2 ≤ n := ((le_max_left _ _).trans (le_max_right _ _)).trans hn
    have hn3 : N3 ≤ n := ((le_max_right _ _).trans (le_max_right _ _)).trans hn
    rw [hE n, (hD n).1, (hD n).2]
    exact ⟨h1 n hn1, h2 n hn2, h3 n hn3⟩

/-- C3 at `sampleFollower` and `sampleDetector`: the hypotheses hold, so the three envelopes
follow the closed form, decrease and fall below every tolerance. -/
theorem silence_decays_witness :
    ((0 : ℚ) < sampleFollower.release_coeff ∧ sampleFollower.release_coeff < 1 ∧
        0 < sampleDetector.fastReleaseCoeff ∧ sampleDetector.fastReleaseCoeff < 1 ∧
        0 < sampleDetector.slowReleaseCoeff ∧ sampleDetector.slowReleaseCoeff < 1 ∧
        0 ≤ sampleFollower.envelope ∧ 0 ≤ sampleDetector.fastEnvelope ∧
        0 ≤ sampleDetector.slowEnvelope) ∧
      ((∀ n : Nat,
          sampleFollower.afterSilence n =
            sampleFollower.release_coeff ^ n * sampleFollower.envelope ∧
          sampleDetector.fastAfterSilence n =
            sampleDetector.fastReleaseCoeff ^ n * sampleDetector.fastEnvelope ∧
          sampleDetector.slowAfterSilence n =
            sampleDetector.slowReleaseCoeff ^ n * sampleDetector.slowEnvelope) ∧
        (∀ n : Nat,
          (0 ≤ sampleFollower.afterSilence n ∧
            sampleFollower.afterSilence (n + 1) ≤ sampleFollower.afterSilence n) ∧
          (0 ≤ sampleDetector.fastAfterSilence n ∧
            sampleDetector.fastAfterSilence (n + 1) ≤ sampleDetector.fastAfterSilence n) ∧
          (0 ≤ sampleDetector.slowAfterSilence n ∧
            sampleDetector.slowAfterSilence (n + 1) ≤ sampleDetector.slowAfterSilence n)) ∧
        ∀ eps : ℚ, 0 < eps → ∃ N : Nat, ∀ n : Nat, N ≤ n →
          sampleFollower.afterSilence n < eps ∧ sampleDetector.fastAfterSilence n < eps ∧
            sampleDetector.slowAfterSilence n < eps) :=
  ⟨by norm_num [sampleFollower, sampleDetector],
    silence_decays sampleFollower sampleDetector
      (by norm_num [sampleFollower]) (by norm_num [sampleDetector])
      (by norm_num [sampleDetector]) (by norm_num [sampleFollower])
      (by norm_num [sampleDetector]) (by norm_num [sampleDetector])⟩

/-! ### The final clipper -/

/-- C5: for each of the six clipper types, if `|input * drive| ≤ ceiling` then `processClipper`
returns exactly the driven input `input * drive`. -/
theorem processClipper_below_ceiling (m : Libm α) (input ceiling drive : α) (type : ClipperType)
    (h : |input * drive| ≤ ceiling) :
    processClipper m input ceiling drive type = input * drive := by
  unfold processClipper
  simp [h]

/-- C5 at input `1/4`, ceiling `4/5`, drive `2`, type `QUINTIC`: the driven input `1/2` is below
the ceiling and is returned, not the undriven `1/4`. -/
theorem processClipper_below_ceiling_witness :
    |(1 / 4 : ℝ) * 2| ≤ 4 / 5 ∧
      processClipper Libm.real (1 / 4) (4 / 5) 2 ClipperType.QUINTIC = 1 / 4 * 2 :=
  ⟨by norm_num [abs_of_pos],
    processClipper_below_ceiling Libm.real (1 / 4) (4 / 5) 2 ClipperType.QUINTIC
      (by norm_num [abs_of_pos])⟩

/-- C6: for type `HARD`, `ceiling ≥ 0` and `|input * drive| > ceiling`, the magnitude of the
result is exactly `ceiling` and its sign is that of the driven input: the result is `ceiling`
for a positive and `-ceiling` for a negative driven input. -/
theorem processClipper_hard (m : Libm α) (input ceiling drive : α) (hc : 0 ≤ ceiling)
    (h : |input * drive| > ceiling) :
    |processClipper m input ceiling drive ClipperType.HARD| = ceiling ∧
      (0 < input * drive → processClipper m input ceiling drive ClipperType.HARD = ceiling) ∧
      (input * drive < 0 → processClipper m input ceiling drive ClipperType.HARD = -ceiling) := by
  have hval : processClipper m input ceiling drive ClipperType.HARD =
      (if input * drive ≥ 0 then 1 else -1) * 1 * ceiling := by
    unfold processClipper
    simp [not_le.mpr h]
  rw [hval]
  by_cases hd : input * drive ≥ 0
  · rw [if_pos hd, one_mul, one_mul]
    exact ⟨abs_of_nonneg hc, fun _ => rfl, fun hneg => absurd hd (not_le.mpr hneg)⟩
  · rw [if_neg hd, mul_one, neg_one_mul, abs_neg]
    exact ⟨abs_of_nonneg hc, fun hpos => absurd hpos.le hd, fun _ => rfl⟩

/-- C6 at input `-1`, ceiling `4/5`, drive `2`: the driven input `-2` exceeds the ceiling and
the result is `-4/5`. -/
theorem processClipper_hard_witness :
    ((0 : ℝ) ≤ 4 / 5 ∧ |(-1 : ℝ) * 2| > 4 / 5) ∧
      (|processClipper Libm.real (-1) (4 / 5) 2 ClipperType.HARD| = 4 / 5 ∧
        (0 < (-1 : ℝ) * 2 → processClipper Libm.real (-1) (4 / 5) 2 ClipperType.HARD = 4 / 5) ∧
        ((-1 : ℝ) * 2 < 0 →
          processClipper Libm.real (-1) (4 / 5) 2 ClipperType.HARD = -(4 / 5))) :=
  ⟨by norm_num [abs_of_pos],
    processClipper_hard Libm.real (-1) (4 / 5) 2 (by norm_num) (by norm_num [abs_of_pos])⟩

/-- Doubling the argument of `tanh` at `0.7` raises its value: `tanh 1.4 > tanh 0.7 > 0`. -/
theorem tanh_double_gt : 0 < Real.tanh 0.7 ∧ Real.tanh 0.7 < Real.tanh (2 * 0.7) := by
  have hs : 0 < Real.sinh 0.7 := Real.sinh_pos_iff.mpr (by norm_num)
  have hc : 0 < Real.cosh 0.7 := Real.cosh_pos _
  have hsq : Real.cosh 0.7 ^ 2 = Real.sinh 0.7 ^ 2 + 1 := Real.cosh_sq _
  have h2c : 0 < Real.cosh (2 * 0.7) := Real.cosh_pos _
  rw [Real.tanh_eq_sinh_div_cosh, Real.tanh_eq_sinh_div_cosh, Real.sinh_two_mul]
  refine ⟨div_pos hs hc, ?_⟩
  rw [div_lt_div_iff₀ hc h2c, Real.cosh_two_mul]
  nlinarith [mul_pos hs hc, mul_pos (mul_pos hs hc) hc]

/-- C7 (evaluation at failing inputs): with ceiling `0.8` and drive `2`, the `QUINTIC` curve
maps input `0.8` to `-3.52`, the `CUBIC` curve maps input `1.2` to `-4.8`, and the `TANGENT`
curve maps input `0.8` to a value above `0.8`; each result has a magnitude above the ceiling. -/
theorem processClipper_exceeds_ceiling :
    processClipper Libm.real 0.8 0.8 2 ClipperType.QUINTIC = -3.52 ∧
      ¬ |processClipper Libm.real 0.8 0.8 2 ClipperType.QUINTIC| ≤ 0.8 ∧
      processClipper Libm.real 1.2 0.8 2 ClipperType.CUBIC = -4.8 ∧
      ¬ |processClipper Libm.real 1.2 0.8 2 ClipperType.CUBIC| ≤ 0.8 ∧
      ¬ |processClipper Libm.real 0.8 0.8 2 ClipperType.TANGENT| ≤ 0.8 := by
  have hq : processClipper Libm.real 0.8 0.8 2 ClipperType.QUINTIC = -3.52 := by
    unfold processClipper
    norm_num [abs_of_pos]
  have hcu : processClipper Libm.real 1.2 0.8 2 ClipperType.CUBIC = -4.8 := by
    unfold processClipper
    norm_num [abs_of_pos]
  have ht : processClipper Libm.real 0.8 0.8 2 ClipperType.TANGENT =
      Real.tanh (2 * 0.7) / Real.tanh 0.7 * 0.8 := by
    unfold processClipper
    norm_num [abs_of_pos, Libm.real]
  refine ⟨hq, ?_, hcu, ?_, ?_⟩
  · rw [hq]; norm_num [abs_of_neg]
  · rw [hcu]; norm_num [abs_of_neg]
  · rw [ht]
    have h := tanh_double_gt
    have h1 : 1 < Real.tanh (2 * 0.7) / Real.tanh 0.7 := (one_lt_div h.1).mpr h.2
    have h2 : 0 < Real.tanh (2 * 0.7) / Real.tanh 0.7 * 0.8 := by positivity
    rw [abs_of_pos h2]
    linarith

/-! ### The per-sample pipeline -/

/-- C4: when `attackAmount == 0` the attack component is exactly `0` for every input sample,
every transient strength (hence every detector state) and every setting of the other
parameters, and the pre-saturation processed sample is `input * sustainGain`, multiplied by the
physical sustain envelope only in the non-transient branch with `sustainAmount < 0`. -/
theorem attack_component_zero (m : Libm α) (td : TransientDesigner α)
    (inputSample transientDetected : α) (h : td.attackAmount = 0) :
    td.attackComponent m inputSample transientDetected = 0 ∧
      td.preSaturation m inputSample transientDetected =
        if transientDetected > 0.05 then inputSample * td.sustainGain transientDetected
        else if td.sustainAmount < 0 then
          inputSample * td.sustainGain transientDetected *
            td.physicalSustainEnv m transientDetected
        else inputSample * td.sustainGain transientDetected := by
  have h0 : td.attackComponent m inputSample transientDetected = 0 := by
    unfold TransientDesigner.attackComponent
    simp [h]
  refine ⟨h0, ?_⟩
  unfold TransientDesigner.preSaturation
  simp only [h0, zero_mul, add_zero, TransientDesigner.sustainComponent]

/-- C4 at the default designer (whose `attackAmount` is `0`), input `1/2` and transient
strength `1/4`. -/
theorem attack_component_zero_witness :
    (TransientDesigner.new : TransientDesigner ℝ).attackAmount = 0 ∧
      (TransientDesigner.new : TransientDesigner ℝ).attackComponent Libm.real (1 / 2) (1 / 4) = 0 ∧
      (TransientDesigner.new : TransientDesigner ℝ).preSaturation Libm.real (1 / 2) (1 / 4) =
        if (1 / 4 : ℝ) > 0.05 then 1 / 2 * (TransientDesigner.new : TransientDesigner ℝ).sustainGain (1 / 4)
        else if (TransientDesigner.new : TransientDesigner ℝ).sustainAmount < 0 then
          1 / 2 * (TransientDesigner.new : TransientDesigner ℝ).sustainGain (1 / 4) *
            (TransientDesigner.new : TransientDesigner ℝ).physicalSustainEnv Libm.real (1 / 4)
        else 1 / 2 * (TransientDesigner.new : TransientDesigner ℝ).sustainGain (1 / 4) :=
  ⟨by norm_num [TransientDesigner.new],
    attack_component_zero Libm.real TransientDesigner.new (1 / 2) (1 / 4)
      (by norm_num [TransientDesigner.new])⟩

/-! ### Mix control, overload guard and auto gain compensation -/

/-- With `mix = 0` the mixed sample is the input limited to `[-2, 2]`. -/
theorem TransientDesigner.mixedSample_mix_zero (td : TransientDesigner α) (x p : α)
    (h : td.mix = 0) : td.mixedSample x p = max (-2) (min 2 x) := by
  unfold TransientDesigner.mixedSample
  simp [h]

/-- The limiter of line 498 leaves a sample of magnitude at most `2` unchanged. -/
theorem limit_two_of_abs_le (x : α) (h : |x| ≤ 2) : max (-2) (min 2 x) = x := by
  have h1 := abs_le.mp h
  rw [min_eq_right h1.2, max_eq_right h1.1]

/-- The limiter of line 498 yields a sample of magnitude at most `2`. -/
theorem abs_limit_two_le (x : α) : |max (-2) (min 2 x)| ≤ 2 := by
  rw [abs_le]
  exact ⟨le_max_left _ _, max_le (by norm_num) (min_le_left _ _)⟩

/-- Equal RMS members give a makeup gain of `1`, provided `sqrt 1 = 1`. -/
theorem makeupGain_self (m : Libm α) (hs : m.sqrt 1 = 1) (r : α) : makeupGain m r r = 1 := by
  unfold makeupGain
  split_ifs with h
  · have hr : r ≠ 0 := by
      intro h0
      rw [h0] at h
      norm_num at h
    rw [div_self hr, hs]
    norm_num
  · rfl

/-- The makeup gain is `3/2` for RMS members `9/1000` and `4/1000`. -/
theorem makeupGain_three_halves : makeupGain Libm.real (9 / 1000) (1 / 250) = 3 / 2 := by
  have h : Real.sqrt (9 / 1000 / (1 / 250)) = 3 / 2 := by
    rw [show (9 / 1000 / (1 / 250) : ℝ) = (3 / 2) ^ 2 by norm_num]
    exact Real.sqrt_sq (by norm_num)
  unfold makeupGain
  rw [if_pos (by norm_num)]
  simp only [Libm.real]
  rw [h]
  norm_num

/-- The makeup gain is limited to `3` for RMS members `49/1000` and `4/1000`. -/
theorem makeupGain_limited : makeupGain Libm.real (49 / 1000) (1 / 250) = 3 := by
  have h : (3 : ℝ) ≤ Real.sqrt (49 / 1000 / (1 / 250)) := by
    rw [Real.le_sqrt' (by norm_num)]
    norm_num
  unfold makeupGain
  rw [if_pos (by norm_num)]
  simp only [Libm.real]
  rw [min_eq_left h]
  norm_num

/-- The makeup gain is limited to `3` for RMS members `1` and `203/3200`. -/
theorem makeupGain_limited_unequal : makeupGain Libm.real 1 (203 / 3200) = 3 := by
  have h : (3 : ℝ) ≤ Real.sqrt (1 / (203 / 3200)) := by
    rw [Real.le_sqrt' (by norm_num)]
    norm_num
  unfold makeupGain
  rw [if_pos (by norm_num)]
  simp only [Libm.real]
  rw [min_eq_left h]
  norm_num

/-- At the member defaults the processed sample that reaches the mix control is the input
sample, whatever the transient strength. -/
theorem TransientDesigner.processedSample_new (m : Libm α) (x t : α) :
    (TransientDesigner.new : TransientDesigner α).processedSample m x t = x := by
  norm_num [TransientDesigner.processedSample, TransientDesigner.hfSaturate,
    TransientDesigner.preSaturation, TransientDesigner.attackComponent,
    TransientDesigner.sustainComponent, TransientDesigner.sustainGain,
    TransientDesigner.sustainGainUnclamped, TransientDesigner.rawSustainGain,
    TransientDesigner.sustainSnapGain, TransientDesigner.new]

/-- At `mix = 0`, with an input of magnitude at most `2`, the clipper off and either auto gain
compensation off or equal RMS members, the loop body writes the input sample back and leaves
the RMS members equal if they were. -/
theorem TransientDesigner.processSample_mix_zero (td : TransientDesigner ℝ)
    (detector : DualEnvelopeDetector ℝ) (attackEnvelope sustainEnvelope : EnvelopeFollower ℝ)
    (inputSample : ℝ) (hmix : td.mix = 0) (hx : |inputSample| ≤ 2)
    (hclip : td.clipperEnabled = false)
    (hagc : td.autoGainComp = false ∨ td.inputRMS = td.outputRMS) :
    (td.processSample Libm.real detector attackEnvelope sustainEnvelope inputSample).output =
        inputSample ∧
      (td.inputRMS = td.outputRMS →
        (td.processSample Libm.real detector attackEnvelope sustainEnvelope inputSample).inputRMS =
          (td.processSample Libm.real detector attackEnvelope sustainEnvelope
            inputSample).outputRMS) := by
  unfold TransientDesigner.processSample
  simp only [hclip, TransientDesigner.mixedSample_mix_zero td _ _ hmix,
    limit_two_of_abs_le inputSample hx]
  by_cases ha : td.autoGainComp = true
  · rcases hagc with h | h
    · rw [h] at ha
      exact absurd ha (by decide)
    · simp [ha, h, makeupGain_self Libm.real (by simp [Libm.real])]
  · simp [ha]

/-- C8 as stated fails.  With `mix = 0` and the other parameters at their defaults:
with auto gain compensation off, input `3` is written as `2`; with the clipper also enabled
(drive `2`), input `0.1` is written as `0.2`; with auto gain compensation on and RMS members
`1` and `1/16`, input `1` is written as `3`. -/
theorem mix_zero_output_counterexample :
    ((((TransientDesigner.new : TransientDesigner ℝ).setMix 0).setAutoGainComp
        false).processSample Libm.real freshDetector freshFollower freshFollower 3).output = 2 ∧
      (((((TransientDesigner.new : TransientDesigner ℝ).setMix 0).setAutoGainComp
        false).setClipperEnabled true).processSample Libm.real freshDetector freshFollower
          freshFollower 0.1).output = 0.2 ∧
      (({ (TransientDesigner.new : TransientDesigner ℝ) with
          mix := 0, inputRMS := 1, outputRMS := 1 / 16 }).processSample Libm.real
          freshDetector freshFollower freshFollower 1).output = 3 := by
  refine ⟨?_, ?_, ?_⟩
  · norm_num [TransientDesigner.processSample, TransientDesigner.mixedSample,
      TransientDesigner.new, TransientDesigner.setMix, TransientDesigner.setAutoGainComp]
  · norm_num [TransientDesigner.processSample, TransientDesigner.mixedSample,
      TransientDesigner.new, TransientDesigner.setMix, TransientDesigner.setAutoGainComp,
      TransientDesigner.setClipperEnabled, processClipper, abs_of_pos]
  · norm_num [TransientDesigner.processSample, TransientDesigner.mixedSample,
      TransientDesigner.new, makeupGain_limited_unequal]

/-- C8, amended: with `mix = 0`, for every state and setting of the other parameters the
written output sample equals the input sample whenever `|input| ≤ 2`, the clipper is disabled,
and auto gain compensation is off or `inputRMS = outputRMS`. -/
theorem mix_zero_output (td : TransientDesigner ℝ) (detector : DualEnvelopeDetector ℝ)
    (attackEnvelope sustainEnvelope : EnvelopeFollower ℝ) (inputSample : ℝ)
    (hmix : td.mix = 0) (hx : |inputSample| ≤ 2) (hclip : td.clipperEnabled = false)
    (hagc : td.autoGainComp = false ∨ td.inputRMS = td.outputRMS) :
    (td.processSample Libm.real detector attackEnvelope sustainEnvelope inputSample).output =
      inputSample :=
  (TransientDesigner.processSample_mix_zero td detector attackEnvelope sustainEnvelope
    inputSample hmix hx hclip hagc).1

/-- C8 amended, at the default designer with `mix` set to `0` (auto gain compensation on, RMS
members both `0`, clipper off) and input `1/2`: the output is `1/2`. -/
theorem mix_zero_output_witness :
    ((TransientDesigner.new : TransientDesigner ℝ).setMix 0).mix = 0 ∧
      |(1 / 2 : ℝ)| ≤ 2 ∧
      ((TransientDesigner.new : TransientDesigner ℝ).setMix 0).clipperEnabled = false ∧
      ((TransientDesigner.new : TransientDesigner ℝ).setMix 0).inputRMS =
        ((TransientDesigner.new : TransientDesigner ℝ).setMix 0).outputRMS ∧
      (((TransientDesigner.new : TransientDesigner ℝ).setMix 0).processSample Libm.real
        freshDetector freshFollower freshFollower (1 / 2)).output = 1 / 2 :=
  ⟨rfl, by norm_num [abs_of_pos], rfl, rfl,
    mix_zero_output ((TransientDesigner.new : TransientDesigner ℝ).setMix 0) freshDetector
      freshFollower freshFollower (1 / 2) rfl (by norm_num [abs_of_pos]) rfl (Or.inr rfl)⟩

/-- C9 as stated fails.  At the member defaults with RMS members `0` (auto gain compensation
on), input `3` is limited to `2` and then multiplied by the makeup gain `3/2`: the output is
`3`.  With auto gain compensation off and the clipper enabled (ceiling `0.8`, drive `2`,
`QUINTIC`), input `0.8` gives the output `-3.52`.  Neither lies in `[-2, 2]`. -/
theorem output_range_counterexample :
    ((TransientDesigner.new : TransientDesigner ℝ).processSample Libm.real freshDetector
        freshFollower freshFollower 3).output = 3 ∧
      ¬ ((-2 : ℝ) ≤ ((TransientDesigner.new : TransientDesigner ℝ).processSample Libm.real
          freshDetector freshFollower freshFollower 3).output ∧
        ((TransientDesigner.new : TransientDesigner ℝ).processSample Libm.real freshDetector
          freshFollower freshFollower 3).output ≤ 2) ∧
      ((({ (TransientDesigner.new : TransientDesigner ℝ) with
          autoGainComp := false, clipperEnabled := true }).processSample Libm.real freshDetector
          freshFollower freshFollower 0.8).output = -3.52) := by
  have h1 : ((TransientDesigner.new : TransientDesigner ℝ).processSample Libm.real freshDetector
      freshFollower freshFollower 3).output = 3 := by
    unfold TransientDesigner.processSample
    simp only [TransientDesigner.processedSample_new]
    norm_num [TransientDesigner.mixedSample, TransientDesigner.new, makeupGain_three_halves]
  refine ⟨h1, ?_, ?_⟩
  · rw [h1]
    norm_num
  · have hp : ∀ t : ℝ, ({ (TransientDesigner.new : TransientDesigner ℝ) with
        autoGainComp := false, clipperEnabled := true }).processedSample Libm.real 0.8 t =
        0.8 := fun t => TransientDesigner.processedSample_new Libm.real 0.8 t
    unfold TransientDesigner.processSample
    simp only [hp]
    norm_num [TransientDesigner.mixedSample, TransientDesigner.new, processClipper, abs_of_pos]

/-- C9, amended: for every input sample, state and parameter setting the mixed sample leaves
the overload guard of stage 13.5 within `[-2, 2]`; the written output sample lies in `[-2, 2]`
when auto gain compensation and the clipper, the two stages after the guard, are both off. -/
theorem output_within_guard (m : Libm α) (td : TransientDesigner α)
    (detector : DualEnvelopeDetector α) (attackEnvelope sustainEnvelope : EnvelopeFollower α)
    (inputSample : α) :
    |td.mixedSample inputSample
        (td.processedSample m inputSample (detector.process inputSample).2)| ≤ 2 ∧
      (td.autoGainComp = false → td.clipperEnabled = false →
        |(td.processSample m detector attackEnvelope sustainEnvelope inputSample).output| ≤ 2) := by
  refine ⟨abs_limit_two_le _, fun hagc hclip => ?_⟩
  unfold TransientDesigner.processSample
  simp only [hagc, hclip]
  exact abs_limit_two_le _

/-- C9 amended, at the default designer with auto gain compensation switched off and
input `3`. -/
theorem output_within_guard_witness :
    ((TransientDesigner.new : TransientDesigner ℝ).setAutoGainComp false).autoGainComp = false ∧
      ((TransientDesigner.new : TransientDesigner ℝ).setAutoGainComp false).clipperEnabled =
        false ∧
      |(((TransientDesigner.new : TransientDesigner ℝ).setAutoGainComp false).processSample
        Libm.real freshDetector freshFollower freshFollower 3).output| ≤ 2 :=
  ⟨rfl, rfl,
    (output_within_guard Libm.real
      ((TransientDesigner.new : TransientDesigner ℝ).setAutoGainComp false) freshDetector
      freshFollower freshFollower 3).2 rfl rfl⟩

/-! ### Streams at `mix = 0` -/

/-- One sample step of a transparent designer on an input of magnitude at most `2` succeeds,
writes the input back and keeps the designer transparent. -/
theorem TransientDesigner.stepSample_transparent (td : TransientDesigner ℝ) (n ch : Nat)
    (inputSample : ℝ) (hI : td.Transparent n) (hch : ch < n) (hx : |inputSample| ≤ 2) :
    ∃ td1, td.stepSample Libm.real ch inputSample = some (td1, inputSample) ∧
      td1.Transparent n := by
  obtain ⟨hmix, hclip, hrms, hnum, hd, ha, hs⟩ := hI
  have hd1 : ch < td.dualEnvelopeDetectors.length := by omega
  have ha1 : ch < td.attackEnvelopes.length := by omega
  have hs1 : ch < td.sustainEnvelopes.length := by omega
  have key := TransientDesigner.processSample_mix_zero td td.dualEnvelopeDetectors[ch]
    td.attackEnvelopes[ch] td.sustainEnvelopes[ch] inputSample hmix hx hclip (Or.inr hrms)
  have h : ∃ td1, td.stepSample Libm.real ch inputSample =
      some (td1, (td.processSample Libm.real td.dualEnvelopeDetectors[ch] td.attackEnvelopes[ch]
        td.sustainEnvelopes[ch] inputSample).output) ∧ td1.Transparent n := by
    unfold TransientDesigner.stepSample
    rw [List.getElem?_eq_getElem hd1, List.getElem?_eq_getElem ha1,
      List.getElem?_eq_getElem hs1]
    exact ⟨_, rfl, hmix, hclip, key.2 hrms, hnum, by simp [hd], by simp [ha], by simp [hs]⟩
  rw [key.1] at h
  exact h

/-- Writing back the element that is already at an index leaves a list unchanged. -/
theorem set_getElem_same {β : Type} (l : List β) (i : Nat) (h : i < l.length) :
    l.set i l[i] = l := by
  apply List.ext_getElem (by simp)
  intro k h1 h2
  rw [List.getElem_set]
  split_ifs with hi
  · subst hi
    rfl
  · rfl

/-- The sample loop of a transparent designer over samples of magnitude at most `2` returns
the samples unchanged. -/
theorem TransientDesigner.processChannel_transparent (n ch : Nat) (input : List ℝ)
    (hch : ch < n) (hx : ∀ x ∈ input, |x| ≤ 2) (td : TransientDesigner ℝ)
    (hI : td.Transparent n) :
    ∃ td1, td.processChannel Libm.real ch input = some (td1, input) ∧ td1.Transparent n := by
  induction input generalizing td with
  | nil => exact ⟨td, rfl, hI⟩
  | cons x rest ih =>
    obtain ⟨td1, h1, hI1⟩ :=
      TransientDesigner.stepSample_transparent td n ch x hI hch (hx x (List.mem_cons_self x rest))
    obtain ⟨td2, h2, hI2⟩ := ih (fun y hy => hx y (List.mem_cons_of_mem x hy)) td1 hI1
    exact ⟨td2, by simp [TransientDesigner.processChannel, h1, h2], hI2⟩

/-- The channel loop of a transparent designer returns the block unchanged. -/
theorem TransientDesigner.processChannels_transparent (n : Nat) (block : List (List ℝ))
    (hlen : n ≤ block.length) (hx : ∀ channel ∈ block, ∀ x ∈ channel, |x| ≤ 2)
    (remaining ch : Nat) (hrem : ch + remaining ≤ n) (td : TransientDesigner ℝ)
    (hI : td.Transparent n) :
    ∃ td1, TransientDesigner.processChannels Libm.real remaining ch td block =
        some (td1, block) ∧ td1.Transparent n := by
  induction remaining generalizing ch td with
  | zero => exact ⟨td, rfl, hI⟩
  | succ k ih =>
    have hch : ch < block.length := by omega
    obtain ⟨td1, h1, hI1⟩ := TransientDesigner.processChannel_transparent n ch block[ch]
      (by omega) (hx _ (List.getElem_mem hch)) td hI
    obtain ⟨td2, h2, hI2⟩ := ih (ch + 1) (by omega) td1 hI1
    refine ⟨td2, ?_, hI2⟩
    simp only [TransientDesigner.processChannels, List.getElem?_eq_getElem hch, h1]
    rw [set_getElem_same block ch hch]
    exact h2

/-- Successive `process` calls of a transparent designer return every block unchanged. -/
theorem TransientDesigner.processStream_transparent (n : Nat) (blocks : List (List (List ℝ)))
    (hlen : ∀ block ∈ blocks, n ≤ block.length)
    (hx : ∀ block ∈ blocks, ∀ channel ∈ block, ∀ x ∈ channel, |x| ≤ 2)
    (td : TransientDesigner ℝ) (hI : td.Transparent n) :
    ∃ td1, td.processStream Libm.real blocks = some (td1, blocks) ∧ td1.Transparent n := by
  induction blocks generalizing td with
  | nil => exact ⟨td, rfl, hI⟩
  | cons block rest ih =>
    have hb := List.mem_cons_self block rest
    obtain ⟨td1, h1, hI1⟩ := TransientDesigner.processChannels_transparent n block
      (hlen block hb) (hx block hb) n 0 (by omega) td hI
    have h1a : td.process Libm.real block = some (td1, block) := by
      unfold TransientDesigner.process
      rw [hI.2.2.2.1]
      exact h1
    obtain ⟨td2, h2, hI2⟩ := ih (fun b hb1 => hlen b (List.mem_cons_of_mem block hb1))
      (fun b hb1 => hx b (List.mem_cons_of_mem block hb1)) td1 hI1
    exact ⟨td2, by simp [TransientDesigner.processStream, h1a, h2], hI2⟩

/-- A default-constructed designer that is prepared and then has `mix` set to `0` is
transparent. -/
theorem TransientDesigner.prepared_transparent (sampleRate : ℝ) (numChannels : Nat)
    (indet : Nat → ℝ) :
    (((TransientDesigner.new : TransientDesigner ℝ).prepare Libm.real sampleRate numChannels
      indet).setMix 0).Transparent numChannels := by
  simp [TransientDesigner.Transparent, TransientDesigner.setMix, TransientDesigner.prepare,
    TransientDesigner.reset, TransientDesigner.new]

/-- Any designer with the clipper off and equal RMS members is transparent once it is prepared
and `mix` is set to `0`; `prepare` keeps the RMS members and the clipper switch as they are. -/
theorem TransientDesigner.prepare_transparent (td : TransientDesigner ℝ) (sampleRate : ℝ)
    (numChannels : Nat) (indet : Nat → ℝ) (hclip : td.clipperEnabled = false)
    (hrms : td.inputRMS = td.outputRMS) :
    ((td.prepare Libm.real sampleRate numChannels indet).setMix 0).Transparent numChannels := by
  simp [TransientDesigner.Transparent, TransientDesigner.setMix, TransientDesigner.prepare,
    TransientDesigner.reset, hclip, hrms]

/-- C10 as stated fails: a freshly prepared mono designer at 44100 Hz with every parameter at
its default except `mix = 0` maps the one-sample stream `7` to `6` (the guard limits `7` to `2`
and the makeup gain is limited to `3`). -/
theorem mix_zero_stream_counterexample :
    Option.map Prod.snd
        ((((TransientDesigner.new : TransientDesigner ℝ).prepare Libm.real 44100 1
          (fun _ => 0)).setMix 0).processStream Libm.real [[[7]]]) = some [[[6]]] ∧
      ([[[6]]] : List (List (List ℝ))) ≠ [[[7]]] := by
  constructor
  · norm_num [TransientDesigner.processStream, TransientDesigner.process,
      TransientDesigner.processChannels, TransientDesigner.processChannel,
      TransientDesigner.stepSample, TransientDesigner.prepare, TransientDesigner.reset,
      TransientDesigner.setMix, TransientDesigner.new, TransientDesigner.processSample,
      TransientDesigner.mixedSample, makeupGain_limited]
  · norm_num

/-- C10, amended: starting from a designer that has just been prepared and whose RMS members
are equal (a freshly constructed designer, where both are `0`, or one prepared again with the
members that earlier audio left equal: `prepare` does not clear them), with `mix = 0` and the
clipper off as at the defaults, for every stream of blocks that carry at least `numChannels`
channels and whose samples all satisfy `|x| ≤ 2`, every `process` call succeeds and the output
stream equals the input stream sample for sample. -/
theorem mix_zero_stream (td : TransientDesigner ℝ) (sampleRate : ℝ) (numChannels : Nat)
    (indet : Nat → ℝ) (blocks : List (List (List ℝ)))
    (hclip : td.clipperEnabled = false) (hrms : td.inputRMS = td.outputRMS)
    (hlen : ∀ block ∈ blocks, numChannels ≤ block.length)
    (hx : ∀ block ∈ blocks, ∀ channel ∈ block, ∀ x ∈ channel, |x| ≤ 2) :
    Option.map Prod.snd
        (((td.prepare Libm.real sampleRate numChannels indet).setMix 0).processStream Libm.real
          blocks) = some blocks := by
  obtain ⟨td1, h1, _⟩ := TransientDesigner.processStream_transparent numChannels blocks hlen hx
    _ (TransientDesigner.prepare_transparent td sampleRate numChannels indet hclip hrms)
  rw [h1]
  rfl

/-- C10 amended, on a freshly constructed designer prepared for two channels at 44100 Hz and two
blocks of two samples per channel. -/
theorem mix_zero_stream_witness :
    (TransientDesigner.new : TransientDesigner ℝ).clipperEnabled = false ∧
      (TransientDesigner.new : TransientDesigner ℝ).inputRMS =
        (TransientDesigner.new : TransientDesigner ℝ).outputRMS ∧
      Option.map Prod.snd
        ((((TransientDesigner.new : TransientDesigner ℝ).prepare Libm.real 44100 2
          (fun _ => 0)).setMix 0).processStream Libm.real
            [[[1, -2], [1 / 2, 0]], [[-1, 1 / 4], [2, -3 / 2]]]) =
        some [[[1, -2], [1 / 2, 0]], [[-1, 1 / 4], [2, -3 / 2]]] :=
  ⟨rfl, rfl,
    mix_zero_stream (TransientDesigner.new : TransientDesigner ℝ) 44100 2 (fun _ => 0)
      [[[1, -2], [1 / 2, 0]], [[-1, 1 / 4], [2, -3 / 2]]] rfl rfl (by simp)
      (by norm_num [abs_le])⟩

/-! ### Gain computation -/

/-- A value limited by `max lo (min hi x)` with `lo ≤ hi` lies in `[lo, hi]`. -/
theorem limit_bounds (lo hi x : α) (h : lo ≤ hi) :
    lo ≤ max lo (min hi x) ∧ max lo (min hi x) ≤ hi :=
  ⟨le_max_left _ _, max_le h (min_le_left _ _)⟩

/-- C12: for every input, state and parameter setting the gains that reach component assembly
satisfy `attackGain ∈ [0.1, 5]` and `sustainGain ∈ [0.1, 3]`; the limit is applied once, to the
gain that results from psychoacoustic weighting, SNAP, harmonic enhancement and focus, none of
which sees a limited gain.  For instance a raw cut gain of `0.05` with `focus = 3` gives
`0.15`, not the `0.3` that limiting before focus would give. -/
theorem gains_limited_once (td : TransientDesigner α) (transientDetected : α) :
    (0.1 ≤ td.attackGain transientDetected ∧ td.attackGain transientDetected ≤ 5) ∧
      (0.1 ≤ td.sustainGain transientDetected ∧ td.sustainGain transientDetected ≤ 3) ∧
      td.attackGain transientDetected =
        max 0.1 (min 5
          (let g := td.rawAttackGain transientDetected *
              (1 + (td.criticalBandWeight - 1) * transientDetected) *
              td.snapGain transientDetected
           let h := if td.harmonicEnhancement > 0 then
              g + g * g * 0.3 * td.harmonicEnhancement * 0.06 * (0.1 + transientDetected * 0.9)
             else g
           if td.focus > 1 then h * td.focus else h)) ∧
      td.sustainGain transientDetected =
        max 0.1 (min 3
          (let g := td.rawSustainGain *
              (1 + (td.temporalWeight - 1) * (1 - transientDetected)) * td.sustainSnapGain
           if td.harmonicEnhancement > 0 then g + g * g * 0.15 * td.harmonicEnhancement * 0.03
           else g)) ∧
      ({ (TransientDesigner.new : TransientDesigner α) with
          attackAmount := -100, focus := 3 }).attackGain (19 / 3) = 0.15 := by
  refine ⟨limit_bounds _ _ _ (by norm_num), limit_bounds _ _ _ (by norm_num), rfl, rfl, ?_⟩
  norm_num [TransientDesigner.attackGain, TransientDesigner.attackGainUnclamped,
    TransientDesigner.rawAttackGain, TransientDesigner.snapGain, TransientDesigner.new]

/-- C17: the raw attack gain is `1 + (a/100)*3*t` for `attackAmount = a > 0`,
`1/(1 + (|a|/100)*3*t)` for `a < 0` and `1` for `a = 0`; for `t ≥ 0` and `a > 0` the raw gains
for `a` and `-a` are reciprocals of each other, the boost gain is `≥ 1` and the cut gain lies
in `(0, 1]`. -/
theorem raw_attack_gain (td : TransientDesigner α) (a t : α) :
    (0 < a → (td.setAttackAmount a).rawAttackGain t = 1 + (a / 100) * 3 * t) ∧
      (a < 0 → (td.setAttackAmount a).rawAttackGain t = 1 / (1 + (|a| / 100) * 3 * t)) ∧
      (a = 0 → (td.setAttackAmount a).rawAttackGain t = 1) ∧
      (0 ≤ t → 0 < a →
        (td.setAttackAmount a).rawAttackGain t * (td.setAttackAmount (-a)).rawAttackGain t = 1 ∧
        (td.setAttackAmount (-a)).rawAttackGain t = ((td.setAttackAmount a).rawAttackGain t)⁻¹ ∧
        1 ≤ (td.setAttackAmount a).rawAttackGain t ∧
        0 < (td.setAttackAmount (-a)).rawAttackGain t ∧
        (td.setAttackAmount (-a)).rawAttackGain t ≤ 1) := by
  have hpos : 0 < a → (td.setAttackAmount a).rawAttackGain t = 1 + (a / 100) * 3 * t := by
    intro h
    simp [TransientDesigner.rawAttackGain, TransientDesigner.setAttackAmount, h]
  have hneg : ∀ b : α, b < 0 →
      (td.setAttackAmount b).rawAttackGain t = 1 / (1 + (|b| / 100) * 3 * t) := by
    intro b h
    simp [TransientDesigner.rawAttackGain, TransientDesigner.setAttackAmount, h,
      not_lt.mpr h.le, abs_of_neg h]
  refine ⟨hpos, hneg a, ?_, ?_⟩
  · intro h
    simp [TransientDesigner.rawAttackGain, TransientDesigner.setAttackAmount, h]
  · intro ht ha
    have hna : -a < 0 := by linarith
    have hden : 0 < 1 + (a / 100) * 3 * t := by positivity
    have hge : 1 ≤ 1 + (a / 100) * 3 * t := by
      have : 0 ≤ (a / 100) * 3 * t := by positivity
      linarith
    rw [hpos ha, hneg (-a) hna, abs_neg, abs_of_pos ha]
    refine ⟨by field_simp, by rw [one_div], hge, by positivity, ?_⟩
    rw [div_le_one hden]
    exact hge

/-- C17 at `attackAmount = 50` and transient strength `1/2`, on the default designer. -/
theorem raw_attack_gain_witness :
    ((0 : ℝ) ≤ 1 / 2 ∧ (0 : ℝ) < 50) ∧
      (((TransientDesigner.new : TransientDesigner ℝ).setAttackAmount 50).rawAttackGain (1 / 2) *
          ((TransientDesigner.new : TransientDesigner ℝ).setAttackAmount (-50)).rawAttackGain
            (1 / 2) = 1 ∧
        ((TransientDesigner.new : TransientDesigner ℝ).setAttackAmount (-50)).rawAttackGain
            (1 / 2) =
          (((TransientDesigner.new : TransientDesigner ℝ).setAttackAmount 50).rawAttackGain
            (1 / 2))⁻¹ ∧
        1 ≤ ((TransientDesigner.new : TransientDesigner ℝ).setAttackAmount 50).rawAttackGain
            (1 / 2) ∧
        0 < ((TransientDesigner.new : TransientDesigner ℝ).setAttackAmount (-50)).rawAttackGain
            (1 / 2) ∧
        ((TransientDesigner.new : TransientDesigner ℝ).setAttackAmount (-50)).rawAttackGain
            (1 / 2) ≤ 1) :=
  ⟨by norm_num,
    (raw_attack_gain (TransientDesigner.new : TransientDesigner ℝ) 50 (1 / 2)).2.2.2
      (by norm_num) (by norm_num)⟩

/-- C18: the raw sustain gain is `1 + (s/100)*3` for `sustainAmount = s > 0`,
`1/(1 + (|s|/100)*3)` for `s < 0` and `1` for `s = 0`, a function of `sustainAmount` alone; with
`temporalWeight = 1` the limited sustain gain is the same for every transient strength. -/
theorem raw_sustain_gain (td : TransientDesigner α) :
    (0 < td.sustainAmount → td.rawSustainGain = 1 + (td.sustainAmount / 100) * 3) ∧
      (td.sustainAmount < 0 → td.rawSustainGain = 1 / (1 + (|td.sustainAmount| / 100) * 3)) ∧
      (td.sustainAmount = 0 → td.rawSustainGain = 1) ∧
      (∀ td2 : TransientDesigner α, td2.sustainAmount = td.sustainAmount →
        td2.rawSustainGain = td.rawSustainGain) ∧
      (td.temporalWeight = 1 → ∀ t1 t2 : α, td.sustainGain t1 = td.sustainGain t2) := by
  refine ⟨fun h => ?_, fun h => ?_, fun h => ?_, fun td2 h => ?_, fun h t1 t2 => ?_⟩
  · simp [TransientDesigner.rawSustainGain, h]
  · simp [TransientDesigner.rawSustainGain, h, not_lt.mpr h.le, abs_of_neg h]
  · simp [TransientDesigner.rawSustainGain, h]
  · simp only [TransientDesigner.rawSustainGain, h]
  · simp [TransientDesigner.sustainGain, TransientDesigner.sustainGainUnclamped, h]

/-- C18 at the default designer, whose `sustainAmount` is `0` and `temporalWeight` is `1`. -/
theorem raw_sustain_gain_witness :
    ((TransientDesigner.new : TransientDesigner ℝ).sustainAmount = 0 ∧
        (TransientDesigner.new : TransientDesigner ℝ).temporalWeight = 1) ∧
      (TransientDesigner.new : TransientDesigner ℝ).rawSustainGain = 1 ∧
      ∀ t1 t2 : ℝ, (TransientDesigner.new : TransientDesigner ℝ).sustainGain t1 =
        (TransientDesigner.new : TransientDesigner ℝ).sustainGain t2 :=
  ⟨by norm_num [TransientDesigner.new],
    (raw_sustain_gain (TransientDesigner.new : TransientDesigner ℝ)).2.2.1
      (by norm_num [TransientDesigner.new]),
    (raw_sustain_gain (TransientDesigner.new : TransientDesigner ℝ)).2.2.2.2
      (by norm_num [TransientDesigner.new])⟩

/-! ### Auto gain compensation -/

/-- C15: with auto gain compensation on (and `rmsCoeff` at its only value `0.999`), one sample
updates `inputRMS' = 0.999*inputRMS + 0.001*input^2` and
`outputRMS' = 0.999*outputRMS + 0.001*mixed^2`, both `≥ 0` when they start `≥ 0`; the makeup
gain is `max 0.1 (min 3 (sqrt (inputRMS'/outputRMS')))` when both values exceed `1e-10` and `1`
otherwise, so it lies in `[0.1, 3]`; and the mixed sample is multiplied by it (before the
clipper, when that is enabled). -/
theorem auto_gain_update (m : Libm α) (td : TransientDesigner α)
    (detector : DualEnvelopeDetector α) (attackEnvelope sustainEnvelope : EnvelopeFollower α)
    (inputSample : α) (hagc : td.autoGainComp = true) (hcoeff : td.rmsCoeff = 0.999) :
    (td.processSample m detector attackEnvelope sustainEnvelope inputSample).inputRMS =
        0.999 * td.inputRMS + 0.001 * inputSample ^ 2 ∧
      (td.processSample m detector attackEnvelope sustainEnvelope inputSample).outputRMS =
        0.999 * td.outputRMS + 0.001 *
          (td.mixedSample inputSample
            (td.processedSample m inputSample (detector.process inputSample).2)) ^ 2 ∧
      (0 ≤ td.inputRMS →
        0 ≤ (td.processSample m detector attackEnvelope sustainEnvelope inputSample).inputRMS) ∧
      (0 ≤ td.outputRMS →
        0 ≤ (td.processSample m detector attackEnvelope sustainEnvelope inputSample).outputRMS) ∧
      (∀ inputRMS outputRMS : α,
        makeupGain m inputRMS outputRMS =
            (if outputRMS > 1e-10 ∧ inputRMS > 1e-10 then
              max 0.1 (min 3 (m.sqrt (inputRMS / outputRMS)))
             else 1) ∧
          0.1 ≤ makeupGain m inputRMS outputRMS ∧ makeupGain m inputRMS outputRMS ≤ 3) ∧
      (td.processSample m detector attackEnvelope sustainEnvelope inputSample).output =
        (let gained :=
            td.mixedSample inputSample
                (td.processedSample m inputSample (detector.process inputSample).2) *
              makeupGain m
                (td.processSample m detector attackEnvelope sustainEnvelope inputSample).inputRMS
                (td.processSample m detector attackEnvelope sustainEnvelope inputSample).outputRMS
         if td.clipperEnabled then
           processClipper m gained td.clipperCeiling td.clipperDrive td.clipperType
         else gained) := by
  have hin : (td.processSample m detector attackEnvelope sustainEnvelope inputSample).inputRMS =
      0.999 * td.inputRMS + 0.001 * inputSample ^ 2 := by
    simp only [TransientDesigner.processSample, hagc, hcoeff, if_true]
    norm_num
    ring
  have hout : (td.processSample m detector attackEnvelope sustainEnvelope inputSample).outputRMS =
      0.999 * td.outputRMS + 0.001 *
        (td.mixedSample inputSample
          (td.processedSample m inputSample (detector.process inputSample).2)) ^ 2 := by
    simp only [TransientDesigner.processSample, hagc, hcoeff, if_true]
    norm_num
    ring
  refine ⟨hin, hout, fun h => ?_, fun h => ?_, fun a b => ⟨rfl, ?_⟩, ?_⟩
  · rw [hin]
    have := sq_nonneg inputSample
    linarith [mul_nonneg (show (0:α) ≤ 0.999 by norm_num) h,
      mul_nonneg (show (0:α) ≤ 0.001 by norm_num) this]
  · rw [hout]
    have := sq_nonneg (td.mixedSample inputSample
          (td.processedSample m inputSample (detector.process inputSample).2))
    linarith [mul_nonneg (show (0:α) ≤ 0.999 by norm_num) h,
      mul_nonneg (show (0:α) ≤ 0.001 by norm_num) this]
  · unfold makeupGain
    split_ifs
    · exact ⟨le_max_left _ _, max_le (by norm_num) (min_le_left _ _)⟩
    · norm_num
  · simp only [TransientDesigner.processSample, hagc, if_true]

/-- C15 at the default designer (auto gain compensation on, `rmsCoeff = 0.999`, RMS members
`0`) and input `1/2`. -/
theorem auto_gain_update_witness :
    ((TransientDesigner.new : TransientDesigner ℝ).autoGainComp = true ∧
        (TransientDesigner.new : TransientDesigner ℝ).rmsCoeff = 0.999) ∧
      ((TransientDesigner.new : TransientDesigner ℝ).processSample Libm.real freshDetector
          freshFollower freshFollower (1 / 2)).inputRMS =
        0.999 * (TransientDesigner.new : TransientDesigner ℝ).inputRMS + 0.001 * (1 / 2) ^ 2 :=
  ⟨⟨rfl, rfl⟩,
    (auto_gain_update Libm.real (TransientDesigner.new : TransientDesigner ℝ) freshDetector
      freshFollower freshFollower (1 / 2) rfl rfl).1⟩

/-! ### Tape clipper -/

/-- For `lo ≤ hi`, `jlimit lo hi v` is `v` limited to `[lo, hi]`. -/
theorem jlimit_eq_max_min (lo hi v : α) (h : lo ≤ hi) : jlimit lo hi v = max lo (min hi v) := by
  unfold jlimit
  split_ifs with h1 h2
  · rw [min_eq_right (le_of_lt (lt_of_lt_of_le h1 h)), max_eq_left h1.le]
  · rw [min_eq_left h2.le, max_eq_right h]
  · rw [min_eq_right (not_lt.mp h2), max_eq_right (not_lt.mp h1)]

/-- The symmetric limiter `jlimit (-a) a` is an odd function. -/
theorem jlimit_neg (a v : α) (h : 0 ≤ a) : jlimit (-a) a (-v) = -jlimit (-a) a v := by
  unfold jlimit
  split_ifs <;> first | (exfalso; linarith) | simp

/-- The tape clipper is `0.95 * tanh (x^5 + x)` limited to `[-0.95, 0.95]`. -/
theorem processTapeClipper_eq (y : ℝ) :
    processTapeClipper Libm.real y = max (-0.95) (min 0.95 (0.95 * Real.tanh (y ^ 5 + y))) := by
  unfold processTapeClipper
  rw [jlimit_eq_max_min _ _ _ (by norm_num)]
  simp only [Libm.real, mul_comm]

/-- The tape clipper maps `0` to `0`. -/
theorem processTapeClipper_zero : processTapeClipper Libm.real 0 = 0 := by
  rw [processTapeClipper_eq]
  norm_num

/-- C16: `processTapeClipper x` equals `0.95 * tanh (x^5 + x)` limited to `[-0.95, 0.95]`, with
the signed fifth power `x^5`; it is odd-symmetric, maps `0` to `0` and has magnitude at most
`0.95`. -/
theorem tape_clipper_odd (x : ℝ) :
    processTapeClipper Libm.real x =
        max (-0.95) (min 0.95 (0.95 * Real.tanh (x ^ 5 + x))) ∧
      processTapeClipper Libm.real (-x) = -processTapeClipper Libm.real x ∧
      processTapeClipper Libm.real 0 = 0 ∧
      |processTapeClipper Libm.real x| ≤ 0.95 := by
  refine ⟨processTapeClipper_eq x, ?_, processTapeClipper_zero, ?_⟩
  · unfold processTapeClipper
    have hodd : (-x) ^ 5 + -x = -(x ^ 5 + x) := by ring
    simp only [Libm.real]
    rw [hodd, Real.tanh_neg, neg_mul, jlimit_neg _ _ (by norm_num)]
  · rw [processTapeClipper_eq, abs_le]
    exact ⟨le_max_left _ _, max_le (by norm_num) (min_le_left _ _)⟩

/-! ### Component assembly -/

/-- C19: the pre-saturation processed sample is `sustainComponent + attackComponent *
min(1, 2*t)` when the transient strength `t` exceeds `0.05`; otherwise it is `sustainComponent`,
multiplied by `(1 - t)^(1 + 3*|sustainAmount|/100)` only when `sustainAmount < 0`.  In that
case, for `t ∈ [0, 0.05]` and `sustainAmount ∈ [-100, 0)`, the multiplier lies in
`[0.95^4, 1]`. -/
theorem mixing_rule (td : TransientDesigner ℝ) (inputSample transientDetected : ℝ) :
    td.preSaturation Libm.real inputSample transientDetected =
        (if transientDetected > 0.05 then
          td.sustainComponent inputSample transientDetected +
            td.attackComponent Libm.real inputSample transientDetected *
              min 1 (2 * transientDetected)
         else if td.sustainAmount < 0 then
          td.sustainComponent inputSample transientDetected *
            (1 - transientDetected) ^ (1 + 3 * |td.sustainAmount| / 100)
         else td.sustainComponent inputSample transientDetected) ∧
      (0 ≤ transientDetected → transientDetected ≤ 0.05 →
        -100 ≤ td.sustainAmount → td.sustainAmount < 0 →
        (0.95 : ℝ) ^ (4 : ℕ) ≤ (1 - transientDetected) ^ (1 + 3 * |td.sustainAmount| / 100) ∧
          (1 - transientDetected) ^ (1 + 3 * |td.sustainAmount| / 100) ≤ 1 ∧
          td.preSaturation Libm.real inputSample transientDetected =
            td.sustainComponent inputSample transientDetected *
              (1 - transientDetected) ^ (1 + 3 * |td.sustainAmount| / 100)) := by
  have hform : td.preSaturation Libm.real inputSample transientDetected =
        (if transientDetected > 0.05 then
          td.sustainComponent inputSample transientDetected +
            td.attackComponent Libm.real inputSample transientDetected *
              min 1 (2 * transientDetected)
         else if td.sustainAmount < 0 then
          td.sustainComponent inputSample transientDetected *
            (1 - transientDetected) ^ (1 + 3 * |td.sustainAmount| / 100)
         else td.sustainComponent inputSample transientDetected) := by
    unfold TransientDesigner.preSaturation TransientDesigner.physicalSustainEnv
    by_cases ht : transientDetected > 0.05
    · simp only [ht, if_true, mul_comm transientDetected 2]
    · by_cases hs : td.sustainAmount < 0
      · have he : 1 + -td.sustainAmount / 100 * 3 = 1 + 3 * |td.sustainAmount| / 100 := by
          rw [abs_of_neg hs]
          ring
        simp only [ht, hs, if_true, if_false, Libm.real, he]
      · simp only [ht, hs, if_false]
  refine ⟨hform, fun h0 h1 hs0 hs1 => ?_⟩
  have hbase0 : (0 : ℝ) ≤ 1 - transientDetected := by linarith
  have hbase1 : 1 - transientDetected ≤ 1 := by linarith
  have hbase95 : (0.95 : ℝ) ≤ 1 - transientDetected := by linarith
  have habs : |td.sustainAmount| = -td.sustainAmount := abs_of_neg hs1
  have hexp0 : (0 : ℝ) ≤ 1 + 3 * |td.sustainAmount| / 100 := by
    rw [habs]; linarith
  have hexp4 : 1 + 3 * |td.sustainAmount| / 100 ≤ (4 : ℝ) := by
    rw [habs]; linarith
  refine ⟨?_, Real.rpow_le_one hbase0 hbase1 hexp0, ?_⟩
  · calc (0.95 : ℝ) ^ (4 : ℕ) = (0.95 : ℝ) ^ (4 : ℝ) := by
          rw [← Real.rpow_natCast]; norm_num
      _ ≤ (0.95 : ℝ) ^ (1 + 3 * |td.sustainAmount| / 100) :=
          Real.rpow_le_rpow_of_exponent_ge (by norm_num) (by norm_num) hexp4
      _ ≤ (1 - transientDetected) ^ (1 + 3 * |td.sustainAmount| / 100) :=
          Real.rpow_le_rpow (by norm_num) hbase95 hexp0
  · rw [hform, if_neg (not_lt.mpr h1), if_pos hs1]

/-- C19 at `sustainAmount = -50` and transient strength `1/50`. -/
theorem mixing_rule_witness :
    ((0 : ℝ) ≤ 1 / 50 ∧ (1 / 50 : ℝ) ≤ 0.05 ∧
        (-100 : ℝ) ≤ ((TransientDesigner.new : TransientDesigner ℝ).setSustainAmount
          (-50)).sustainAmount ∧
        ((TransientDesigner.new : TransientDesigner ℝ).setSustainAmount (-50)).sustainAmount <
          0) ∧
      (0.95 : ℝ) ^ (4 : ℕ) ≤
        (1 - 1 / 50 : ℝ) ^
          (1 + 3 * |((TransientDesigner.new : TransientDesigner ℝ).setSustainAmount
            (-50)).sustainAmount| / 100) ∧
      (1 - 1 / 50 : ℝ) ^
          (1 + 3 * |((TransientDesigner.new : TransientDesigner ℝ).setSustainAmount
            (-50)).sustainAmount| / 100) ≤ 1 :=
  ⟨by norm_num [TransientDesigner.setSustainAmount],
    ((mixing_rule ((TransientDesigner.new : TransientDesigner ℝ).setSustainAmount (-50)) 1
      (1 / 50)).2 (by norm_num) (by norm_num)
      (by norm_num [TransientDesigner.setSustainAmount])
      (by norm_num [TransientDesigner.setSustainAmount])).1,
    ((mixing_rule ((TransientDesigner.new : TransientDesigner ℝ).setSustainAmount (-50)) 1
      (1 / 50)).2 (by norm_num) (by norm_num)
      (by norm_num [TransientDesigner.setSustainAmount])
      (by norm_num [TransientDesigner.setSustainAmount])).2.1⟩

/-- C20: the attack component is `(input * 2^clamp(attackGain - 1, -5, 5) - input) * 2` for
`attackAmount > 0`, `input * attackGain` for `attackAmount < 0` and `0` for `attackAmount = 0`.
Since `attackGain ∈ [0.1, 5]` the `[-5, 5]` limit never changes the exponent, so for
`attackAmount > 0` the component is `2 * input * (2^(attackGain - 1) - 1)`, of magnitude at most
`30 * |input|`. -/
theorem attack_component_formula (td : TransientDesigner ℝ) (inputSample transientDetected : ℝ) :
    (0 < td.attackAmount →
        td.attackComponent Libm.real inputSample transientDetected =
          (inputSample *
            (2 : ℝ) ^ (max (-5) (min 5 (td.attackGain transientDetected - 1))) - inputSample) * 2) ∧
      (td.attackAmount < 0 →
        td.attackComponent Libm.real inputSample transientDetected =
          inputSample * td.attackGain transientDetected) ∧
      (td.attackAmount = 0 → td.attackComponent Libm.real inputSample transientDetected = 0) ∧
      max (-5) (min 5 (td.attackGain transientDetected - 1)) =
        td.attackGain transientDetected - 1 ∧
      (0 < td.attackAmount →
        td.attackComponent Libm.real inputSample transientDetected =
            2 * inputSample * ((2 : ℝ) ^ (td.attackGain transientDetected - 1) - 1) ∧
          |td.attackComponent Libm.real inputSample transientDetected| ≤ 30 * |inputSample|) := by
  have hg : 0.1 ≤ td.attackGain transientDetected ∧ td.attackGain transientDetected ≤ 5 :=
    ⟨le_max_left _ _, max_le (by norm_num) (min_le_left _ _)⟩
  have hclamp : max (-5) (min 5 (td.attackGain transientDetected - 1)) =
      td.attackGain transientDetected - 1 := by
    rw [min_eq_right (by linarith [hg.2]), max_eq_right (by linarith [hg.1])]
  have hpos : 0 < td.attackAmount →
      td.attackComponent Libm.real inputSample transientDetected =
        (inputSample *
          (2 : ℝ) ^ (max (-5) (min 5 (td.attackGain transientDetected - 1))) - inputSample) * 2 := by
    intro h
    simp [TransientDesigner.attackComponent, h, Libm.real]
  refine ⟨hpos, fun h => ?_, fun h => ?_, hclamp, fun h => ?_⟩
  · simp [TransientDesigner.attackComponent, h, not_lt.mpr h.le]
  · simp [TransientDesigner.attackComponent, h]
  · have heq : td.attackComponent Libm.real inputSample transientDetected =
        2 * inputSample * ((2 : ℝ) ^ (td.attackGain transientDetected - 1) - 1) := by
      rw [hpos h, hclamp]
      ring
    refine ⟨heq, ?_⟩
    have hp0 : (0 : ℝ) < (2 : ℝ) ^ (td.attackGain transientDetected - 1) :=
      Real.rpow_pos_of_pos (by norm_num) _
    have hp16 : (2 : ℝ) ^ (td.attackGain transientDetected - 1) ≤ 16 := by
      calc (2 : ℝ) ^ (td.attackGain transientDetected - 1) ≤ (2 : ℝ) ^ (4 : ℝ) :=
            Real.rpow_le_rpow_of_exponent_le (by norm_num) (by linarith [hg.2])
        _ = 16 := by
            rw [show (4 : ℝ) = ((4 : ℕ) : ℝ) by norm_num, Real.rpow_natCast]; norm_num
    have hfac : |(2 : ℝ) ^ (td.attackGain transientDetected - 1) - 1| ≤ 15 := by
      rw [abs_le]
      constructor <;> linarith
    rw [heq, abs_mul, abs_mul, abs_of_pos (show (0 : ℝ) < 2 by norm_num)]
    nlinarith [abs_nonneg inputSample, mul_le_mul_of_nonneg_left hfac (abs_nonneg inputSample)]

/-- C20 at `attackAmount = 50`, input `1` and transient strength `1/2`. -/
theorem attack_component_formula_witness :
    (0 : ℝ) < ((TransientDesigner.new : TransientDesigner ℝ).setAttackAmount 50).attackAmount ∧
      |((TransientDesigner.new : TransientDesigner ℝ).setAttackAmount 50).attackComponent
          Libm.real 1 (1 / 2)| ≤ 30 * |(1 : ℝ)| :=
  ⟨by norm_num [TransientDesigner.setAttackAmount],
    ((attack_component_formula ((TransientDesigner.new : TransientDesigner ℝ).setAttackAmount 50)
      1 (1 / 2)).2.2.2.2 (by norm_num [TransientDesigner.setAttackAmount])).2⟩

/-! ### Reset -/

/-- C13 (evaluation at a failing input): `reset` zeroes every follower envelope and both
envelopes of every detector and keeps the vector sizes, but it returns `inputRMS` and
`outputRMS` as they were.  A freshly prepared default designer that has processed the
one-sample block `1` and is then reset still holds `inputRMS = outputRMS = 1/1000`, not `0`. -/
theorem reset_keeps_rms :
    (∀ td : TransientDesigner ℝ,
        td.reset.attackEnvelopes.map (fun e => e.envelope) =
          List.replicate td.attackEnvelopes.length 0 ∧
        td.reset.sustainEnvelopes.map (fun e => e.envelope) =
          List.replicate td.sustainEnvelopes.length 0 ∧
        td.reset.dualEnvelopeDetectors.map (fun d => (d.fastEnvelope, d.slowEnvelope)) =
          List.replicate td.dualEnvelopeDetectors.length (0, 0) ∧
        td.reset.inputRMS = td.inputRMS ∧ td.reset.outputRMS = td.outputRMS) ∧
      Option.map (fun r => (r.1.reset.inputRMS, r.1.reset.outputRMS))
          (((TransientDesigner.new : TransientDesigner ℝ).prepare Libm.real 44100 1
            (fun _ => 0)).process Libm.real [[1]]) = some (1 / 1000, 1 / 1000) ∧
      (1 / 1000 : ℝ) ≠ 0 := by
  refine ⟨fun td => ?_, ?_, by norm_num⟩
  · simp [TransientDesigner.reset, EnvelopeFollower.reset, DualEnvelopeDetector.reset,
      List.map_const', Function.comp_def]
  · norm_num [TransientDesigner.process, TransientDesigner.processChannels,
      TransientDesigner.processChannel, TransientDesigner.stepSample,
      TransientDesigner.processSample, TransientDesigner.prepare, TransientDesigner.reset,
      TransientDesigner.new, TransientDesigner.mixedSample, TransientDesigner.processedSample,
      TransientDesigner.hfSaturate, TransientDesigner.preSaturation,
      TransientDesigner.attackComponent, TransientDesigner.sustainComponent,
      TransientDesigner.sustainGain, TransientDesigner.sustainGainUnclamped,
      TransientDesigner.rawSustainGain, TransientDesigner.sustainSnapGain]

/-! ### Sample steps on a sized designer -/

/-- With all three indices in range, `stepSample` runs the loop body on the channel's objects
and writes the result back. -/
theorem TransientDesigner.stepSample_of_lt (m : Libm α) (td : TransientDesigner α) (ch : Nat)
    (inputSample : α) (hd : ch < td.dualEnvelopeDetectors.length)
    (ha : ch < td.attackEnvelopes.length) (hs : ch < td.sustainEnvelopes.length) :
    td.stepSample m ch inputSample =
      some (td.writeBack ch (td.processSample m td.dualEnvelopeDetectors[ch]
              td.attackEnvelopes[ch] td.sustainEnvelopes[ch] inputSample),
            (td.processSample m td.dualEnvelopeDetectors[ch] td.attackEnvelopes[ch]
              td.sustainEnvelopes[ch] inputSample).output) := by
  unfold TransientDesigner.stepSample
  rw [List.getElem?_eq_getElem hd, List.getElem?_eq_getElem ha, List.getElem?_eq_getElem hs]
  rfl

/-- Writing a result back keeps the sizes. -/
theorem TransientDesigner.writeBack_sized {β : Type} (td : TransientDesigner β) (n ch : Nat)
    (r : SampleResult β) (hS : td.Sized n) : (td.writeBack ch r).Sized n := by
  obtain ⟨hnum, hd, ha, hs⟩ := hS
  exact ⟨hnum, by simp [TransientDesigner.writeBack, hd],
    by simp [TransientDesigner.writeBack, ha], by simp [TransientDesigner.writeBack, hs]⟩

/-- A sample step of a sized designer on a channel in range succeeds, writes the output of the
loop body on the channel's objects, and keeps the sizes and the parameters. -/
theorem TransientDesigner.stepSample_sized (m : Libm α) (td : TransientDesigner α) (n ch : Nat)
    (inputSample : α) (hS : td.Sized n) (hch : ch < n) :
    ∃ detector attackEnvelope sustainEnvelope td1,
      td.dualEnvelopeDetectors[ch]? = some detector ∧
      td.stepSample m ch inputSample =
        some (td1,
          (td.processSample m detector attackEnvelope sustainEnvelope inputSample).output) ∧
      td1.Sized n ∧ td1.params = td.params := by
  obtain ⟨hnum, hd, ha, hs⟩ := hS
  have hd1 : ch < td.dualEnvelopeDetectors.length := by omega
  have ha1 : ch < td.attackEnvelopes.length := by omega
  have hs1 : ch < td.sustainEnvelopes.length := by omega
  exact ⟨td.dualEnvelopeDetectors[ch], td.attackEnvelopes[ch], td.sustainEnvelopes[ch], _,
    List.getElem?_eq_getElem hd1,
    TransientDesigner.stepSample_of_lt m td ch inputSample hd1 ha1 hs1,
    TransientDesigner.writeBack_sized td n ch _ ⟨hnum, hd, ha, hs⟩, rfl⟩

/-- The clipper maps `0` to `0` when the ceiling is not negative. -/
theorem processClipper_zero (m : Libm α) (ceiling drive : α) (type : ClipperType)
    (h : 0 ≤ ceiling) : processClipper m 0 ceiling drive type = 0 := by
  unfold processClipper
  simp [h]

/-- Silence in, silence out: on input `0` the loop body writes `0`, whatever the state and the
parameters, as long as the clipper is off or its ceiling is not negative. -/
theorem TransientDesigner.processSample_silence (td : TransientDesigner ℝ)
    (detector : DualEnvelopeDetector ℝ) (attackEnvelope sustainEnvelope : EnvelopeFollower ℝ)
    (hclip : td.clipperEnabled = true → 0 ≤ td.clipperCeiling) :
    (td.processSample Libm.real detector attackEnvelope sustainEnvelope 0).output = 0 := by
  have hp : ∀ t : ℝ, td.processedSample Libm.real 0 t = 0 := by
    intro t
    have hpre : td.preSaturation Libm.real 0 t = 0 := by
      unfold TransientDesigner.preSaturation TransientDesigner.attackComponent
        TransientDesigner.sustainComponent
      simp
    unfold TransientDesigner.processedSample
    rw [hpre]
    have hhf : td.hfSaturate 0 = 0 := by
      unfold TransientDesigner.hfSaturate
      simp
    rw [hhf]
    split_ifs
    · exact processTapeClipper_zero
    · rfl
  have hm : ∀ t : ℝ, td.mixedSample 0 (td.processedSample Libm.real 0 t) = 0 := by
    intro t
    rw [hp]
    unfold TransientDesigner.mixedSample
    norm_num
  unfold TransientDesigner.processSample
  simp only [hm, zero_mul, ite_self]
  by_cases hc : td.clipperEnabled = true
  · simp only [hc, if_true]
    exact processClipper_zero _ _ _ _ (hclip hc)
  · simp [hc]

/-- A run of silence through the sample loop of a sized designer returns silence and keeps the
sizes and the parameters. -/
theorem TransientDesigner.processChannel_silence (n ch k : Nat) (hch : ch < n)
    (td : TransientDesigner ℝ) (hS : td.Sized n)
    (hclip : td.clipperEnabled = true → 0 ≤ td.clipperCeiling) :
    ∃ td1, td.processChannel Libm.real ch (List.replicate k 0) =
        some (td1, List.replicate k 0) ∧ td1.Sized n ∧ td1.params = td.params := by
  induction k generalizing td with
  | zero => exact ⟨td, rfl, hS, rfl⟩
  | succ j ih =>
    obtain ⟨d, a, s, td1, _, h1, hS1, hP1⟩ :=
      TransientDesigner.stepSample_sized Libm.real td n ch 0 hS hch
    rw [TransientDesigner.processSample_silence td d a s hclip] at h1
    have hclip1 : td1.clipperEnabled = true → 0 ≤ td1.clipperCeiling := by
      have e1 : td1.params.clipperEnabled = td.params.clipperEnabled := by rw [hP1]
      have e2 : td1.params.clipperCeiling = td.params.clipperCeiling := by rw [hP1]
      change td1.params.clipperEnabled = true → 0 ≤ td1.params.clipperCeiling
      rw [e1, e2]
      exact hclip
    obtain ⟨td2, h2, hS2, hP2⟩ := ih td1 hS1 hclip1
    exact ⟨td2, by simp [List.replicate_succ, TransientDesigner.processChannel, h1, h2], hS2,
      hP2.trans hP1⟩

/-! ### Impulse response -/

/-- The slow attack coefficient at 44100 Hz, `exp (-1 / 2205)`, lies in `[2/3, 1]`. -/
theorem slowAttackCoeff_bounds :
    (2 / 3 : ℝ) ≤ Real.exp (-1 / (44100 * 0.05)) ∧ Real.exp (-1 / (44100 * 0.05)) ≤ 1 := by
  constructor
  · have h := Real.add_one_le_exp (-1 / (44100 * 0.05) : ℝ)
    have h2 : (2 / 3 : ℝ) ≤ -1 / (44100 * 0.05) + 1 := by norm_num
    linarith
  · rw [Real.exp_le_one_iff]
    norm_num

/-- The impulse sample: with `attackAmount = 50`, the other shaping parameters at their
defaults, `mix = 1`, auto gain compensation and clipper off, and a detector at rest whose slow
attack coefficient is that of 44100 Hz, input `1` is written as `2`. -/
theorem TransientDesigner.processSample_impulse (td : TransientDesigner ℝ)
    (detector : DualEnvelopeDetector ℝ) (attackEnvelope sustainEnvelope : EnvelopeFollower ℝ)
    (h1 : td.attackAmount = 50) (h2 : td.sustainAmount = 0) (h3 : td.criticalBandWeight = 1)
    (h4 : td.temporalWeight = 1) (h5 : td.snapAmount = 0) (h6 : td.harmonicEnhancement = 0)
    (h7 : td.focus = 1) (h8 : td.hfSaturation = 0) (h9 : td.tapeClip = false)
    (h10 : td.mix = 1) (h11 : td.autoGainComp = false) (h12 : td.clipperEnabled = false)
    (hf : detector.fastEnvelope = 0) (hs : detector.slowEnvelope = 0)
    (hc : detector.slowAttackCoeff = Real.exp (-1 / (44100 * 0.05))) :
    (td.processSample Libm.real detector attackEnvelope sustainEnvelope 1).output = 2 := by
  obtain ⟨hlo, hhi⟩ := slowAttackCoeff_bounds
  have ht : (detector.process 1).2 = Real.exp (-1 / (44100 * 0.05)) := by
    unfold DualEnvelopeDetector.process
    simp only [hf, hs, hc, abs_one, gt_iff_lt, zero_lt_one, if_true, zero_mul, zero_add, one_mul]
    rw [max_eq_right (by linarith)]
    ring
  have hag : td.attackGain (Real.exp (-1 / (44100 * 0.05))) =
      1 + 3 / 2 * Real.exp (-1 / (44100 * 0.05)) := by
    have hu : td.attackGainUnclamped (Real.exp (-1 / (44100 * 0.05))) =
        1 + 3 / 2 * Real.exp (-1 / (44100 * 0.05)) := by
      simp only [TransientDesigner.attackGainUnclamped, TransientDesigner.rawAttackGain,
        TransientDesigner.snapGain, h1, h3, h5, h6, h7]
      norm_num
    unfold TransientDesigner.attackGain
    rw [hu, min_eq_right (by linarith), max_eq_right (by linarith)]
  have hsg : td.sustainGain (Real.exp (-1 / (44100 * 0.05))) = 1 := by
    simp only [TransientDesigner.sustainGain, TransientDesigner.sustainGainUnclamped,
      TransientDesigner.rawSustainGain, TransientDesigner.sustainSnapGain, h2, h4, h5, h6]
    norm_num
  have hpow : (2 : ℝ) ≤ (2 : ℝ) ^ (3 / 2 * Real.exp (-1 / (44100 * 0.05))) := by
    calc (2 : ℝ) = (2 : ℝ) ^ (1 : ℝ) := (Real.rpow_one 2).symm
      _ ≤ (2 : ℝ) ^ (3 / 2 * Real.exp (-1 / (44100 * 0.05))) :=
          Real.rpow_le_rpow_of_exponent_le (by norm_num) (by linarith)
  have hac : td.attackComponent Libm.real 1 (Real.exp (-1 / (44100 * 0.05))) =
      ((2 : ℝ) ^ (3 / 2 * Real.exp (-1 / (44100 * 0.05))) - 1) * 2 := by
    unfold TransientDesigner.attackComponent
    rw [if_pos (by rw [h1]; norm_num), hag,
      show (1 + 3 / 2 * Real.exp (-1 / (44100 * 0.05)) - 1 : ℝ) =
        3 / 2 * Real.exp (-1 / (44100 * 0.05)) by ring,
      min_eq_right (by linarith), max_eq_right (by linarith)]
    simp only [Libm.real, one_mul]
  have hpre : td.preSaturation Libm.real 1 (Real.exp (-1 / (44100 * 0.05))) =
      1 + ((2 : ℝ) ^ (3 / 2 * Real.exp (-1 / (44100 * 0.05))) - 1) * 2 := by
    unfold TransientDesigner.preSaturation
    rw [if_pos (by norm_num; linarith), hac, TransientDesigner.sustainComponent, hsg,
      min_eq_left (by linarith)]
    ring
  have hproc : td.processedSample Libm.real 1 (Real.exp (-1 / (44100 * 0.05))) =
      1 + ((2 : ℝ) ^ (3 / 2 * Real.exp (-1 / (44100 * 0.05))) - 1) * 2 := by
    unfold TransientDesigner.processedSample TransientDesigner.hfSaturate
    simp [h8, h9, hpre]
  have hmix : td.mixedSample 1 (td.processedSample Libm.real 1
      (Real.exp (-1 / (44100 * 0.05)))) = 2 := by
    have hge : (2 : ℝ) ≤ 1 * (1 - 1) +
        (1 + ((2 : ℝ) ^ (3 / 2 * Real.exp (-1 / (44100 * 0.05))) - 1) * 2) * 1 := by linarith
    simp only [TransientDesigner.mixedSample, hproc, h10]
    rw [min_eq_left hge, max_eq_right (by norm_num)]
  unfold TransientDesigner.processSample
  simp only [ht, hmix, h11, h12]
  rfl


/-- The impulse scenario designer is sized for one channel, its clipper is off, and its only
detector is at rest with the coefficients of 44100 Hz. -/
theorem impulseDesigner_state (indet : Nat → ℝ) :
    (impulseDesigner Libm.real indet).Sized 1 ∧
      (impulseDesigner Libm.real indet).clipperEnabled = false ∧
      ∀ detector, (impulseDesigner Libm.real indet).dualEnvelopeDetectors[0]? = some detector →
        detector.fastEnvelope = 0 ∧ detector.slowEnvelope = 0 ∧
          detector.slowAttackCoeff = Real.exp (-1 / (44100 * 0.05)) := by
  refine ⟨?_, rfl, ?_⟩
  · simp [TransientDesigner.Sized, impulseDesigner, TransientDesigner.setClipperEnabled,
      TransientDesigner.setAutoGainComp, TransientDesigner.setMix,
      TransientDesigner.setSustainAmount, TransientDesigner.setAttackAmount,
      TransientDesigner.prepare, TransientDesigner.reset]
  · intro detector h
    simp [impulseDesigner, TransientDesigner.setClipperEnabled,
      TransientDesigner.setAutoGainComp, TransientDesigner.setMix,
      TransientDesigner.setSustainAmount, TransientDesigner.setAttackAmount,
      TransientDesigner.prepare, TransientDesigner.reset, DualEnvelopeDetector.reset,
      DualEnvelopeDetector.prepare, DualEnvelopeDetector.new, Libm.real] at h
    subst h
    exact ⟨rfl, rfl, rfl⟩

/-- The channel loop of a one-channel designer on a one-channel block is the sample loop on
channel `0`. -/
theorem TransientDesigner.process_mono (m : Libm α) (td td1 : TransientDesigner α)
    (input output : List α) (hnum : td.numChannels = 1)
    (h : td.processChannel m 0 input = some (td1, output)) :
    td.process m [input] = some (td1, [output]) := by
  unfold TransientDesigner.process
  rw [hnum]
  simp [TransientDesigner.processChannels, h]

/-- Successive all-zero blocks through a sized one-channel designer come out all-zero. -/
theorem TransientDesigner.processStream_silence (ks : List Nat) (td : TransientDesigner ℝ)
    (hS : td.Sized 1) (hclip : td.clipperEnabled = true → 0 ≤ td.clipperCeiling) :
    Option.map Prod.snd
        (td.processStream Libm.real (ks.map (fun k => [List.replicate k (0 : ℝ)]))) =
      some (ks.map (fun k => [List.replicate k (0 : ℝ)])) := by
  induction ks generalizing td with
  | nil => rfl
  | cons k rest ih =>
    obtain ⟨td1, h1, hS1, hP1⟩ :=
      TransientDesigner.processChannel_silence 1 0 k (by norm_num) td hS hclip
    have hb := TransientDesigner.process_mono Libm.real td td1 _ _ hS.1 h1
    have hclip1 : td1.clipperEnabled = true → 0 ≤ td1.clipperCeiling := by
      have e1 : td1.params.clipperEnabled = td.params.clipperEnabled := by rw [hP1]
      have e2 : td1.params.clipperCeiling = td.params.clipperCeiling := by rw [hP1]
      change td1.params.clipperEnabled = true → 0 ≤ td1.params.clipperCeiling
      rw [e1, e2]
      exact hclip
    have h2 := ih td1 hS1 hclip1
    simp only [List.map_cons, TransientDesigner.processStream, hb]
    cases hrest : td1.processStream Libm.real
        (rest.map (fun k => [List.replicate k (0 : ℝ)])) with
    | none => rw [hrest] at h2; simp at h2
    | some r =>
      rw [hrest] at h2
      simp only [Option.map_some', Option.some.injEq] at h2
      simp [h2]

/-- The parameter members of the impulse scenario designer. -/
theorem impulseDesigner_fields (indet : Nat → ℝ) :
    (impulseDesigner Libm.real indet).attackAmount = 50 ∧
      (impulseDesigner Libm.real indet).sustainAmount = 0 ∧
      (impulseDesigner Libm.real indet).criticalBandWeight = 1 ∧
      (impulseDesigner Libm.real indet).temporalWeight = 1 ∧
      (impulseDesigner Libm.real indet).snapAmount = 0 ∧
      (impulseDesigner Libm.real indet).harmonicEnhancement = 0 ∧
      (impulseDesigner Libm.real indet).focus = 1 ∧
      (impulseDesigner Libm.real indet).hfSaturation = 0 ∧
      (impulseDesigner Libm.real indet).tapeClip = false ∧
      (impulseDesigner Libm.real indet).mix = 1 ∧
      (impulseDesigner Libm.real indet).autoGainComp = false ∧
      (impulseDesigner Libm.real indet).clipperEnabled = false := by
  norm_num [impulseDesigner, TransientDesigner.setClipperEnabled,
    TransientDesigner.setAutoGainComp, TransientDesigner.setMix,
    TransientDesigner.setSustainAmount, TransientDesigner.setAttackAmount,
    TransientDesigner.prepare, TransientDesigner.reset, TransientDesigner.new]
/-- C11: in the impulse scenario (44100 Hz, one channel, freshly prepared, `attackAmount = 50`,
`sustainAmount = 0`, `mix = 1`, auto gain compensation and clipper off, the rest at the
defaults) the input `1` followed by zeros comes out as `2` followed by zeros, also across
later all-zero blocks; so the output at the impulse sample is strictly greater than `1` and
every output sample from 4410 samples after the impulse onward is `0`. -/
theorem impulse_response (indet : Nat → ℝ) (n : Nat) :
    (∀ ks : List Nat,
        Option.map Prod.snd
            ((impulseDesigner Libm.real indet).processStream Libm.real
              ([1 :: List.replicate n 0] :: ks.map (fun k => [List.replicate k (0 : ℝ)]))) =
          some ([2 :: List.replicate n 0] :: ks.map (fun k => [List.replicate k (0 : ℝ)]))) ∧
      ∃ out : List ℝ,
        Option.map Prod.snd
            ((impulseDesigner Libm.real indet).process Libm.real [1 :: List.replicate n 0]) =
          some [out] ∧
        out.length = n + 1 ∧ (∃ y, out[0]? = some y ∧ 1 < y) ∧
        ∀ k, 4410 ≤ k → k < out.length → out[k]? = some 0 := by
  obtain ⟨hS, hclip, hdet⟩ := impulseDesigner_state indet
  obtain ⟨d, a, s, td1, hd, h1, hS1, hP1⟩ :=
    TransientDesigner.stepSample_sized Libm.real (impulseDesigner Libm.real indet) 1 0 1 hS
      (by norm_num)
  obtain ⟨hf, hs, hc⟩ := hdet d hd
  obtain ⟨f1, f2, f3, f4, f5, f6, f7, f8, f9, f10, f11, f12⟩ := impulseDesigner_fields indet
  rw [TransientDesigner.processSample_impulse (impulseDesigner Libm.real indet) d a s
    f1 f2 f3 f4 f5 f6 f7 f8 f9 f10 f11 f12 hf hs hc] at h1
  have hclip1 : td1.clipperEnabled = true → 0 ≤ td1.clipperCeiling := by
    have e1 : td1.params.clipperEnabled = (impulseDesigner Libm.real indet).params.clipperEnabled := by
      rw [hP1]
    have e3 : td1.clipperEnabled = false := e1.trans hclip
    intro h
    rw [e3] at h
    exact absurd h (by decide)
  obtain ⟨td2, h2, hS2, hP2⟩ :=
    TransientDesigner.processChannel_silence 1 0 n (by norm_num) td1 hS1 hclip1
  have hchan : (impulseDesigner Libm.real indet).processChannel Libm.real 0
      (1 :: List.replicate n 0) = some (td2, 2 :: List.replicate n 0) := by
    simp [TransientDesigner.processChannel, h1, h2]
  have hblock := TransientDesigner.process_mono Libm.real _ td2 _ _ hS.1 hchan
  have hclip2 : td2.clipperEnabled = true → 0 ≤ td2.clipperCeiling := by
    have e1 : td2.params.clipperEnabled = td1.params.clipperEnabled := by rw [hP2]
    have e2 : td2.params.clipperCeiling = td1.params.clipperCeiling := by rw [hP2]
    change td2.params.clipperEnabled = true → 0 ≤ td2.params.clipperCeiling
    rw [e1, e2]
    exact hclip1
  constructor
  · intro ks
    have hrest := TransientDesigner.processStream_silence ks td2 hS2 hclip2
    simp only [TransientDesigner.processStream, hblock]
    cases hr : td2.processStream Libm.real (ks.map (fun k => [List.replicate k (0 : ℝ)])) with
    | none => rw [hr] at hrest; simp at hrest
    | some r =>
      rw [hr] at hrest
      simp only [Option.map_some', Option.some.injEq] at hrest
      simp [hrest]
  · refine ⟨2 :: List.replicate n 0, by rw [hblock]; rfl, by simp, ⟨2, by simp, by norm_num⟩, ?_⟩
    intro k hk hlt
    have hk1 : k = (k - 1) + 1 := by omega
    rw [hk1, List.getElem?_cons_succ]
    simp at hlt
    rw [List.getElem?_replicate]
    simp
    omega

/-! ### Channel independence -/

/-- With auto gain compensation off the loop body leaves the RMS accumulators alone. -/
theorem TransientDesigner.processSample_rms_off (m : Libm α) (td : TransientDesigner α)
    (detector : DualEnvelopeDetector α) (attackEnvelope sustainEnvelope : EnvelopeFollower α)
    (inputSample : α) (hagc : td.autoGainComp = false) :
    (td.processSample m detector attackEnvelope sustainEnvelope inputSample).inputRMS =
        td.inputRMS ∧
      (td.processSample m detector attackEnvelope sustainEnvelope inputSample).outputRMS =
        td.outputRMS := by
  unfold TransientDesigner.processSample
  simp [hagc]

/-- With auto gain compensation off, a sample step on channel `ch` leaves the view of every
other channel `c` unchanged. -/
theorem TransientDesigner.stepSample_other (m : Libm α) (td : TransientDesigner α)
    (n ch c : Nat) (inputSample : α) (hS : td.Sized n) (hch : ch < n) (hne : ch ≠ c)
    (hagc : td.autoGainComp = false) :
    ∃ td1 out, td.stepSample m ch inputSample = some (td1, out) ∧ td1.Sized n ∧
      td1.autoGainComp = false ∧ td1.channelView c = td.channelView c := by
  obtain ⟨hnum, hd, ha, hs⟩ := hS
  have hd1 : ch < td.dualEnvelopeDetectors.length := by omega
  have ha1 : ch < td.attackEnvelopes.length := by omega
  have hs1 : ch < td.sustainEnvelopes.length := by omega
  have hrms := TransientDesigner.processSample_rms_off m td td.dualEnvelopeDetectors[ch]
    td.attackEnvelopes[ch] td.sustainEnvelopes[ch] inputSample hagc
  refine ⟨_, _, TransientDesigner.stepSample_of_lt m td ch inputSample hd1 ha1 hs1,
    TransientDesigner.writeBack_sized td n ch _ ⟨hnum, hd, ha, hs⟩, hagc, ?_⟩
  simp only [TransientDesigner.channelView, TransientDesigner.scalars,
    TransientDesigner.writeBack, hrms.1, hrms.2, List.getElem?_set_ne hne]

/-- With auto gain compensation off, the sample loop on channel `ch` leaves the view of every
other channel `c` unchanged. -/
theorem TransientDesigner.processChannel_other (m : Libm α) (n ch c : Nat) (input : List α)
    (hch : ch < n) (hne : ch ≠ c) (td : TransientDesigner α) (hS : td.Sized n)
    (hagc : td.autoGainComp = false) :
    ∃ td1 output, td.processChannel m ch input = some (td1, output) ∧ td1.Sized n ∧
      td1.autoGainComp = false ∧ td1.channelView c = td.channelView c := by
  induction input generalizing td with
  | nil => exact ⟨td, [], rfl, hS, hagc, rfl⟩
  | cons x rest ih =>
    obtain ⟨td1, out, h1, hS1, hagc1, hV1⟩ :=
      TransientDesigner.stepSample_other m td n ch c x hS hch hne hagc
    obtain ⟨td2, outs, h2, hS2, hagc2, hV2⟩ := ih td1 hS1 hagc1
    exact ⟨td2, out :: outs, by simp [TransientDesigner.processChannel, h1, h2], hS2, hagc2,
      hV2.trans hV1⟩

/-- Two designers with the same view of channel `c` write the same sample on channel `c` and
end with the same view. -/
theorem TransientDesigner.stepSample_same (m : Libm α) (tdA tdB : TransientDesigner α)
    (n c : Nat) (inputSample : α) (hA : tdA.Sized n) (hB : tdB.Sized n) (hc : c < n)
    (hV : tdA.channelView c = tdB.channelView c) :
    ∃ tA tB out, tdA.stepSample m c inputSample = some (tA, out) ∧
      tdB.stepSample m c inputSample = some (tB, out) ∧ tA.Sized n ∧ tB.Sized n ∧
      tA.autoGainComp = tdA.autoGainComp ∧ tB.autoGainComp = tdB.autoGainComp ∧
      tA.channelView c = tB.channelView c := by
  obtain ⟨hnumA, hdA, haA, hsA⟩ := hA
  obtain ⟨hnumB, hdB, haB, hsB⟩ := hB
  have hdA1 : c < tdA.dualEnvelopeDetectors.length := by omega
  have haA1 : c < tdA.attackEnvelopes.length := by omega
  have hsA1 : c < tdA.sustainEnvelopes.length := by omega
  have hdB1 : c < tdB.dualEnvelopeDetectors.length := by omega
  have haB1 : c < tdB.attackEnvelopes.length := by omega
  have hsB1 : c < tdB.sustainEnvelopes.length := by omega
  simp only [TransientDesigner.channelView, Prod.mk.injEq, List.getElem?_eq_getElem hdA1,
    List.getElem?_eq_getElem haA1, List.getElem?_eq_getElem hsA1, List.getElem?_eq_getElem hdB1,
    List.getElem?_eq_getElem haB1, List.getElem?_eq_getElem hsB1, Option.some.injEq] at hV
  obtain ⟨hsc, hd, ha, hs⟩ := hV
  have hps : tdA.processSample m tdA.dualEnvelopeDetectors[c] tdA.attackEnvelopes[c]
      tdA.sustainEnvelopes[c] inputSample =
      tdB.processSample m tdB.dualEnvelopeDetectors[c] tdB.attackEnvelopes[c]
      tdB.sustainEnvelopes[c] inputSample := by
    rw [← hd, ← ha, ← hs]
    change tdA.scalars.processSample m _ _ _ _ = tdB.scalars.processSample m _ _ _ _
    rw [hsc]
  refine ⟨tdA.writeBack c (tdA.processSample m tdA.dualEnvelopeDetectors[c]
      tdA.attackEnvelopes[c] tdA.sustainEnvelopes[c] inputSample),
    tdB.writeBack c (tdB.processSample m tdB.dualEnvelopeDetectors[c]
      tdB.attackEnvelopes[c] tdB.sustainEnvelopes[c] inputSample), _,
    TransientDesigner.stepSample_of_lt m tdA c inputSample hdA1 haA1 hsA1, ?_,
    TransientDesigner.writeBack_sized tdA n c _ ⟨hnumA, hdA, haA, hsA⟩,
    TransientDesigner.writeBack_sized tdB n c _ ⟨hnumB, hdB, haB, hsB⟩, rfl, rfl, ?_⟩
  · rw [TransientDesigner.stepSample_of_lt m tdB c inputSample hdB1 haB1 hsB1, hps]
  · have e : ∀ (td : TransientDesigner α) (r : SampleResult α),
        (td.writeBack c r).scalars =
          { td.scalars with inputRMS := r.inputRMS, outputRMS := r.outputRMS } :=
      fun _ _ => rfl
    rw [hps]
    simp only [TransientDesigner.channelView, e, hsc]
    simp [TransientDesigner.writeBack, hdA1, haA1, hsA1, hdB1, haB1, hsB1]


/-- Two designers with the same view of channel `c` write the same samples on channel `c` and
end with the same view. -/
theorem TransientDesigner.processChannel_same (m : Libm α) (n c : Nat) (input : List α)
    (hc : c < n) (tdA tdB : TransientDesigner α) (hA : tdA.Sized n) (hB : tdB.Sized n)
    (hV : tdA.channelView c = tdB.channelView c) :
    ∃ tA tB output, tdA.processChannel m c input = some (tA, output) ∧
      tdB.processChannel m c input = some (tB, output) ∧ tA.Sized n ∧ tB.Sized n ∧
      tA.autoGainComp = tdA.autoGainComp ∧ tB.autoGainComp = tdB.autoGainComp ∧
      tA.channelView c = tB.channelView c := by
  induction input generalizing tdA tdB with
  | nil => exact ⟨tdA, tdB, [], rfl, rfl, hA, hB, rfl, rfl, hV⟩
  | cons x rest ih =>
    obtain ⟨tA1, tB1, out, hA1, hB1, hSA1, hSB1, hgA1, hgB1, hV1⟩ :=
      TransientDesigner.stepSample_same m tdA tdB n c x hA hB hc hV
    obtain ⟨tA2, tB2, outs, hA2, hB2, hSA2, hSB2, hgA2, hgB2, hV2⟩ := ih tA1 tB1 hSA1 hSB1 hV1
    exact ⟨tA2, tB2, out :: outs, by simp [TransientDesigner.processChannel, hA1, hA2],
      by simp [TransientDesigner.processChannel, hB1, hB2], hSA2, hSB2, hgA2.trans hgA1,
      hgB2.trans hgB1, hV2⟩

/-- With auto gain compensation off, two runs of the channel loop that agree on the view and
on the samples of channel `c` agree on channel `c` of the result. -/
theorem TransientDesigner.processChannels_same (m : Libm α) (n c : Nat) (remaining : Nat) :
    ∀ (ch : Nat) (tdA tdB : TransientDesigner α) (blockA blockB : List (List α)),
      ch + remaining ≤ n → tdA.Sized n → tdB.Sized n →
      tdA.autoGainComp = false → tdB.autoGainComp = false →
      tdA.channelView c = tdB.channelView c →
      n ≤ blockA.length → n ≤ blockB.length → blockA[c]? = blockB[c]? →
      ∃ tA outA tB outB,
        TransientDesigner.processChannels m remaining ch tdA blockA = some (tA, outA) ∧
        TransientDesigner.processChannels m remaining ch tdB blockB = some (tB, outB) ∧
        outA[c]? = outB[c]? := by
  induction remaining with
  | zero =>
    intro ch tdA tdB blockA blockB _ _ _ _ _ _ _ _ hblock
    exact ⟨tdA, blockA, tdB, blockB, rfl, rfl, hblock⟩
  | succ k ih =>
    intro ch tdA tdB blockA blockB hrem hA hB hgA hgB hV hlA hlB hblock
    have hchA : ch < blockA.length := by omega
    have hchB : ch < blockB.length := by omega
    by_cases hcc : ch = c
    · subst hcc
      have hin : blockA[ch] = blockB[ch] := by
        rw [List.getElem?_eq_getElem hchA, List.getElem?_eq_getElem hchB] at hblock
        exact Option.some.inj hblock
      obtain ⟨tA1, tB1, output, hA1, hB1, hSA1, hSB1, hgA1, hgB1, hV1⟩ :=
        TransientDesigner.processChannel_same m n ch blockA[ch] (by omega) tdA tdB hA hB hV
      rw [hin] at hB1
      obtain ⟨tA, outA, tB, outB, hoA, hoB, hout⟩ :=
        ih (ch + 1) tA1 tB1 (blockA.set ch output) (blockB.set ch output) (by omega) hSA1 hSB1
          (hgA1.trans hgA) (hgB1.trans hgB) hV1 (by simpa using hlA) (by simpa using hlB)
          (by simp [List.getElem?_set_self, hchA, hchB])
      refine ⟨tA, outA, tB, outB, ?_, ?_, hout⟩
      · simp only [TransientDesigner.processChannels, List.getElem?_eq_getElem hchA, hA1]
        exact hoA
      · simp only [TransientDesigner.processChannels, List.getElem?_eq_getElem hchB, hB1]
        exact hoB
    · obtain ⟨tA1, outputA, hA1, hSA1, hgA1, hVA1⟩ :=
        TransientDesigner.processChannel_other m n ch c blockA[ch] (by omega) hcc tdA hA hgA
      obtain ⟨tB1, outputB, hB1, hSB1, hgB1, hVB1⟩ :=
        TransientDesigner.processChannel_other m n ch c blockB[ch] (by omega) hcc tdB hB hgB
      obtain ⟨tA, outA, tB, outB, hoA, hoB, hout⟩ :=
        ih (ch + 1) tA1 tB1 (blockA.set ch outputA) (blockB.set ch outputB) (by omega) hSA1 hSB1
          hgA1 hgB1 (hVA1.trans (hV.trans hVB1.symm)) (by simpa using hlA) (by simpa using hlB)
          (by rw [List.getElem?_set_ne hcc, List.getElem?_set_ne hcc]; exact hblock)
      refine ⟨tA, outA, tB, outB, ?_, ?_, hout⟩
      · simp only [TransientDesigner.processChannels, List.getElem?_eq_getElem hchA, hA1]
        exact hoA
      · simp only [TransientDesigner.processChannels, List.getElem?_eq_getElem hchB, hB1]
        exact hoB
/-- C14, amended: with auto gain compensation off, channels are processed independently: for
any other parameter setting and any sized initial state, two runs of `process` from that state
on blocks with the same samples on channel `c` both succeed and produce the same output on
channel `c`, whatever the other channels carry. -/
theorem channel_independent (m : Libm α) (td : TransientDesigner α) (n c : Nat)
    (block1 block2 : List (List α)) (hS : td.Sized n) (hagc : td.autoGainComp = false)
    (h1 : n ≤ block1.length) (h2 : n ≤ block2.length) (hc : block1[c]? = block2[c]?) :
    ∃ td1 out1 td2 out2, td.process m block1 = some (td1, out1) ∧
      td.process m block2 = some (td2, out2) ∧ out1[c]? = out2[c]? := by
  unfold TransientDesigner.process
  rw [hS.1]
  exact TransientDesigner.processChannels_same m n c n 0 td td block1 block2 (by omega) hS hS
    hagc hagc rfl h1 h2 hc

/-- C14 amended, on a freshly prepared stereo designer with auto gain compensation switched
off, channel `1`, and two blocks that differ on channel `0` only. -/
theorem channel_independent_witness :
    ((((TransientDesigner.new : TransientDesigner ℝ).prepare Libm.real 44100 2
          (fun _ => 0)).setAutoGainComp false).Sized 2 ∧
        (((TransientDesigner.new : TransientDesigner ℝ).prepare Libm.real 44100 2
          (fun _ => 0)).setAutoGainComp false).autoGainComp = false ∧
        ([[0], [1]] : List (List ℝ))[1]? = ([[7], [1]] : List (List ℝ))[1]?) ∧
      ∃ td1 out1 td2 out2,
        (((TransientDesigner.new : TransientDesigner ℝ).prepare Libm.real 44100 2
          (fun _ => 0)).setAutoGainComp false).process Libm.real [[0], [1]] = some (td1, out1) ∧
        (((TransientDesigner.new : TransientDesigner ℝ).prepare Libm.real 44100 2
          (fun _ => 0)).setAutoGainComp false).process Libm.real [[7], [1]] = some (td2, out2) ∧
        out1[1]? = out2[1]? :=
  ⟨⟨by simp [TransientDesigner.Sized, TransientDesigner.setAutoGainComp,
        TransientDesigner.prepare, TransientDesigner.reset], rfl, rfl⟩,
    channel_independent Libm.real
      (((TransientDesigner.new : TransientDesigner ℝ).prepare Libm.real 44100 2
        (fun _ => 0)).setAutoGainComp false) 2 1 [[0], [1]] [[7], [1]]
      (by simp [TransientDesigner.Sized, TransientDesigner.setAutoGainComp,
        TransientDesigner.prepare, TransientDesigner.reset]) rfl (by simp) (by simp) rfl⟩

/-- The makeup gain is limited to `3` for RMS members `49951/1000000` and `1249/250000`. -/
theorem makeupGain_limited_second :
    makeupGain Libm.real (49951 / 1000000) (1249 / 250000) = 3 := by
  have h : (3 : ℝ) ≤ Real.sqrt (49951 / 1000000 / (1249 / 250000)) := by
    rw [Real.le_sqrt' (by norm_num)]
    norm_num
  unfold makeupGain
  rw [if_pos (by norm_num)]
  simp only [Libm.real]
  rw [min_eq_left h]
  norm_num
/-- C14 as stated fails with auto gain compensation on.  From the same freshly prepared
default stereo designer, the blocks `[[0], [1]]` and `[[7], [1]]` carry the same input `1` on
channel `1`, but the output on channel `1` is `1` in the first run and `3` in the second: the
makeup gain of channel `1` is computed from RMS members that channel `0` has just updated. -/
theorem channel_coupling_counterexample :
    Option.map Prod.snd
        (((TransientDesigner.new : TransientDesigner ℝ).prepare Libm.real 44100 2
          (fun _ => 0)).process Libm.real [[0], [1]]) = some [[0], [1]] ∧
      Option.map Prod.snd
        (((TransientDesigner.new : TransientDesigner ℝ).prepare Libm.real 44100 2
          (fun _ => 0)).process Libm.real [[7], [1]]) = some [[6], [3]] := by
  constructor
  · norm_num [TransientDesigner.process, TransientDesigner.processChannels,
      TransientDesigner.processChannel, TransientDesigner.stepSample,
      TransientDesigner.processSample, TransientDesigner.prepare, TransientDesigner.reset,
      TransientDesigner.new, TransientDesigner.mixedSample, TransientDesigner.processedSample,
      TransientDesigner.hfSaturate, TransientDesigner.preSaturation,
      TransientDesigner.attackComponent, TransientDesigner.sustainComponent,
      TransientDesigner.sustainGain, TransientDesigner.sustainGainUnclamped,
      TransientDesigner.rawSustainGain, TransientDesigner.sustainSnapGain,
      makeupGain_self Libm.real (by simp [Libm.real])]
  · norm_num [TransientDesigner.process, TransientDesigner.processChannels,
      TransientDesigner.processChannel, TransientDesigner.stepSample,
      TransientDesigner.processSample, TransientDesigner.prepare, TransientDesigner.reset,
      TransientDesigner.new, TransientDesigner.mixedSample, TransientDesigner.processedSample,
      TransientDesigner.hfSaturate, TransientDesigner.preSaturation,
      TransientDesigner.attackComponent, TransientDesigner.sustainComponent,
      TransientDesigner.sustainGain, TransientDesigner.sustainGainUnclamped,
      TransientDesigner.rawSustainGain, TransientDesigner.sustainSnapGain,
      makeupGain_limited, makeupGain_limited_second]

/-! ### SNAP waveshaper -/

/-- C21: `processSnapWaveshaper 0 = 1`; with `snapAmount = 0` both SNAP factors are exactly `1`;
for `snapAmount > 0`, every hardness and every transient strength the attack-path factor is
`≤ 2` and the sustain-path factor is `≤ 1.3`; these two factors are what the unlimited attack
and sustain gains are multiplied by. -/
theorem snap_factors (td : TransientDesigner α) (transientDetected : α) :
    td.processSnapWaveshaper 0 = 1 ∧
      (td.snapAmount = 0 → td.snapGain transientDetected = 1 ∧ td.sustainSnapGain = 1) ∧
      (td.snapAmount > 0 → td.snapGain transientDetected ≤ 2 ∧ td.sustainSnapGain ≤ 1.3) ∧
      td.attackGainUnclamped transientDetected =
        (let g := td.rawAttackGain transientDetected *
            (1 + (td.criticalBandWeight - 1) * transientDetected) *
            td.snapGain transientDetected
         let h := if td.harmonicEnhancement > 0 then
            g + g * g * 0.3 * td.harmonicEnhancement * 0.06 * (0.1 + transientDetected * 0.9)
           else g
         if td.focus > 1 then h * td.focus else h) ∧
      td.sustainGainUnclamped transientDetected =
        (let g := td.rawSustainGain *
            (1 + (td.temporalWeight - 1) * (1 - transientDetected)) * td.sustainSnapGain
         if td.harmonicEnhancement > 0 then g + g * g * 0.15 * td.harmonicEnhancement * 0.03
         else g) := by
  refine ⟨?_, fun h => ?_, fun h => ?_, rfl, rfl⟩
  · simp [TransientDesigner.processSnapWaveshaper]
  · simp [TransientDesigner.snapGain, TransientDesigner.sustainSnapGain, h]
  · simp only [TransientDesigner.snapGain, TransientDesigner.sustainSnapGain, if_pos h]
    exact ⟨min_le_left _ _, min_le_left _ _⟩

/-- C21 at `snapAmount = 100` on the default designer and transient strength `1/2`. -/
theorem snap_factors_witness :
    ((TransientDesigner.new : TransientDesigner ℝ).setSnapAmount 100).snapAmount > 0 ∧
      ((TransientDesigner.new : TransientDesigner ℝ).setSnapAmount 100).snapGain (1 / 2) ≤ 2 ∧
      ((TransientDesigner.new : TransientDesigner ℝ).setSnapAmount 100).sustainSnapGain ≤ 1.3 :=
  ⟨by norm_num [TransientDesigner.setSnapAmount],
    (snap_factors ((TransientDesigner.new : TransientDesigner ℝ).setSnapAmount 100) (1 / 2)).2.2.1
      (by norm_num [TransientDesigner.setSnapAmount])⟩

/-- In the large-value region the factor does lie in `[1.3, 1.5]` for every curve input with
`0.5 ≤ |x| ≤ 1.5` and every `snapHardness ≥ 0`, which covers what the pipeline feeds for
`snapAmount` in `[0, 200]` (at most `1.4`), and for every `|x| ≥ 0.5` when
`snapHardness ≥ 1`. -/
theorem TransientDesigner.processSnapWaveshaper_large_bounds (td : TransientDesigner α) (x : α) (hx : 0.5 ≤ |x|)
    (hh : 0 ≤ td.snapHardness) (hcase : |x| ≤ 1.5 ∨ 1 ≤ td.snapHardness) :
    1.3 ≤ td.processSnapWaveshaper x ∧ td.processSnapWaveshaper x ≤ 1.5 := by
  have hx0 : x ≠ 0 := by
    intro h
    rw [h, abs_zero] at hx
    norm_num at hx
  have hval : td.processSnapWaveshaper x =
      1 + 0.3 + (|x| - 0.5) / (1 + (|x| - 0.5) * td.snapHardness) * 0.2 := by
    unfold TransientDesigner.processSnapWaveshaper
    rw [if_neg hx0]
    have h1 : ¬ |x| < 0.1 := by
      intro h
      have : (0.1 : α) < 0.5 := by norm_num
      linarith
    have h2 : ¬ |x| < 0.5 := not_lt.mpr hx
    simp only [h1, h2, if_false]
  have he : 0 ≤ |x| - 0.5 := by linarith
  have hden : 0 < 1 + (|x| - 0.5) * td.snapHardness := by
    have := mul_nonneg he hh
    linarith
  have hs0 : 0 ≤ (|x| - 0.5) / (1 + (|x| - 0.5) * td.snapHardness) := div_nonneg he hden.le
  have hs1 : (|x| - 0.5) / (1 + (|x| - 0.5) * td.snapHardness) ≤ 1 := by
    rw [div_le_one hden]
    rcases hcase with h | h
    · have := mul_nonneg he hh
      have h15 : |x| - 0.5 ≤ 1 := by
        have : (1.5 : α) - 0.5 = 1 := by norm_num
        linarith
      linarith
    · have := mul_le_mul_of_nonneg_left h he
      linarith
  rw [hval]
  constructor
  · have : (1.3 : α) = 1 + 0.3 := by norm_num
    linarith [mul_nonneg hs0 (show (0 : α) ≤ 0.2 by norm_num)]
  · have h3 : (1.5 : α) = 1 + 0.3 + 1 * 0.2 := by norm_num
    rw [h3]
    have := mul_le_mul_of_nonneg_right hs1 (show (0 : α) ≤ 0.2 by norm_num)
    linarith

/-! ### HF saturation -/

/-- C23: when `hfSaturation > 0` the stage maps `p` to
`p + p^2 * hfGain * (hfSaturation/100) * 0.3`, which is `≥ p` for `hfGain ≥ 0` and every `p`,
negative ones included; when `hfSaturation = 0` the stage leaves `p` unchanged. -/
theorem hf_saturation_additive (td : TransientDesigner α) (p : α) :
    (td.hfSaturation > 0 →
        td.hfSaturate p = p + p ^ 2 * td.hfGain * (td.hfSaturation / 100) * 0.3 ∧
        (0 ≤ td.hfGain → p ≤ td.hfSaturate p)) ∧
      (td.hfSaturation = 0 → td.hfSaturate p = p) := by
  constructor
  · intro h
    have hval : td.hfSaturate p = p + p ^ 2 * td.hfGain * (td.hfSaturation / 100) * 0.3 := by
      simp only [TransientDesigner.hfSaturate, if_pos h]
      ring
    refine ⟨hval, fun hg => ?_⟩
    rw [hval]
    have h1 : 0 ≤ p ^ 2 * td.hfGain * (td.hfSaturation / 100) * 0.3 := by
      have := sq_nonneg p
      have h100 : 0 ≤ td.hfSaturation / 100 := by positivity
      positivity
    linarith
  · intro h
    simp [TransientDesigner.hfSaturate, h]

/-- C23 at `hfSaturation = 50`, the default `hfGain = 1` and the negative sample `-1/2`. -/
theorem hf_saturation_additive_witness :
    (((TransientDesigner.new : TransientDesigner ℝ).setHFSaturation 50).hfSaturation > 0 ∧
        0 ≤ ((TransientDesigner.new : TransientDesigner ℝ).setHFSaturation 50).hfGain) ∧
      (-1 / 2 : ℝ) ≤ ((TransientDesigner.new : TransientDesigner ℝ).setHFSaturation 50).hfSaturate (-1 / 2) :=
  ⟨by norm_num [TransientDesigner.setHFSaturation, TransientDesigner.new],
    ((hf_saturation_additive ((TransientDesigner.new : TransientDesigner ℝ).setHFSaturation 50) (-1 / 2)).1
      (by norm_num [TransientDesigner.setHFSaturation])).2
      (by norm_num [TransientDesigner.setHFSaturation, TransientDesigner.new])⟩

/-! ### Sign and symmetry of the clipper -/

/-- The clipper is an odd function of its input when the ceiling is positive. -/
theorem processClipper_neg (m : Libm α) (input ceiling drive : α) (type : ClipperType)
    (hc : 0 < ceiling) :
    processClipper m (-input) ceiling drive type = -processClipper m input ceiling drive type := by
  unfold processClipper
  by_cases h : |input * drive| ≤ ceiling
  · simp [h]
  · have hne : input * drive ≠ 0 := by
      intro h0
      rw [h0, abs_zero] at h
      exact h hc.le
    simp only [neg_mul, abs_neg, h, if_false]
    rcases lt_or_gt_of_ne hne with hlt | hgt
    · have h1 : ¬ (input * drive ≥ 0) := not_le.mpr hlt
      have h2 : -(input * drive) ≥ 0 := by linarith
      simp only [h1, h2, if_true, if_false]
      ring
    · have h1 : input * drive ≥ 0 := hgt.le
      have h2 : ¬ (-(input * drive) ≥ 0) := by
        intro hh
        linarith
      simp only [h1, h2, if_true, if_false]
      ring

/-- C24 (evaluation at failing inputs): with ceiling `0.8` and drive `2`, the `QUINTIC` curve
turns input `0.8` (driven input `1.6`) into `-3.52` and the `CUBIC` curve turns input `1.2`
(driven input `2.4`) into `-4.8`: the product of output and driven input is negative, so the
output has the opposite sign. -/
theorem processClipper_flips_sign :
    processClipper Libm.real 0.8 0.8 2 ClipperType.QUINTIC * (0.8 * 2) = -5.632 ∧
      ¬ (0 ≤ processClipper Libm.real 0.8 0.8 2 ClipperType.QUINTIC * (0.8 * 2)) ∧
      processClipper Libm.real 1.2 0.8 2 ClipperType.CUBIC * (1.2 * 2) = -11.52 ∧
      ¬ (0 ≤ processClipper Libm.real 1.2 0.8 2 ClipperType.CUBIC * (1.2 * 2)) := by
  have hq : processClipper Libm.real 0.8 0.8 2 ClipperType.QUINTIC = -3.52 := by
    unfold processClipper
    norm_num [abs_of_pos]
  have hcu : processClipper Libm.real 1.2 0.8 2 ClipperType.CUBIC = -4.8 := by
    unfold processClipper
    norm_num [abs_of_pos]
  rw [hq, hcu]
  norm_num

/-! ### Coefficients -/

/-- The decimal fallback literal for `M_PI` lies within `1e-20` below π. -/
theorem M_PI_close : (M_PI : ℝ) < Libm.real.pi ∧ Libm.real.pi < M_PI + 1e-20 := by
  constructor
  · exact Real.pi_gt_d20
  · have h := Real.pi_lt_d20
    have e : (M_PI : ℝ) + 1e-20 = 3.14159265358979323847 := by
      unfold M_PI
      norm_num
    rw [e]
    exact h

/-- C25: for a positive sample rate and positive attack and release times, `set_times` yields
the coefficients `exp(-1/(time_ms*sampleRate*0.001))`, each strictly in `(0,1)`, and
`DualEnvelopeDetector.prepare` yields `fastAttackCoeff = 0` and fast-release, slow-attack and
slow-release coefficients equal to the same formula at 10 ms, 50 ms and 100 ms, each strictly
in `(0,1)`. -/
theorem envelope_coefficients (sampleRate attack_ms release_ms : ℝ) (hsr : 0 < sampleRate)
    (ha : 0 < attack_ms) (hr : 0 < release_ms) (e : EnvelopeFollower ℝ)
    (d : DualEnvelopeDetector ℝ) :
    ((e.set_times Libm.real attack_ms release_ms sampleRate).attack_coeff =
          Real.exp (-1 / (attack_ms * sampleRate * 0.001)) ∧
        0 < (e.set_times Libm.real attack_ms release_ms sampleRate).attack_coeff ∧
        (e.set_times Libm.real attack_ms release_ms sampleRate).attack_coeff < 1) ∧
      ((e.set_times Libm.real attack_ms release_ms sampleRate).release_coeff =
          Real.exp (-1 / (release_ms * sampleRate * 0.001)) ∧
        0 < (e.set_times Libm.real attack_ms release_ms sampleRate).release_coeff ∧
        (e.set_times Libm.real attack_ms release_ms sampleRate).release_coeff < 1) ∧
      (d.prepare Libm.real sampleRate).fastAttackCoeff = 0 ∧
      ((d.prepare Libm.real sampleRate).fastReleaseCoeff =
          Real.exp (-1 / (10 * sampleRate * 0.001)) ∧
        0 < (d.prepare Libm.real sampleRate).fastReleaseCoeff ∧
        (d.prepare Libm.real sampleRate).fastReleaseCoeff < 1) ∧
      ((d.prepare Libm.real sampleRate).slowAttackCoeff =
          Real.exp (-1 / (50 * sampleRate * 0.001)) ∧
        0 < (d.prepare Libm.real sampleRate).slowAttackCoeff ∧
        (d.prepare Libm.real sampleRate).slowAttackCoeff < 1) ∧
      ((d.prepare Libm.real sampleRate).slowReleaseCoeff =
          Real.exp (-1 / (100 * sampleRate * 0.001)) ∧
        0 < (d.prepare Libm.real sampleRate).slowReleaseCoeff ∧
        (d.prepare Libm.real sampleRate).slowReleaseCoeff < 1) := by
  have key : ∀ x : ℝ, 0 < x → 0 < Real.exp (-1 / x) ∧ Real.exp (-1 / x) < 1 := by
    intro x hx
    refine ⟨Real.exp_pos _, ?_⟩
    rw [Real.exp_lt_one_iff]
    exact div_neg_of_neg_of_pos (by norm_num) hx
  have e10 : sampleRate * 0.01 = 10 * sampleRate * 0.001 := by ring
  have e50 : sampleRate * 0.05 = 50 * sampleRate * 0.001 := by ring
  have e100 : sampleRate * 0.1 = 100 * sampleRate * 0.001 := by ring
  simp only [EnvelopeFollower.set_times, DualEnvelopeDetector.prepare, Libm.real, e10, e50,
    e100]
  exact ⟨⟨trivial, key _ (by positivity)⟩, ⟨trivial, key _ (by positivity)⟩, trivial,
    ⟨trivial, key _ (by positivity)⟩, ⟨trivial, key _ (by positivity)⟩,
    ⟨trivial, key _ (by positivity)⟩⟩

/-- C25 at 44100 Hz with attack time 1 ms and release time 100 ms. -/
theorem envelope_coefficients_witness :
    ((0 : ℝ) < 44100 ∧ (0 : ℝ) < 1 ∧ (0 : ℝ) < 100) ∧
      0 < ((freshFollower : EnvelopeFollower ℝ).set_times Libm.real 1 100 44100).attack_coeff ∧
      ((freshFollower : EnvelopeFollower ℝ).set_times Libm.real 1 100 44100).attack_coeff < 1 :=
  ⟨by norm_num,
    (envelope_coefficients 44100 1 100 (by norm_num) (by norm_num) (by norm_num) freshFollower
      freshDetector).1.2⟩

/-! ### Instant attack of the fast envelope -/

/-- The fast envelope after `process`: `|input|` when that exceeds the old envelope, and in all
cases between `|input|` and `max fastEnvelope |input|`, for a release coefficient in `[0,1]`. -/
theorem DualEnvelopeDetector.fast_envelope_bounds (d : DualEnvelopeDetector α) (input : α)
    (hc0 : 0 ≤ d.fastReleaseCoeff) (hc1 : d.fastReleaseCoeff ≤ 1) :
    (|input| > d.fastEnvelope → (d.process input).1.fastEnvelope = |input|) ∧
      |input| ≤ (d.process input).1.fastEnvelope ∧
      (d.process input).1.fastEnvelope ≤ max d.fastEnvelope |input| := by
  have hval : (d.process input).1.fastEnvelope =
      if |input| > d.fastEnvelope then |input|
      else d.fastEnvelope * d.fastReleaseCoeff + |input| * (1 - d.fastReleaseCoeff) := rfl
  rw [hval]
  by_cases h : |input| > d.fastEnvelope
  · rw [if_pos h]
    exact ⟨fun _ => rfl, le_refl _, le_max_right _ _⟩
  · rw [if_neg h]
    have hle : |input| ≤ d.fastEnvelope := not_lt.mp h
    have hb := convex_between d.fastReleaseCoeff d.fastEnvelope |input| hc0 hc1
    rw [min_eq_right hle] at hb
    refine ⟨fun hh => absurd hh h, ?_, ?_⟩
    · linarith [hb.1]
    · linarith [hb.2]

/-- With slow coefficients in `[0,1]`, `process` keeps a non-negative slow envelope
non-negative. -/
theorem DualEnvelopeDetector.slow_envelope_nonneg (d : DualEnvelopeDetector α) (input : α)
    (hs : 0 ≤ d.slowEnvelope) (ha0 : 0 ≤ d.slowAttackCoeff) (ha1 : d.slowAttackCoeff ≤ 1)
    (hr0 : 0 ≤ d.slowReleaseCoeff) (hr1 : d.slowReleaseCoeff ≤ 1) :
    0 ≤ (d.process input).1.slowEnvelope := by
  have hmin : 0 ≤ min d.slowEnvelope |input| := le_min hs (abs_nonneg input)
  unfold DualEnvelopeDetector.process
  dsimp only
  split_ifs
  · have hb := convex_between d.slowAttackCoeff d.slowEnvelope |input| ha0 ha1
    linarith [hb.1]
  · have hb := convex_between d.slowReleaseCoeff d.slowEnvelope |input| hr0 hr1
    linarith [hb.1]

/-- A sequence of `process` and `reset` calls leaves the coefficients as they are. -/
theorem DualEnvelopeDetector.run_coeffs (calls : List (DetectorCall α))
    (d : DualEnvelopeDetector α) :
    (d.run calls).fastReleaseCoeff = d.fastReleaseCoeff ∧
      (d.run calls).slowAttackCoeff = d.slowAttackCoeff ∧
      (d.run calls).slowReleaseCoeff = d.slowReleaseCoeff := by
  induction calls generalizing d with
  | nil => exact ⟨rfl, rfl, rfl⟩
  | cons call rest ih =>
    cases call with
    | process input => exact ih (d.process input).1
    | reset => exact ih d.reset

/-- With slow coefficients in `[0,1]`, a sequence of `process` and `reset` calls keeps a
non-negative slow envelope non-negative. -/
theorem DualEnvelopeDetector.run_slow_nonneg (calls : List (DetectorCall α))
    (d : DualEnvelopeDetector α) (hs : 0 ≤ d.slowEnvelope) (ha0 : 0 ≤ d.slowAttackCoeff)
    (ha1 : d.slowAttackCoeff ≤ 1) (hr0 : 0 ≤ d.slowReleaseCoeff) (hr1 : d.slowReleaseCoeff ≤ 1) :
    0 ≤ (d.run calls).slowEnvelope := by
  induction calls generalizing d with
  | nil => exact hs
  | cons call rest ih =>
    cases call with
    | process input =>
      exact ih (d.process input).1
        (DualEnvelopeDetector.slow_envelope_nonneg d input hs ha0 ha1 hr0 hr1) ha0 ha1 hr0 hr1
    | reset => exact ih d.reset (le_refl 0) ha0 ha1 hr0 hr1

/-- A detector that `prepare` leaves with a fast-release coefficient of at most `1` has both slow
coefficients in `[0,1]`. -/
theorem DualEnvelopeDetector.prepare_slow_coeffs (d : DualEnvelopeDetector ℝ) (sampleRate : ℝ)
    (h1 : (d.prepare Libm.real sampleRate).fastReleaseCoeff ≤ 1) :
    (0 ≤ (d.prepare Libm.real sampleRate).slowAttackCoeff ∧
        (d.prepare Libm.real sampleRate).slowAttackCoeff ≤ 1) ∧
      0 ≤ (d.prepare Libm.real sampleRate).slowReleaseCoeff ∧
        (d.prepare Libm.real sampleRate).slowReleaseCoeff ≤ 1 := by
  have hfast : Real.exp (-1 / (sampleRate * 0.01)) ≤ 1 := h1
  have hsr : 0 ≤ sampleRate := by
    by_contra hneg
    have hlt : sampleRate * 0.01 < 0 := mul_neg_of_neg_of_pos (not_le.mp hneg) (by norm_num)
    have hpos : 0 < -1 / (sampleRate * 0.01) := div_pos_of_neg_of_neg (by norm_num) hlt
    have := Real.exp_le_one_iff.mp hfast
    linarith
  have ha : Real.exp (-1 / (sampleRate * 0.05)) ≤ 1 :=
    Real.exp_le_one_iff.mpr
      (div_nonpos_of_nonpos_of_nonneg (by norm_num) (mul_nonneg hsr (by norm_num)))
  have hr : Real.exp (-1 / (sampleRate * 0.1)) ≤ 1 :=
    Real.exp_le_one_iff.mpr
      (div_nonpos_of_nonpos_of_nonneg (by norm_num) (mul_nonneg hsr (by norm_num)))
  exact ⟨⟨Real.exp_nonneg _, ha⟩, Real.exp_nonneg _, hr⟩

/-- C27: for every detector state with `fastEnvelope ≥ 0` and fast-release coefficient in
`[0,1]`, after `process` the new fast envelope is `≥ 0`, equals `|input|` when `|input|` exceeds
the old one, and satisfies `|input| ≤ fastEnvelope' ≤ max(fastEnvelope, |input|)`; and in every
state that a detector can be in, that is after construction (envelopes `0`), `prepare` and any
sequence of `process` and `reset` calls, the returned transient strength does not exceed
`fastEnvelope'`. -/
theorem fast_attack_instant (d : DualEnvelopeDetector ℝ) (input : ℝ)
    (_hf : 0 ≤ d.fastEnvelope) (hc0 : 0 ≤ d.fastReleaseCoeff) (hc1 : d.fastReleaseCoeff ≤ 1) :
    0 ≤ (d.process input).1.fastEnvelope ∧
      (|input| > d.fastEnvelope → (d.process input).1.fastEnvelope = |input|) ∧
      |input| ≤ (d.process input).1.fastEnvelope ∧
      (d.process input).1.fastEnvelope ≤ max d.fastEnvelope |input| ∧
      (∀ (c1 c2 c3 c4 sampleRate : ℝ) (calls : List (DetectorCall ℝ)),
        d = ((DualEnvelopeDetector.new c1 c2 c3 c4).prepare Libm.real sampleRate).run calls →
        0 ≤ d.slowEnvelope ∧ 0 ≤ (d.process input).1.slowEnvelope ∧
          (d.process input).2 ≤ (d.process input).1.fastEnvelope) := by
  obtain ⟨h1, h2, h3⟩ := DualEnvelopeDetector.fast_envelope_bounds d input hc0 hc1
  have hfast : 0 ≤ (d.process input).1.fastEnvelope := (abs_nonneg input).trans h2
  refine ⟨hfast, h1, h2, h3, ?_⟩
  intro c1 c2 c3 c4 sampleRate calls hd
  obtain ⟨e1, e2, e3⟩ := DualEnvelopeDetector.run_coeffs calls
    ((DualEnvelopeDetector.new c1 c2 c3 c4).prepare Libm.real sampleRate)
  rw [← hd] at e1 e2 e3
  obtain ⟨⟨ha0, ha1⟩, hr0, hr1⟩ := DualEnvelopeDetector.prepare_slow_coeffs
    (DualEnvelopeDetector.new c1 c2 c3 c4) sampleRate (by rw [← e1]; exact hc1)
  have hs : 0 ≤ d.slowEnvelope := by
    rw [hd]
    exact DualEnvelopeDetector.run_slow_nonneg calls _ (le_refl 0) ha0 ha1 hr0 hr1
  rw [← e2] at ha0 ha1
  rw [← e3] at hr0 hr1
  have hslow := DualEnvelopeDetector.slow_envelope_nonneg d input hs ha0 ha1 hr0 hr1
  have hret : (d.process input).2 =
      max 0 ((d.process input).1.fastEnvelope - (d.process input).1.slowEnvelope) := rfl
  refine ⟨hs, hslow, ?_⟩
  rw [hret]
  exact max_le hfast (by linarith)

/-- C27 on a detector that is constructed, prepared at 44100 Hz and has processed the
sample `1`, with input `2`. -/
theorem fast_attack_instant_witness :
    (0 ≤ (((DualEnvelopeDetector.new 0 0 0 0 : DualEnvelopeDetector ℝ).prepare Libm.real
          44100).run [DetectorCall.process 1]).fastEnvelope ∧
        0 ≤ (((DualEnvelopeDetector.new 0 0 0 0 : DualEnvelopeDetector ℝ).prepare Libm.real
          44100).run [DetectorCall.process 1]).fastReleaseCoeff ∧
        (((DualEnvelopeDetector.new 0 0 0 0 : DualEnvelopeDetector ℝ).prepare Libm.real
          44100).run [DetectorCall.process 1]).fastReleaseCoeff ≤ 1) ∧
      ((((DualEnvelopeDetector.new 0 0 0 0 : DualEnvelopeDetector ℝ).prepare Libm.real
          44100).run [DetectorCall.process 1]).process 2).2 ≤
        ((((DualEnvelopeDetector.new 0 0 0 0 : DualEnvelopeDetector ℝ).prepare Libm.real
          44100).run [DetectorCall.process 1]).process 2).1.fastEnvelope :=
  have hf : (0 : ℝ) ≤ (((DualEnvelopeDetector.new 0 0 0 0 : DualEnvelopeDetector ℝ).prepare
      Libm.real 44100).run [DetectorCall.process 1]).fastEnvelope := by
    norm_num [DualEnvelopeDetector.run, DualEnvelopeDetector.process,
      DualEnvelopeDetector.prepare, DualEnvelopeDetector.new]
  have hc0 : (0 : ℝ) ≤ (((DualEnvelopeDetector.new 0 0 0 0 : DualEnvelopeDetector ℝ).prepare
      Libm.real 44100).run [DetectorCall.process 1]).fastReleaseCoeff :=
    Real.exp_nonneg (-1 / (44100 * 0.01))
  have hc1 : (((DualEnvelopeDetector.new 0 0 0 0 : DualEnvelopeDetector ℝ).prepare
      Libm.real 44100).run [DetectorCall.process 1]).fastReleaseCoeff ≤ 1 :=
    Real.exp_le_one_iff.mpr (show (-1 / (44100 * 0.01) : ℝ) ≤ 0 by norm_num)
  ⟨⟨hf, hc0, hc1⟩,
    ((fast_attack_instant _ 2 hf hc0 hc1).2.2.2.2 0 0 0 0 44100 [DetectorCall.process 1]
      rfl).2.2⟩

/-! ### Ceiling of the final clipper -/

/-- Above the ceiling the clipper returns `sign * clippedValue * ceiling`; when the curve value
lies in `[0, 1]` the magnitude of that is at most the ceiling. -/
theorem resigned_le_ceiling (driven cv ceiling : ℝ) (hc : 0 ≤ ceiling) (h0 : 0 ≤ cv)
    (h1 : cv ≤ 1) : |(if driven ≥ 0 then (1 : ℝ) else -1) * cv * ceiling| ≤ ceiling := by
  have hs : |(if driven ≥ 0 then (1 : ℝ) else -1)| = 1 := by
    split_ifs <;> simp
  rw [abs_mul, abs_mul, hs, one_mul, abs_of_nonneg h0, abs_of_nonneg hc]
  exact mul_le_of_le_one_left hc h1

/-- For the types `HARD`, `ALGEBRAIC` and `ARCTANGENT` and a positive ceiling the clipper output
never exceeds the ceiling in magnitude. -/
theorem processClipper_le_ceiling (input ceiling drive : ℝ) (type : ClipperType)
    (hc : 0 < ceiling)
    (hty : type = ClipperType.HARD ∨ type = ClipperType.ALGEBRAIC ∨
      type = ClipperType.ARCTANGENT) :
    |processClipper Libm.real input ceiling drive type| ≤ ceiling := by
  by_cases h : |input * drive| ≤ ceiling
  · rw [show processClipper Libm.real input ceiling drive type = input * drive from by unfold processClipper; simp [h]]
    exact h
  · have hn : 0 < |input * drive| / ceiling := div_pos (lt_trans hc (not_le.mp h)) hc
    rcases hty with rfl | rfl | rfl
    · have hv : processClipper Libm.real input ceiling drive ClipperType.HARD =
          (if input * drive ≥ 0 then (1 : ℝ) else -1) * 1 * ceiling := by
        unfold processClipper
        simp [h]
      rw [hv]
      exact resigned_le_ceiling _ _ _ hc.le zero_le_one le_rfl
    · have hv : processClipper Libm.real input ceiling drive ClipperType.ALGEBRAIC =
          (if input * drive ≥ 0 then (1 : ℝ) else -1) *
            (|input * drive| / ceiling /
              Real.sqrt (1 + |input * drive| / ceiling * (|input * drive| / ceiling))) *
            ceiling := by
        unfold processClipper
        simp [h, Libm.real]
      rw [hv]
      have hsq : |input * drive| / ceiling ≤
          Real.sqrt (1 + |input * drive| / ceiling * (|input * drive| / ceiling)) := by
        apply Real.le_sqrt_of_sq_le
        nlinarith
      have hpos : 0 < Real.sqrt (1 + |input * drive| / ceiling * (|input * drive| / ceiling)) :=
        lt_of_lt_of_le hn hsq
      exact resigned_le_ceiling _ _ _ hc.le (div_nonneg hn.le hpos.le)
        ((div_le_one hpos).mpr hsq)
    · have hv : processClipper Libm.real input ceiling drive ClipperType.ARCTANGENT =
          (if input * drive ≥ 0 then (1 : ℝ) else -1) *
            (2 / Real.pi * Real.arctan (|input * drive| / ceiling * Real.pi * 0.5)) *
            ceiling := by
        unfold processClipper
        simp [h, Libm.real]
      rw [hv]
      have harg : 0 ≤ |input * drive| / ceiling * Real.pi * 0.5 := by
        have := Real.pi_pos
        positivity
      have h0 : 0 ≤ Real.arctan (|input * drive| / ceiling * Real.pi * 0.5) := by
        rw [← Real.arctan_zero]
        exact Real.arctan_strictMono.monotone harg
      have h1 := (Real.arctan_lt_pi_div_two (|input * drive| / ceiling * Real.pi * 0.5)).le
      refine resigned_le_ceiling _ _ _ hc.le (mul_nonneg (by positivity) h0) ?_
      have hpi := Real.pi_pos
      calc 2 / Real.pi * Real.arctan (|input * drive| / ceiling * Real.pi * 0.5)
          ≤ 2 / Real.pi * (Real.pi / 2) := mul_le_mul_of_nonneg_left h1 (by positivity)
        _ = 1 := by field_simp

/-- C28: with the clipper enabled, a positive ceiling and a clipper type among `HARD`,
`ALGEBRAIC` and `ARCTANGENT`, the output sample written by the loop body has magnitude at most
the ceiling, for every input, state, drive and setting of the other parameters, auto gain
compensation on or off. -/
theorem clipper_enforces_ceiling (td : TransientDesigner ℝ) (detector : DualEnvelopeDetector ℝ)
    (attackEnvelope sustainEnvelope : EnvelopeFollower ℝ) (inputSample : ℝ)
    (hen : td.clipperEnabled = true) (hc : 0 < td.clipperCeiling)
    (hty : td.clipperType = ClipperType.HARD ∨ td.clipperType = ClipperType.ALGEBRAIC ∨
      td.clipperType = ClipperType.ARCTANGENT) :
    |(td.processSample Libm.real detector attackEnvelope sustainEnvelope inputSample).output| ≤
      td.clipperCeiling := by
  have hout : ∃ y : ℝ,
      (td.processSample Libm.real detector attackEnvelope sustainEnvelope inputSample).output =
        processClipper Libm.real y td.clipperCeiling td.clipperDrive td.clipperType := by
    unfold TransientDesigner.processSample
    simp only [hen, if_true]
    exact ⟨_, rfl⟩
  obtain ⟨y, hy⟩ := hout
  rw [hy]
  exact processClipper_le_ceiling y _ _ _ hc hty

/-- C28 at the default designer with the clipper enabled and type `ARCTANGENT`, input `3`. -/
theorem clipper_enforces_ceiling_witness :
    ((((TransientDesigner.new : TransientDesigner ℝ).setClipperEnabled true).setClipperType ClipperType.ARCTANGENT).clipperEnabled =
          true ∧
        0 < (((TransientDesigner.new : TransientDesigner ℝ).setClipperEnabled true).setClipperType
          ClipperType.ARCTANGENT).clipperCeiling) ∧
      |((((TransientDesigner.new : TransientDesigner ℝ).setClipperEnabled true).setClipperType ClipperType.ARCTANGENT).processSample
          Libm.real freshDetector freshFollower freshFollower 3).output| ≤
        (((TransientDesigner.new : TransientDesigner ℝ).setClipperEnabled true).setClipperType ClipperType.ARCTANGENT).clipperCeiling :=
  ⟨by norm_num [TransientDesigner.setClipperEnabled, TransientDesigner.setClipperType,
      TransientDesigner.new],
    clipper_enforces_ceiling
      (((TransientDesigner.new : TransientDesigner ℝ).setClipperEnabled true).setClipperType ClipperType.ARCTANGENT)
      freshDetector freshFollower freshFollower 3 rfl
      (by norm_num [TransientDesigner.setClipperEnabled, TransientDesigner.setClipperType,
        TransientDesigner.new])
      (Or.inr (Or.inr rfl))⟩

/-! ### Sizes after `prepare` -/

/-- C29: after `prepare` with channel count `n`, whatever the vectors held before, `numChannels`
is `n`, the three vectors hold exactly `n` elements, all envelopes are `0`, and every index
`ch < numChannels` is in bounds of all three vectors, so the loop body runs on it. -/
theorem prepare_sizes (m : Libm α) (td : TransientDesigner α) (sampleRate : α) (n : Nat)
    (indet : Nat → α) :
    (td.prepare m sampleRate n indet).numChannels = n ∧
      (td.prepare m sampleRate n indet).attackEnvelopes.length = n ∧
      (td.prepare m sampleRate n indet).sustainEnvelopes.length = n ∧
      (td.prepare m sampleRate n indet).dualEnvelopeDetectors.length = n ∧
      (td.prepare m sampleRate n indet).attackEnvelopes.map (fun e => e.envelope) =
        List.replicate n 0 ∧
      (td.prepare m sampleRate n indet).sustainEnvelopes.map (fun e => e.envelope) =
        List.replicate n 0 ∧
      (td.prepare m sampleRate n indet).dualEnvelopeDetectors.map
          (fun d => (d.fastEnvelope, d.slowEnvelope)) = List.replicate n (0, 0) ∧
      ∀ ch : Nat, ch < (td.prepare m sampleRate n indet).numChannels →
        ((td.prepare m sampleRate n indet).attackEnvelopes[ch]?).isSome = true ∧
        ((td.prepare m sampleRate n indet).sustainEnvelopes[ch]?).isSome = true ∧
        ((td.prepare m sampleRate n indet).dualEnvelopeDetectors[ch]?).isSome = true ∧
        ∀ inputSample : α,
          ((td.prepare m sampleRate n indet).stepSample m ch inputSample).isSome = true := by
  have hlen : (td.prepare m sampleRate n indet).numChannels = n ∧
      (td.prepare m sampleRate n indet).attackEnvelopes.length = n ∧
      (td.prepare m sampleRate n indet).sustainEnvelopes.length = n ∧
      (td.prepare m sampleRate n indet).dualEnvelopeDetectors.length = n := by
    simp [TransientDesigner.prepare, TransientDesigner.reset]
  obtain ⟨h0, h1, h2, h3⟩ := hlen
  refine ⟨h0, h1, h2, h3, ?_, ?_, ?_, fun ch hch => ?_⟩
  · simp [TransientDesigner.prepare, TransientDesigner.reset, EnvelopeFollower.reset,
      EnvelopeFollower.new, List.map_const', Function.comp_def]
  · simp [TransientDesigner.prepare, TransientDesigner.reset, EnvelopeFollower.reset,
      EnvelopeFollower.new, List.map_const', Function.comp_def]
  · simp [TransientDesigner.prepare, TransientDesigner.reset, DualEnvelopeDetector.reset,
      DualEnvelopeDetector.prepare, DualEnvelopeDetector.new, List.map_const',
      Function.comp_def]
  · rw [h0] at hch
    have ha : ch < (td.prepare m sampleRate n indet).attackEnvelopes.length := by omega
    have hs : ch < (td.prepare m sampleRate n indet).sustainEnvelopes.length := by omega
    have hd : ch < (td.prepare m sampleRate n indet).dualEnvelopeDetectors.length := by omega
    refine ⟨by rw [List.getElem?_eq_getElem ha]; rfl, by rw [List.getElem?_eq_getElem hs]; rfl,
      by rw [List.getElem?_eq_getElem hd]; rfl, fun x => ?_⟩
    rw [TransientDesigner.stepSample_of_lt m _ ch x hd ha hs]
    rfl

/-- C29 on a default-constructed designer prepared for two channels, at channel `1`. -/
theorem prepare_sizes_witness :
    1 < ((TransientDesigner.new : TransientDesigner ℝ).prepare Libm.real 44100 2 (fun _ => 0)).numChannels ∧
      (((TransientDesigner.new : TransientDesigner ℝ).prepare Libm.real 44100 2 (fun _ => 0)).stepSample Libm.real 1 (1 / 2)).isSome =
        true :=
  ⟨by simp [TransientDesigner.prepare, TransientDesigner.reset],
    ((prepare_sizes Libm.real (TransientDesigner.new : TransientDesigner ℝ) 44100 2 (fun _ => 0)).2.2.2.2.2.2.2 1
      (by simp [TransientDesigner.prepare, TransientDesigner.reset])).2.2.2 (1 / 2)⟩

/-! ### Silence -/

/-- C30: silence in gives silence out at every sample: for every internal state and every
parameter setting with `clipperCeiling ≥ 0`, the loop body writes `0` for the input sample `0`,
and the sample loop of a sized designer returns a run of zeros unchanged. -/
theorem silence_in_silence_out (td : TransientDesigner ℝ) (detector : DualEnvelopeDetector ℝ)
    (attackEnvelope sustainEnvelope : EnvelopeFollower ℝ) (hc : 0 ≤ td.clipperCeiling) :
    (td.processSample Libm.real detector attackEnvelope sustainEnvelope 0).output = 0 ∧
      ∀ (n ch k : Nat), td.Sized n → ch < n →
        Option.map Prod.snd (td.processChannel Libm.real ch (List.replicate k 0)) =
          some (List.replicate k 0) := by
  refine ⟨TransientDesigner.processSample_silence td detector attackEnvelope sustainEnvelope
    (fun _ => hc), fun n ch k hS hch => ?_⟩
  obtain ⟨td1, h1, _, _⟩ :=
    TransientDesigner.processChannel_silence n ch k hch td hS (fun _ => hc)
  rw [h1]
  rfl

/-- C30 at the default designer, whose ceiling is `0.8`. -/
theorem silence_in_silence_out_witness :
    0 ≤ (TransientDesigner.new : TransientDesigner ℝ).clipperCeiling ∧
      ((TransientDesigner.new : TransientDesigner ℝ).processSample Libm.real freshDetector freshFollower freshFollower 0).output = 0 :=
  ⟨by norm_num [TransientDesigner.new],
    (silence_in_silence_out (TransientDesigner.new : TransientDesigner ℝ) freshDetector freshFollower freshFollower
      (by norm_num [TransientDesigner.new])).1⟩

/-! ### Legacy followers, thresholds and host values -/

/-- The detector, the RMS accumulators and the output sample that the loop body produces depend
on the designer only through its audio view, and not on the followers. -/
theorem TransientDesigner.processSample_audio (m : Libm α) (tdA tdB : TransientDesigner α)
    (detector : DualEnvelopeDetector α) (aA sA aB sB : EnvelopeFollower α) (inputSample : α)
    (hV : tdA.audioView = tdB.audioView) :
    (tdA.processSample m detector aA sA inputSample).detector =
        (tdB.processSample m detector aB sB inputSample).detector ∧
      (tdA.processSample m detector aA sA inputSample).inputRMS =
        (tdB.processSample m detector aB sB inputSample).inputRMS ∧
      (tdA.processSample m detector aA sA inputSample).outputRMS =
        (tdB.processSample m detector aB sB inputSample).outputRMS ∧
      (tdA.processSample m detector aA sA inputSample).output =
        (tdB.processSample m detector aB sB inputSample).output := by
  have key : ∀ (td : TransientDesigner α) (a s : EnvelopeFollower α),
      ((td.processSample m detector a s inputSample).detector,
        (td.processSample m detector a s inputSample).inputRMS,
        (td.processSample m detector a s inputSample).outputRMS,
        (td.processSample m detector a s inputSample).output) =
      ((td.audioView.processSample m detector freshFollower freshFollower inputSample).detector,
        (td.audioView.processSample m detector freshFollower freshFollower inputSample).inputRMS,
        (td.audioView.processSample m detector freshFollower freshFollower inputSample).outputRMS,
        (td.audioView.processSample m detector freshFollower freshFollower inputSample).output) :=
    fun _ _ _ => rfl
  have h := (key tdA aA sA).trans ((congrArg (fun v : TransientDesigner α =>
      ((v.processSample m detector freshFollower freshFollower inputSample).detector,
        (v.processSample m detector freshFollower freshFollower inputSample).inputRMS,
        (v.processSample m detector freshFollower freshFollower inputSample).outputRMS,
        (v.processSample m detector freshFollower freshFollower inputSample).output)) hV).trans
      (key tdB aB sB).symm)
  simp only [Prod.mk.injEq] at h
  exact h

/-- Two sized designers with the same audio view write the same sample and end with the same
audio view. -/
theorem TransientDesigner.stepSample_audio (m : Libm α) (tdA tdB : TransientDesigner α)
    (n ch : Nat) (inputSample : α) (hA : tdA.Sized n) (hB : tdB.Sized n) (hch : ch < n)
    (hV : tdA.audioView = tdB.audioView) :
    ∃ tA tB out, tdA.stepSample m ch inputSample = some (tA, out) ∧
      tdB.stepSample m ch inputSample = some (tB, out) ∧ tA.Sized n ∧ tB.Sized n ∧
      tA.audioView = tB.audioView := by
  have hdets : tdA.dualEnvelopeDetectors = tdB.dualEnvelopeDetectors := by
    have h : tdA.audioView.dualEnvelopeDetectors = tdB.audioView.dualEnvelopeDetectors := by
      rw [hV]
    exact h
  have hdA1 : ch < tdA.dualEnvelopeDetectors.length := by rw [hA.2.1]; exact hch
  have haA1 : ch < tdA.attackEnvelopes.length := by rw [hA.2.2.1]; exact hch
  have hsA1 : ch < tdA.sustainEnvelopes.length := by rw [hA.2.2.2]; exact hch
  have hdB1 : ch < tdB.dualEnvelopeDetectors.length := by rw [hB.2.1]; exact hch
  have haB1 : ch < tdB.attackEnvelopes.length := by rw [hB.2.2.1]; exact hch
  have hsB1 : ch < tdB.sustainEnvelopes.length := by rw [hB.2.2.2]; exact hch
  have hd : tdA.dualEnvelopeDetectors[ch] = tdB.dualEnvelopeDetectors[ch] := by
    simp only [hdets]
  obtain ⟨e1, e2, e3, e4⟩ := TransientDesigner.processSample_audio m tdA tdB
    tdA.dualEnvelopeDetectors[ch] tdA.attackEnvelopes[ch] tdA.sustainEnvelopes[ch]
    tdB.attackEnvelopes[ch] tdB.sustainEnvelopes[ch] inputSample hV
  rw [hd] at e1 e2 e3 e4
  refine ⟨tdA.writeBack ch (tdA.processSample m tdA.dualEnvelopeDetectors[ch]
      tdA.attackEnvelopes[ch] tdA.sustainEnvelopes[ch] inputSample),
    tdB.writeBack ch (tdB.processSample m tdB.dualEnvelopeDetectors[ch]
      tdB.attackEnvelopes[ch] tdB.sustainEnvelopes[ch] inputSample), _,
    TransientDesigner.stepSample_of_lt m tdA ch inputSample hdA1 haA1 hsA1, ?_,
    TransientDesigner.writeBack_sized tdA n ch _ hA,
    TransientDesigner.writeBack_sized tdB n ch _ hB, ?_⟩
  · rw [TransientDesigner.stepSample_of_lt m tdB ch inputSample hdB1 haB1 hsB1]
    rw [hd, e4]
  · have e : ∀ (td : TransientDesigner α) (r : SampleResult α),
        (td.writeBack ch r).audioView =
          { td.audioView with
            dualEnvelopeDetectors := td.audioView.dualEnvelopeDetectors.set ch r.detector
            inputRMS := r.inputRMS, outputRMS := r.outputRMS } := fun _ _ => rfl
    rw [e, e, hV, hd, e1, e2, e3]

/-- Two sized designers with the same audio view write the same samples over a channel and end
with the same audio view. -/
theorem TransientDesigner.processChannel_audio (m : Libm α) (n ch : Nat) (input : List α)
    (hch : ch < n) (tdA tdB : TransientDesigner α) (hA : tdA.Sized n) (hB : tdB.Sized n)
    (hV : tdA.audioView = tdB.audioView) :
    ∃ tA tB output, tdA.processChannel m ch input = some (tA, output) ∧
      tdB.processChannel m ch input = some (tB, output) ∧ tA.Sized n ∧ tB.Sized n ∧
      tA.audioView = tB.audioView := by
  induction input generalizing tdA tdB with
  | nil => exact ⟨tdA, tdB, [], rfl, rfl, hA, hB, hV⟩
  | cons x rest ih =>
    obtain ⟨tA1, tB1, out, hA1, hB1, hSA1, hSB1, hV1⟩ :=
      TransientDesigner.stepSample_audio m tdA tdB n ch x hA hB hch hV
    obtain ⟨tA2, tB2, outs, hA2, hB2, hSA2, hSB2, hV2⟩ := ih tA1 tB1 hSA1 hSB1 hV1
    exact ⟨tA2, tB2, out :: outs, by simp [TransientDesigner.processChannel, hA1, hA2],
      by simp [TransientDesigner.processChannel, hB1, hB2], hSA2, hSB2, hV2⟩

/-- Two sized designers with the same audio view turn a block into the same block and end with
the same audio view. -/
theorem TransientDesigner.processChannels_audio (m : Libm α) (n : Nat) (remaining : Nat) :
    ∀ (ch : Nat) (tdA tdB : TransientDesigner α) (block : List (List α)),
      ch + remaining ≤ n → tdA.Sized n → tdB.Sized n → tdA.audioView = tdB.audioView →
      n ≤ block.length →
      ∃ tA tB out,
        TransientDesigner.processChannels m remaining ch tdA block = some (tA, out) ∧
        TransientDesigner.processChannels m remaining ch tdB block = some (tB, out) ∧
        tA.audioView = tB.audioView := by
  induction remaining with
  | zero =>
    intro ch tdA tdB block _ _ _ hV _
    exact ⟨tdA, tdB, block, rfl, rfl, hV⟩
  | succ k ih =>
    intro ch tdA tdB block hrem hA hB hV hlen
    have hch : ch < block.length := by omega
    obtain ⟨tA1, tB1, output, hA1, hB1, hSA1, hSB1, hV1⟩ :=
      TransientDesigner.processChannel_audio m n ch block[ch] (by omega) tdA tdB hA hB hV
    obtain ⟨tA, tB, out, hoA, hoB, hVo⟩ :=
      ih (ch + 1) tA1 tB1 (block.set ch output) (by omega) hSA1 hSB1 hV1 (by simpa using hlen)
    refine ⟨tA, tB, out, ?_, ?_, hVo⟩
    · simp only [TransientDesigner.processChannels, List.getElem?_eq_getElem hch, hA1]
      exact hoA
    · simp only [TransientDesigner.processChannels, List.getElem?_eq_getElem hch, hB1]
      exact hoB

/-- The designer after `updateParameters`, member by member. -/
theorem updateParameters_fields (m : Libm α) (td : TransientDesigner α) (p : HostParameters α) :
    updateParameters m td p =
      { td with
        attackAmount := p.attackAmount
        sustainAmount := p.sustainAmount
        attackTime := p.attackTime
        releaseTime := p.releaseTime
        attackEnvelopes := (td.attackEnvelopes.map
          (fun env => env.set_times m p.attackTime td.releaseTime td.sampleRate)).map
          (fun env => env.set_times m p.attackTime p.releaseTime td.sampleRate)
        sustainEnvelopes := td.sustainEnvelopes.map
          (fun env => env.set_times m p.attackTime p.releaseTime td.sampleRate)
        attackThreshold := decibelsToGain m p.attackThreshold
        sustainThreshold := decibelsToGain m p.sustainThreshold
        mix := p.mix / 100
        maskingThreshold := p.maskingThreshold
        criticalBandWeight := p.criticalBandWeight
        temporalWeight := p.temporalWeight
        snapAmount := p.snapAmount
        snapHardness := p.snapHardness
        harmonicEnhancement := p.harmonicEnhancement
        focus := p.focus
        hfGain := p.hfGain
        hfSaturation := p.hfSaturation
        tapeClip := p.tapeClip
        clipperEnabled := p.clipperEnabled
        clipperCeiling := p.clipperCeiling
        clipperType := p.clipperType
        autoGainComp := p.autoGainComp } := by
  simp only [updateParameters, TransientDesigner.setAutoGainComp,
    TransientDesigner.setClipperType,
    TransientDesigner.setClipperCeiling, TransientDesigner.setClipperEnabled,
    TransientDesigner.setTapeClip, TransientDesigner.setHFSaturation,
    TransientDesigner.setHFGain, TransientDesigner.setFocus,
    TransientDesigner.setHarmonicEnhancement, TransientDesigner.setSnapHardness,
    TransientDesigner.setSnapAmount, TransientDesigner.setTemporalWeight,
    TransientDesigner.setCriticalBandWeight, TransientDesigner.setMaskingThreshold,
    TransientDesigner.setMix, TransientDesigner.setSustainThreshold,
    TransientDesigner.setAttackThreshold, TransientDesigner.setReleaseTime,
    TransientDesigner.setAttackTime, TransientDesigner.setSustainAmount,
    TransientDesigner.setAttackAmount]


/-- The audio view after `updateParameters` is a function of the audio view before and of the
non-legacy host values. -/
theorem updateParameters_audio (m : Libm α) (tdA tdB : TransientDesigner α)
    (pA pB : HostParameters α) (hV : tdA.audioView = tdB.audioView)
    (hP : pA.audioParameters = pB.audioParameters) :
    (updateParameters m tdA pA).audioView = (updateParameters m tdB pB).audioView := by
  have key : ∀ (td : TransientDesigner α) (p : HostParameters α),
      (updateParameters m td p).audioView =
        { td.audioView with
          attackAmount := p.audioParameters.attackAmount
          sustainAmount := p.audioParameters.sustainAmount
          mix := p.audioParameters.mix / 100
          criticalBandWeight := p.audioParameters.criticalBandWeight
          temporalWeight := p.audioParameters.temporalWeight
          snapAmount := p.audioParameters.snapAmount
          snapHardness := p.audioParameters.snapHardness
          harmonicEnhancement := p.audioParameters.harmonicEnhancement
          focus := p.audioParameters.focus
          hfGain := p.audioParameters.hfGain
          hfSaturation := p.audioParameters.hfSaturation
          tapeClip := p.audioParameters.tapeClip
          clipperEnabled := p.audioParameters.clipperEnabled
          clipperCeiling := p.audioParameters.clipperCeiling
          clipperType := p.audioParameters.clipperType
          autoGainComp := p.audioParameters.autoGainComp } := by
    intro td p
    rw [updateParameters_fields]
    rfl
  rw [key, key, hV, hP]

/-- The setters of `updateParameters` keep the sizes of the three vectors. -/
theorem updateParameters_sized (m : Libm α) (td : TransientDesigner α) (p : HostParameters α)
    (n : Nat) (hS : td.Sized n) : (updateParameters m td p).Sized n := by
  obtain ⟨h0, h1, h2, h3⟩ := hS
  rw [updateParameters_fields]
  exact ⟨h0, h1, by simp [h2], by simp [h3]⟩
/-- C26: the legacy followers and thresholds do not influence the audio.  Two sized designers
with the same audio view (same detectors, RMS accumulators and remaining parameters) that
differ in `attackTime`, `releaseTime`, the three thresholds and the follower states turn every
block into the same output block and end with the same audio view; the same holds after
`updateParameters` with host values that differ in those parameters and in `fastAttackMs`,
`slowAttackMs`, `releaseMs` and `powerMemoryMs`. -/
theorem legacy_members_inert (m : Libm α) (tdA tdB : TransientDesigner α)
    (pA pB : HostParameters α) (n : Nat) (block : List (List α))
    (hA : tdA.Sized n) (hB : tdB.Sized n) (hlen : n ≤ block.length)
    (hV : tdA.audioView = tdB.audioView) (hP : pA.audioParameters = pB.audioParameters) :
    (∃ tA tB out, tdA.process m block = some (tA, out) ∧
        tdB.process m block = some (tB, out) ∧ tA.audioView = tB.audioView) ∧
      ∃ tA tB out, (updateParameters m tdA pA).process m block = some (tA, out) ∧
        (updateParameters m tdB pB).process m block = some (tB, out) ∧
        tA.audioView = tB.audioView := by
  have core : ∀ (tA0 tB0 : TransientDesigner α), tA0.Sized n → tB0.Sized n →
      tA0.audioView = tB0.audioView →
      ∃ tA tB out, tA0.process m block = some (tA, out) ∧
        tB0.process m block = some (tB, out) ∧ tA.audioView = tB.audioView := by
    intro tA0 tB0 hA0 hB0 hV0
    unfold TransientDesigner.process
    rw [hA0.1, hB0.1]
    exact TransientDesigner.processChannels_audio m n n 0 tA0 tB0 block (by omega) hA0 hB0 hV0
      hlen
  exact ⟨core tdA tdB hA hB hV,
    core _ _ (updateParameters_sized m tdA pA n hA) (updateParameters_sized m tdB pB n hB)
      (updateParameters_audio m tdA tdB pA pB hV hP)⟩

/-- C26 on two freshly prepared mono designers, the second with other attack and release
times, and host values that differ in the legacy parameters. -/
theorem legacy_members_inert_witness :
    (((TransientDesigner.new : TransientDesigner ℝ).prepare Libm.real 44100 1 (fun _ => 0)).Sized 1 ∧
        ((((TransientDesigner.new : TransientDesigner ℝ).prepare Libm.real 44100 1 (fun _ => 0)).setAttackTime Libm.real
          5).setReleaseTime Libm.real 50).Sized 1) ∧
      ∃ tA tB out,
        (updateParameters Libm.real ((TransientDesigner.new : TransientDesigner ℝ).prepare Libm.real 44100 1 (fun _ => 0))
            HostParameters.defaults).process Libm.real [[1, 1 / 2]] = some (tA, out) ∧
          (updateParameters Libm.real
            ((((TransientDesigner.new : TransientDesigner ℝ).prepare Libm.real 44100 1 (fun _ => 0)).setAttackTime Libm.real
              5).setReleaseTime Libm.real 50)
            { (HostParameters.defaults : HostParameters ℝ) with
              attackTime := 5, releaseTime := 50, attackThreshold := -20,
              sustainThreshold := -10, maskingThreshold := -5, fastAttackMs := 2,
              slowAttackMs := 30, releaseMs := 40, powerMemoryMs := 3 }).process Libm.real
            [[1, 1 / 2]] = some (tB, out) ∧
          tA.audioView = tB.audioView :=
  ⟨⟨by simp [TransientDesigner.Sized, TransientDesigner.prepare, TransientDesigner.reset],
      by simp [TransientDesigner.Sized, TransientDesigner.prepare, TransientDesigner.reset,
        TransientDesigner.setAttackTime, TransientDesigner.setReleaseTime]⟩,
    (legacy_members_inert Libm.real ((TransientDesigner.new : TransientDesigner ℝ).prepare Libm.real 44100 1 (fun _ => 0))
      ((((TransientDesigner.new : TransientDesigner ℝ).prepare Libm.real 44100 1 (fun _ => 0)).setAttackTime Libm.real
        5).setReleaseTime Libm.real 50)
      HostParameters.defaults
      { (HostParameters.defaults : HostParameters ℝ) with
        attackTime := 5, releaseTime := 50, attackThreshold := -20,
        sustainThreshold := -10, maskingThreshold := -5, fastAttackMs := 2,
        slowAttackMs := 30, releaseMs := 40, powerMemoryMs := 3 }
      1 [[1, 1 / 2]]
      (by simp [TransientDesigner.Sized, TransientDesigner.prepare, TransientDesigner.reset])
      (by simp [TransientDesigner.Sized, TransientDesigner.prepare, TransientDesigner.reset,
        TransientDesigner.setAttackTime, TransientDesigner.setReleaseTime])
      (by simp)
      (by simp [TransientDesigner.audioView, TransientDesigner.setAttackTime,
        TransientDesigner.setReleaseTime])
      (by simp [HostParameters.audioParameters])).2⟩

/-! ### Runs at the member defaults -/

/-- A designer whose parameters are the member defaults passes the input sample to the mix
control, has `mix = 1` and has the clipper off. -/
theorem TransientDesigner.params_new (m : Libm α) (td : TransientDesigner α) (sampleRate : α)
    (n : Nat)
    (hP : td.params = { (TransientDesigner.new : TransientDesigner α).params with
      sampleRate := sampleRate, numChannels := n }) :
    (∀ x t : α, td.processedSample m x t = x) ∧ td.mix = 1 ∧ td.clipperEnabled = false := by
  refine ⟨fun x t => ?_, ?_, ?_⟩
  · have e : td.processedSample m x t = td.params.processedSample m x t := rfl
    rw [e, hP]
    exact TransientDesigner.processedSample_new m x t
  · have e : td.mix = td.params.mix := rfl
    rw [e, hP]
    norm_num [TransientDesigner.params, TransientDesigner.scalars, TransientDesigner.new]
  · have e : td.clipperEnabled = td.params.clipperEnabled := rfl
    rw [e, hP]
    rfl

/-- When the processed sample is the input sample, `mix` is `1`, the clipper is off, the RMS
members agree and the input has magnitude at most `2`, the loop body writes the input sample
back and leaves the RMS members equal. -/
theorem TransientDesigner.processSample_unity (td : TransientDesigner ℝ)
    (detector : DualEnvelopeDetector ℝ) (attackEnvelope sustainEnvelope : EnvelopeFollower ℝ)
    (inputSample : ℝ) (hproc : ∀ t : ℝ, td.processedSample Libm.real inputSample t = inputSample)
    (hmix : td.mix = 1) (hclip : td.clipperEnabled = false) (hrms : td.inputRMS = td.outputRMS)
    (hx : |inputSample| ≤ 2) :
    (td.processSample Libm.real detector attackEnvelope sustainEnvelope inputSample).output =
        inputSample ∧
      (td.processSample Libm.real detector attackEnvelope sustainEnvelope inputSample).inputRMS =
        (td.processSample Libm.real detector attackEnvelope sustainEnvelope
          inputSample).outputRMS := by
  have hmixed : td.mixedSample inputSample inputSample = inputSample := by
    unfold TransientDesigner.mixedSample
    rw [hmix]
    have e : inputSample * (1 - 1) + inputSample * 1 = inputSample := by ring
    simp only [e]
    exact limit_two_of_abs_le inputSample hx
  unfold TransientDesigner.processSample
  simp only [hclip, hproc, hmixed]
  by_cases ha : td.autoGainComp = true
  · simp [ha, hrms, makeupGain_self Libm.real (by simp [Libm.real])]
  · simp [ha, hrms]

/-- One sample step of a run at the member defaults on an input of magnitude at most `2`
succeeds, writes the input back and stays a run at the member defaults. -/
theorem TransientDesigner.stepSample_atDefaults (td : TransientDesigner ℝ) (n ch : Nat)
    (inputSample : ℝ) (hI : td.AtDefaults n) (hch : ch < n) (hx : |inputSample| ≤ 2) :
    ∃ td1, td.stepSample Libm.real ch inputSample = some (td1, inputSample) ∧
      td1.AtDefaults n := by
  obtain ⟨hP, hrms, hS⟩ := hI
  obtain ⟨hproc, hmix, hclip⟩ := TransientDesigner.params_new Libm.real td td.sampleRate n hP
  have hd1 : ch < td.dualEnvelopeDetectors.length := by rw [hS.2.1]; exact hch
  have ha1 : ch < td.attackEnvelopes.length := by rw [hS.2.2.1]; exact hch
  have hs1 : ch < td.sustainEnvelopes.length := by rw [hS.2.2.2]; exact hch
  have key := TransientDesigner.processSample_unity td td.dualEnvelopeDetectors[ch]
    td.attackEnvelopes[ch] td.sustainEnvelopes[ch] inputSample (hproc inputSample) hmix hclip
    hrms hx
  have h := TransientDesigner.stepSample_of_lt Libm.real td ch inputSample hd1 ha1 hs1
  rw [key.1] at h
  exact ⟨_, h, hP, key.2, TransientDesigner.writeBack_sized td n ch _ hS⟩

/-- The sample loop of a run at the member defaults over samples of magnitude at most `2`
returns the samples unchanged. -/
theorem TransientDesigner.processChannel_atDefaults (n ch : Nat) (input : List ℝ)
    (hch : ch < n) (hx : ∀ x ∈ input, |x| ≤ 2) (td : TransientDesigner ℝ)
    (hI : td.AtDefaults n) :
    ∃ td1, td.processChannel Libm.real ch input = some (td1, input) ∧ td1.AtDefaults n := by
  induction input generalizing td with
  | nil => exact ⟨td, rfl, hI⟩
  | cons x rest ih =>
    obtain ⟨td1, h1, hI1⟩ :=
      TransientDesigner.stepSample_atDefaults td n ch x hI hch (hx x (List.mem_cons_self x rest))
    obtain ⟨td2, h2, hI2⟩ := ih (fun y hy => hx y (List.mem_cons_of_mem x hy)) td1 hI1
    exact ⟨td2, by simp [TransientDesigner.processChannel, h1, h2], hI2⟩

/-- The channel loop of a run at the member defaults returns the block unchanged. -/
theorem TransientDesigner.processChannels_atDefaults (n : Nat) (block : List (List ℝ))
    (hlen : n ≤ block.length) (hx : ∀ channel ∈ block, ∀ x ∈ channel, |x| ≤ 2)
    (remaining ch : Nat) (hrem : ch + remaining ≤ n) (td : TransientDesigner ℝ)
    (hI : td.AtDefaults n) :
    ∃ td1, TransientDesigner.processChannels Libm.real remaining ch td block =
        some (td1, block) ∧ td1.AtDefaults n := by
  induction remaining generalizing ch td with
  | zero => exact ⟨td, rfl, hI⟩
  | succ k ih =>
    have hch : ch < block.length := by omega
    obtain ⟨td1, h1, hI1⟩ := TransientDesigner.processChannel_atDefaults n ch block[ch]
      (by omega) (hx _ (List.getElem_mem hch)) td hI
    obtain ⟨td2, h2, hI2⟩ := ih (ch + 1) (by omega) td1 hI1
    refine ⟨td2, ?_, hI2⟩
    simp only [TransientDesigner.processChannels, List.getElem?_eq_getElem hch, h1]
    rw [set_getElem_same block ch hch]
    exact h2

/-- Successive `process` calls of a run at the member defaults return every block unchanged. -/
theorem TransientDesigner.processStream_atDefaults (n : Nat) (blocks : List (List (List ℝ)))
    (hlen : ∀ block ∈ blocks, n ≤ block.length)
    (hx : ∀ block ∈ blocks, ∀ channel ∈ block, ∀ x ∈ channel, |x| ≤ 2)
    (td : TransientDesigner ℝ) (hI : td.AtDefaults n) :
    ∃ td1, td.processStream Libm.real blocks = some (td1, blocks) ∧ td1.AtDefaults n := by
  induction blocks generalizing td with
  | nil => exact ⟨td, rfl, hI⟩
  | cons block rest ih =>
    have hb := List.mem_cons_self block rest
    obtain ⟨td1, h1, hI1⟩ := TransientDesigner.processChannels_atDefaults n block
      (hlen block hb) (hx block hb) n 0 (by omega) td hI
    have h1a : td.process Libm.real block = some (td1, block) := by
      unfold TransientDesigner.process
      rw [hI.2.2.1]
      exact h1
    obtain ⟨td2, h2, hI2⟩ := ih (fun b hb1 => hlen b (List.mem_cons_of_mem block hb1))
      (fun b hb1 => hx b (List.mem_cons_of_mem block hb1)) td1 hI1
    exact ⟨td2, by simp [TransientDesigner.processStream, h1a, h2], hI2⟩

/-- A default-constructed designer that is prepared starts a run at the member defaults. -/
theorem TransientDesigner.prepared_atDefaults (m : Libm α) (sampleRate : α) (numChannels : Nat)
    (indet : Nat → α) :
    ((TransientDesigner.new : TransientDesigner α).prepare m sampleRate numChannels
      indet).AtDefaults numChannels := by
  refine ⟨rfl, rfl, rfl, ?_, ?_, ?_⟩ <;>
    simp [TransientDesigner.prepare, TransientDesigner.reset]

/-- C31: a default-constructed and prepared designer has `inputRMS = outputRMS = 0`, and with
every parameter at its member default, for every stream of blocks that carry at least
`numChannels` channels and whose samples all satisfy `|x| ≤ 2`, every `process` call succeeds,
the output stream equals the input stream sample for sample, and the RMS members agree at the
end of the stream (a stream may end after any sample).  Sample by sample: in every state with
the parameters of the prepared designer and equal RMS members, the loop body writes the input
sample back and leaves the RMS members equal. -/
theorem defaults_transparent (sampleRate : ℝ) (numChannels : Nat) (indet : Nat → ℝ) :
    ((TransientDesigner.new : TransientDesigner ℝ).prepare Libm.real sampleRate numChannels
        indet).inputRMS = 0 ∧
      ((TransientDesigner.new : TransientDesigner ℝ).prepare Libm.real sampleRate numChannels
        indet).outputRMS = 0 ∧
      (∀ blocks : List (List (List ℝ)),
        (∀ block ∈ blocks, numChannels ≤ block.length) →
        (∀ block ∈ blocks, ∀ channel ∈ block, ∀ x ∈ channel, |x| ≤ 2) →
        ∃ td1, ((TransientDesigner.new : TransientDesigner ℝ).prepare Libm.real sampleRate
            numChannels indet).processStream Libm.real blocks = some (td1, blocks) ∧
          td1.inputRMS = td1.outputRMS) ∧
      (∀ (td : TransientDesigner ℝ) (detector : DualEnvelopeDetector ℝ)
        (attackEnvelope sustainEnvelope : EnvelopeFollower ℝ) (inputSample : ℝ),
        td.params = ((TransientDesigner.new : TransientDesigner ℝ).prepare Libm.real sampleRate
          numChannels indet).params →
        td.inputRMS = td.outputRMS → |inputSample| ≤ 2 →
        (td.processSample Libm.real detector attackEnvelope sustainEnvelope inputSample).output =
            inputSample ∧
          (td.processSample Libm.real detector attackEnvelope sustainEnvelope
              inputSample).inputRMS =
            (td.processSample Libm.real detector attackEnvelope sustainEnvelope
              inputSample).outputRMS) := by
  refine ⟨by norm_num [TransientDesigner.prepare, TransientDesigner.reset, TransientDesigner.new],
    by norm_num [TransientDesigner.prepare, TransientDesigner.reset, TransientDesigner.new],
    ?_, ?_⟩
  · intro blocks hlen hx
    obtain ⟨td1, h1, hI1⟩ := TransientDesigner.processStream_atDefaults numChannels blocks hlen
      hx _ (TransientDesigner.prepared_atDefaults Libm.real sampleRate numChannels indet)
    exact ⟨td1, h1, hI1.2.1⟩
  · intro td detector attackEnvelope sustainEnvelope inputSample hP hrms hx
    obtain ⟨hproc, hmix, hclip⟩ :=
      TransientDesigner.params_new Libm.real td sampleRate numChannels hP
    exact TransientDesigner.processSample_unity td detector attackEnvelope sustainEnvelope
      inputSample (hproc inputSample) hmix hclip hrms hx

/-- C31 on a stereo designer at 44100 Hz and two blocks of two samples per channel. -/
theorem defaults_transparent_witness :
    Option.map Prod.snd
        (((TransientDesigner.new : TransientDesigner ℝ).prepare Libm.real 44100 2
          (fun _ => 0)).processStream Libm.real
            [[[1, -2], [1 / 2, 0]], [[-1, 1 / 4], [2, -3 / 2]]]) =
      some [[[1, -2], [1 / 2, 0]], [[-1, 1 / 4], [2, -3 / 2]]] := by
  obtain ⟨td1, h1, _⟩ := (defaults_transparent 44100 2 (fun _ => 0)).2.2.1
    [[[1, -2], [1 / 2, 0]], [[-1, 1 / 4], [2, -3 / 2]]] (by simp) (by norm_num [abs_le])
  rw [h1]
  rfl

/-! ### Shape of the SNAP curve -/

/-- The SNAP curve in its small-value region. -/
theorem TransientDesigner.processSnapWaveshaper_small (td : TransientDesigner α) (x : α)
    (hx : |x| < 0.1) : td.processSnapWaveshaper x = 1 + |x| * td.snapHardness * 0.5 := by
  unfold TransientDesigner.processSnapWaveshaper
  by_cases h0 : x = 0
  · rw [if_pos h0, h0]
    simp
  · rw [if_neg h0]
    simp only [hx, if_true]

/-- The SNAP curve in its mid-range region. -/
theorem TransientDesigner.processSnapWaveshaper_mid (td : TransientDesigner α) (x : α)
    (h1 : 0.1 ≤ |x|) (h2 : |x| < 0.5) :
    td.processSnapWaveshaper x = 1 + |x| / 0.5 * (|x| / 0.5) * td.snapHardness * 0.3 := by
  have hx0 : x ≠ 0 := by
    intro h
    rw [h, abs_zero] at h1
    norm_num at h1
  unfold TransientDesigner.processSnapWaveshaper
  rw [if_neg hx0]
  simp only [not_lt.mpr h1, h2, if_false, if_true]

/-- The SNAP curve in its large-value region. -/
theorem TransientDesigner.processSnapWaveshaper_large (td : TransientDesigner α) (x : α)
    (hx : 0.5 ≤ |x|) :
    td.processSnapWaveshaper x =
      1 + 0.3 + (|x| - 0.5) / (1 + (|x| - 0.5) * td.snapHardness) * 0.2 := by
  have hx0 : x ≠ 0 := by
    intro h
    rw [h, abs_zero] at hx
    norm_num at hx
  have h1 : ¬ |x| < 0.1 := by
    intro h
    have : (0.1 : α) < 0.5 := by norm_num
    linarith
  unfold TransientDesigner.processSnapWaveshaper
  rw [if_neg hx0]
  simp only [h1, not_lt.mpr hx, if_false]

/-- With a non-negative hardness the SNAP curve never goes below `1`. -/
theorem TransientDesigner.one_le_processSnapWaveshaper (td : TransientDesigner α) (x : α)
    (hh : 0 ≤ td.snapHardness) : 1 ≤ td.processSnapWaveshaper x := by
  have ha := abs_nonneg x
  by_cases h1 : |x| < 0.1
  · rw [TransientDesigner.processSnapWaveshaper_small td x h1]
    have := mul_nonneg (mul_nonneg ha hh) (show (0 : α) ≤ 0.5 by norm_num)
    linarith
  · by_cases h2 : |x| < 0.5
    · rw [TransientDesigner.processSnapWaveshaper_mid td x (not_lt.mp h1) h2]
      have h5 : (0 : α) ≤ |x| / 0.5 := div_nonneg ha (by norm_num)
      have := mul_nonneg (mul_nonneg (mul_nonneg h5 h5) hh) (show (0 : α) ≤ 0.3 by norm_num)
      linarith
    · rw [TransientDesigner.processSnapWaveshaper_large td x (not_lt.mp h2)]
      have he : 0 ≤ |x| - 0.5 := by linarith [not_lt.mp h2]
      have hden : 0 < 1 + (|x| - 0.5) * td.snapHardness := by
        have := mul_nonneg he hh
        linarith
      have := mul_nonneg (div_nonneg he hden.le) (show (0 : α) ≤ 0.2 by norm_num)
      have h3 : (0 : α) ≤ 0.3 := by norm_num
      linarith

/-! ### Attack gain with a positive attack setting -/

/-- With a non-negative hardness the attack-path SNAP factor is at least `1`. -/
theorem TransientDesigner.one_le_snapGain (td : TransientDesigner α) (t : α)
    (hh : 0 ≤ td.snapHardness) : 1 ≤ td.snapGain t := by
  unfold TransientDesigner.snapGain
  split_ifs
  · exact le_min (by norm_num) (TransientDesigner.one_le_processSnapWaveshaper td _ hh)
  · exact le_refl 1

/-- With a positive attack setting, a critical-band weight of at least `1`, a non-negative
hardness and a non-negative transient strength, the attack gain is at least `1` before the
safety limiting. -/
theorem TransientDesigner.one_le_attackGainUnclamped (td : TransientDesigner α) (t : α)
    (ha : 0 < td.attackAmount) (hc : 1 ≤ td.criticalBandWeight) (hh : 0 ≤ td.snapHardness)
    (ht : 0 ≤ t) : 1 ≤ td.attackGainUnclamped t := by
  have hraw : 1 ≤ td.rawAttackGain t := by
    unfold TransientDesigner.rawAttackGain
    rw [if_pos ha]
    have := mul_nonneg (mul_nonneg (div_nonneg ha.le (by norm_num : (0 : α) ≤ 100))
      (by norm_num : (0 : α) ≤ 3)) ht
    linarith
  have hw : 1 ≤ 1 + (td.criticalBandWeight - 1) * t := by
    have := mul_nonneg (sub_nonneg.mpr hc) ht
    linarith
  have hs := TransientDesigner.one_le_snapGain td t hh
  have h1 : 1 ≤ td.rawAttackGain t * (1 + (td.criticalBandWeight - 1) * t) :=
    one_le_mul_of_one_le_of_one_le hraw hw
  have h2 : 1 ≤ td.rawAttackGain t * (1 + (td.criticalBandWeight - 1) * t) * td.snapGain t :=
    one_le_mul_of_one_le_of_one_le h1 hs
  have h3 : 1 ≤ (if td.harmonicEnhancement > 0 then
      td.rawAttackGain t * (1 + (td.criticalBandWeight - 1) * t) * td.snapGain t +
        td.rawAttackGain t * (1 + (td.criticalBandWeight - 1) * t) * td.snapGain t *
          (td.rawAttackGain t * (1 + (td.criticalBandWeight - 1) * t) * td.snapGain t) * 0.3 *
          td.harmonicEnhancement * 0.06 * (0.1 + t * 0.9)
      else td.rawAttackGain t * (1 + (td.criticalBandWeight - 1) * t) * td.snapGain t) := by
    split_ifs with he
    · have hg0 : 0 ≤ td.rawAttackGain t * (1 + (td.criticalBandWeight - 1) * t) * td.snapGain t :=
        le_trans zero_le_one h2
      have : 0 ≤ td.rawAttackGain t * (1 + (td.criticalBandWeight - 1) * t) * td.snapGain t *
          (td.rawAttackGain t * (1 + (td.criticalBandWeight - 1) * t) * td.snapGain t) * 0.3 *
          td.harmonicEnhancement * 0.06 * (0.1 + t * 0.9) := by
        have h09 : (0 : α) ≤ 0.1 + t * 0.9 := by
          have := mul_nonneg ht (by norm_num : (0 : α) ≤ 0.9)
          have h01 : (0 : α) ≤ 0.1 := by norm_num
          linarith
        exact mul_nonneg (mul_nonneg (mul_nonneg (mul_nonneg (mul_nonneg hg0 hg0)
          (by norm_num)) he.le) (by norm_num)) h09
      linarith
    · exact h2
  unfold TransientDesigner.attackGainUnclamped
  simp only
  by_cases hf : td.focus > 1
  · rw [if_pos hf]
    exact one_le_mul_of_one_le_of_one_le h3 hf.le
  · rw [if_neg hf]
    exact h3

/-- C32: for `attackAmount > 0`, `criticalBandWeight ≥ 1`, `snapHardness ≥ 0`,
`harmonicEnhancement ≥ 0` and transient strength `≥ 0` the clamped attack gain is at least `1`,
the attack component is `2 * input * (2^(attackGain - 1) - 1)`, and it has the sign of the
input: `attackComponent * input ≥ 0`. -/
theorem attack_never_inverts (td : TransientDesigner ℝ) (inputSample transientDetected : ℝ)
    (ha : 0 < td.attackAmount) (hc : 1 ≤ td.criticalBandWeight) (hh : 0 ≤ td.snapHardness)
    (_he : 0 ≤ td.harmonicEnhancement) (ht : 0 ≤ transientDetected) :
    1 ≤ td.attackGain transientDetected ∧
      td.attackComponent Libm.real inputSample transientDetected =
        2 * inputSample * ((2 : ℝ) ^ (td.attackGain transientDetected - 1) - 1) ∧
      0 ≤ td.attackComponent Libm.real inputSample transientDetected * inputSample := by
  have hu := TransientDesigner.one_le_attackGainUnclamped td transientDetected ha hc hh ht
  have hg1 : 1 ≤ td.attackGain transientDetected :=
    le_trans (le_min (by norm_num) hu) (le_max_right _ _)
  have hg5 : td.attackGain transientDetected ≤ 5 := max_le (by norm_num) (min_le_left _ _)
  have hclamp : max (-5) (min 5 (td.attackGain transientDetected - 1)) =
      td.attackGain transientDetected - 1 := by
    rw [min_eq_right (by linarith), max_eq_right (by linarith)]
  have heq : td.attackComponent Libm.real inputSample transientDetected =
      2 * inputSample * ((2 : ℝ) ^ (td.attackGain transientDetected - 1) - 1) := by
    simp only [TransientDesigner.attackComponent, if_pos ha, Libm.real, hclamp]
    ring
  refine ⟨hg1, heq, ?_⟩
  rw [heq]
  have hp : (1 : ℝ) ≤ (2 : ℝ) ^ (td.attackGain transientDetected - 1) :=
    Real.one_le_rpow (by norm_num) (by linarith)
  have hsq := mul_self_nonneg inputSample
  have : 2 * inputSample * ((2 : ℝ) ^ (td.attackGain transientDetected - 1) - 1) * inputSample =
      2 * (inputSample * inputSample) * ((2 : ℝ) ^ (td.attackGain transientDetected - 1) - 1) := by
    ring
  rw [this]
  exact mul_nonneg (mul_nonneg (by norm_num) hsq) (sub_nonneg.mpr hp)

/-- C32 at the default designer with `attackAmount = 50`, input `-1/2` and transient
strength `1`. -/
theorem attack_never_inverts_witness :
    (0 < ((TransientDesigner.new : TransientDesigner ℝ).setAttackAmount 50).attackAmount ∧
        1 ≤ ((TransientDesigner.new : TransientDesigner ℝ).setAttackAmount 50).criticalBandWeight ∧
        0 ≤ ((TransientDesigner.new : TransientDesigner ℝ).setAttackAmount 50).snapHardness ∧
        0 ≤ ((TransientDesigner.new : TransientDesigner ℝ).setAttackAmount 50).harmonicEnhancement) ∧
      1 ≤ ((TransientDesigner.new : TransientDesigner ℝ).setAttackAmount 50).attackGain 1 ∧
      0 ≤ ((TransientDesigner.new : TransientDesigner ℝ).setAttackAmount 50).attackComponent
        Libm.real (-1 / 2) 1 * (-1 / 2) :=
  ⟨by norm_num [TransientDesigner.setAttackAmount, TransientDesigner.new],
    (attack_never_inverts ((TransientDesigner.new : TransientDesigner ℝ).setAttackAmount 50)
      (-1 / 2) 1
      (by norm_num [TransientDesigner.setAttackAmount, TransientDesigner.new])
      (by norm_num [TransientDesigner.setAttackAmount, TransientDesigner.new])
      (by norm_num [TransientDesigner.setAttackAmount, TransientDesigner.new])
      (by norm_num [TransientDesigner.setAttackAmount, TransientDesigner.new])
      (by norm_num)).1,
    (attack_never_inverts ((TransientDesigner.new : TransientDesigner ℝ).setAttackAmount 50)
      (-1 / 2) 1
      (by norm_num [TransientDesigner.setAttackAmount, TransientDesigner.new])
      (by norm_num [TransientDesigner.setAttackAmount, TransientDesigner.new])
      (by norm_num [TransientDesigner.setAttackAmount, TransientDesigner.new])
      (by norm_num [TransientDesigner.setAttackAmount, TransientDesigner.new])
      (by norm_num)).2.2⟩

/-! ### Output bound with the clipper off -/

/-- The makeup gain lies in `[0.1, 3]`. -/
theorem makeupGain_bounds (m : Libm α) (inputRMS outputRMS : α) :
    0.1 ≤ makeupGain m inputRMS outputRMS ∧ makeupGain m inputRMS outputRMS ≤ 3 := by
  unfold makeupGain
  split_ifs
  · exact ⟨le_max_left _ _, max_le (by norm_num) (min_le_left _ _)⟩
  · constructor <;> norm_num

/-- With the clipper off the loop body writes a sample of magnitude at most `2`, or at most `6`
when auto gain compensation is on. -/
theorem TransientDesigner.processSample_abs_le (m : Libm α) (td : TransientDesigner α)
    (detector : DualEnvelopeDetector α) (attackEnvelope sustainEnvelope : EnvelopeFollower α)
    (inputSample : α) (hclip : td.clipperEnabled = false) :
    |(td.processSample m detector attackEnvelope sustainEnvelope inputSample).output| ≤
      if td.autoGainComp = true then 6 else 2 := by
  cases hagc : td.autoGainComp with
  | false =>
    unfold TransientDesigner.processSample
    simp only [hagc, hclip]
    exact abs_limit_two_le _
  | true =>
    have hout : ∃ y r1 r2 : α,
        (td.processSample m detector attackEnvelope sustainEnvelope inputSample).output =
          max (-2) (min 2 y) * makeupGain m r1 r2 := by
      unfold TransientDesigner.processSample
      simp only [hagc, hclip, if_true]
      exact ⟨_, _, _, rfl⟩
    obtain ⟨y, r1, r2, hy⟩ := hout
    rw [hy, abs_mul]
    obtain ⟨hg1, hg2⟩ := makeupGain_bounds m r1 r2
    have hg0 : (0 : α) ≤ makeupGain m r1 r2 := le_trans (by norm_num) hg1
    rw [abs_of_nonneg hg0]
    have h2 := abs_limit_two_le y
    have := mul_le_mul h2 hg2 hg0 (by norm_num : (0 : α) ≤ 2)
    simp only [if_true]
    linarith

/-- If every sample that the loop body can write under the parameters `P` satisfies `Q`, then a
sized designer with these parameters runs through a channel and writes only samples that
satisfy `Q`. -/
theorem TransientDesigner.processChannel_outputs (m : Libm α) (Q : α → Prop)
    (P : TransientDesigner α)
    (hQ : ∀ td : TransientDesigner α, td.params = P → ∀ detector attackEnvelope sustainEnvelope
      inputSample, Q (td.processSample m detector attackEnvelope sustainEnvelope inputSample).output)
    (n ch : Nat) (hch : ch < n) (input : List α) (td : TransientDesigner α) (hS : td.Sized n)
    (hP : td.params = P) :
    ∃ td1 output, td.processChannel m ch input = some (td1, output) ∧ td1.Sized n ∧
      td1.params = P ∧ ∀ y ∈ output, Q y := by
  induction input generalizing td with
  | nil => exact ⟨td, [], rfl, hS, hP, fun y hy => absurd hy (List.not_mem_nil y)⟩
  | cons x rest ih =>
    obtain ⟨d, a, s, td1, _, h1, hS1, hP1⟩ := TransientDesigner.stepSample_sized m td n ch x hS hch
    obtain ⟨td2, outs, h2, hS2, hP2, hall⟩ := ih td1 hS1 (hP1.trans hP)
    refine ⟨td2, (td.processSample m d a s x).output :: outs,
      by simp [TransientDesigner.processChannel, h1, h2], hS2, hP2, ?_⟩
    intro y hy
    rcases List.mem_cons.mp hy with h | h
    · rw [h]
      exact hQ td hP d a s x
    · exact hall y h

/-- If every sample that the loop body can write under the parameters `P` satisfies `Q`, then
the channel loop of a sized designer with these parameters runs through the block, and once
the channels up to `ch + remaining` are done they hold only samples that satisfy `Q`. -/
theorem TransientDesigner.processChannels_outputs (m : Libm α) (Q : α → Prop)
    (P : TransientDesigner α)
    (hQ : ∀ td : TransientDesigner α, td.params = P → ∀ detector attackEnvelope sustainEnvelope
      inputSample, Q (td.processSample m detector attackEnvelope sustainEnvelope inputSample).output)
    (n remaining : Nat) :
    ∀ (ch : Nat) (td : TransientDesigner α) (block : List (List α)),
      ch + remaining ≤ n → td.Sized n → td.params = P → n ≤ block.length →
      (∀ c channel, c < ch → block[c]? = some channel → ∀ y ∈ channel, Q y) →
      ∃ td1 out, TransientDesigner.processChannels m remaining ch td block = some (td1, out) ∧
        ∀ c channel, c < ch + remaining → out[c]? = some channel → ∀ y ∈ channel, Q y := by
  induction remaining with
  | zero =>
    intro ch td block _ _ _ _ hdone
    exact ⟨td, block, rfl, hdone⟩
  | succ k ih =>
    intro ch td block hrem hS hP hlen hdone
    have hch : ch < block.length := by omega
    obtain ⟨td1, output, h1, hS1, hP1, hall⟩ :=
      TransientDesigner.processChannel_outputs m Q P hQ n ch (by omega) block[ch] td hS hP
    obtain ⟨td2, out, h2, hout⟩ := ih (ch + 1) td1 (block.set ch output) (by omega) hS1 hP1
      (by simpa using hlen) (by
        intro c channel hc hget
        by_cases hcc : c = ch
        · rw [hcc, List.getElem?_set_self hch] at hget
          rw [← Option.some.inj hget]
          exact hall
        · rw [List.getElem?_set_ne (Ne.symm hcc)] at hget
          exact hdone c channel (by omega) hget)
    refine ⟨td2, out, ?_, fun c channel hc => hout c channel (by omega)⟩
    simp only [TransientDesigner.processChannels, List.getElem?_eq_getElem hch, h1]
    exact h2

/-- C33: with the clipper disabled, for every input sample, state and parameter setting the
sample written by the loop body has magnitude at most `2` when auto gain compensation is off
and at most `6` when it is on; and `process` on a designer with `n` channels and a block of at
least `n` channels returns a block whose channels `0 .. n-1` hold only samples within that
bound. -/
theorem output_bounded_without_clipper (m : Libm α) (td : TransientDesigner α)
    (hclip : td.clipperEnabled = false) :
    (∀ (detector : DualEnvelopeDetector α) (attackEnvelope sustainEnvelope : EnvelopeFollower α)
        (inputSample : α),
        |(td.processSample m detector attackEnvelope sustainEnvelope inputSample).output| ≤
          if td.autoGainComp = true then 6 else 2) ∧
      (∀ (n : Nat) (block : List (List α)), td.Sized n → n ≤ block.length →
        ∃ td1 out, td.process m block = some (td1, out) ∧
          ∀ c channel, c < n → out[c]? = some channel →
            ∀ y ∈ channel, |y| ≤ if td.autoGainComp = true then 6 else 2) := by
  refine ⟨fun d a s x => TransientDesigner.processSample_abs_le m td d a s x hclip, ?_⟩
  intro n block hS hlen
  have hQ : ∀ td1 : TransientDesigner α, td1.params = td.params → ∀ (d : DualEnvelopeDetector α)
      (a s : EnvelopeFollower α) (x : α),
      |(td1.processSample m d a s x).output| ≤ if td.autoGainComp = true then 6 else 2 := by
    intro td1 hP d a s x
    have e1 : td1.params.clipperEnabled = td.params.clipperEnabled := by rw [hP]
    have e2 : td1.params.autoGainComp = td.params.autoGainComp := by rw [hP]
    have e1a : td1.clipperEnabled = td.clipperEnabled := e1
    have e2a : td1.autoGainComp = td.autoGainComp := e2
    have h := TransientDesigner.processSample_abs_le m td1 d a s x (e1a.trans hclip)
    rw [e2a] at h
    exact h
  obtain ⟨td1, out, h1, hout⟩ := TransientDesigner.processChannels_outputs m
    (fun y => |y| ≤ if td.autoGainComp = true then 6 else 2) td.params hQ n n 0 td block
    (by omega) hS rfl hlen (fun c channel hc => absurd hc (Nat.not_lt_zero c))
  refine ⟨td1, out, ?_, fun c channel hc => hout c channel (by omega)⟩
  unfold TransientDesigner.process
  rw [hS.1]
  exact h1

/-- C33 at the default designer, which has the clipper off and auto gain compensation on,
with input `3`. -/
theorem output_bounded_without_clipper_witness :
    (TransientDesigner.new : TransientDesigner ℝ).clipperEnabled = false ∧
      |((TransientDesigner.new : TransientDesigner ℝ).processSample Libm.real freshDetector
          freshFollower freshFollower 3).output| ≤
        if (TransientDesigner.new : TransientDesigner ℝ).autoGainComp = true then 6 else 2 :=
  ⟨rfl,
    (output_bounded_without_clipper Libm.real (TransientDesigner.new : TransientDesigner ℝ)
      rfl).1 freshDetector freshFollower freshFollower 3⟩

/-! ### Monotonicity of the SNAP curve -/

/-- C34 as stated fails: with the default hardness `1` the curve input `0.09` gives the factor
`1.045` and the larger curve input `0.1` gives the smaller factor `1.012`. -/
theorem snap_monotone_counterexample :
    (0 : ℚ) < (TransientDesigner.new : TransientDesigner ℚ).snapHardness ∧
      |(0.09 : ℚ)| ≤ |(0.1 : ℚ)| ∧
      (TransientDesigner.new : TransientDesigner ℚ).processSnapWaveshaper 0.09 = 1.045 ∧
      (TransientDesigner.new : TransientDesigner ℚ).processSnapWaveshaper 0.1 = 1.012 ∧
      ¬ ((TransientDesigner.new : TransientDesigner ℚ).processSnapWaveshaper 0.09 ≤
        (TransientDesigner.new : TransientDesigner ℚ).processSnapWaveshaper 0.1) := by
  refine ⟨by norm_num [TransientDesigner.new], by norm_num [abs_of_pos], ?_, ?_, ?_⟩ <;>
    norm_num [TransientDesigner.processSnapWaveshaper, TransientDesigner.new, abs_of_pos]

/-- C34, amended: for every fixed `snapHardness > 0` the factor is at least `1` for every curve
input, and the curve is non-decreasing in `|input|` inside each of its three regions
`[0, 0.1)`, `[0.1, 0.5)` and `[0.5, ∞)`; it is not monotone across the region boundary at
`0.1`, where every curve input with `0.024 < |input| < 0.1` gives a larger factor than the curve
input `0.1`. -/
theorem snap_curve_regions (td : TransientDesigner α) (hh : 0 < td.snapHardness) :
    (∀ x : α, 1 ≤ td.processSnapWaveshaper x) ∧
      (∀ x y : α, |x| ≤ |y| → (|y| < 0.1 ∨ (0.1 ≤ |x| ∧ |y| < 0.5) ∨ 0.5 ≤ |x|) →
        td.processSnapWaveshaper x ≤ td.processSnapWaveshaper y) ∧
      (∀ x : α, 0.024 < |x| → |x| < 0.1 →
        td.processSnapWaveshaper 0.1 < td.processSnapWaveshaper x) := by
  refine ⟨fun x => TransientDesigner.one_le_processSnapWaveshaper td x hh.le, ?_, ?_⟩
  · intro x y hxy hreg
    have hax := abs_nonneg x
    rcases hreg with h | ⟨h1, h2⟩ | h
    · rw [TransientDesigner.processSnapWaveshaper_small td x (lt_of_le_of_lt hxy h),
        TransientDesigner.processSnapWaveshaper_small td y h]
      have := mul_le_mul_of_nonneg_right
        (mul_le_mul_of_nonneg_right hxy hh.le) (show (0 : α) ≤ 0.5 by norm_num)
      linarith
    · rw [TransientDesigner.processSnapWaveshaper_mid td x h1 (lt_of_le_of_lt hxy h2),
        TransientDesigner.processSnapWaveshaper_mid td y (le_trans h1 hxy) h2]
      have h5x : (0 : α) ≤ |x| / 0.5 := div_nonneg hax (by norm_num)
      have h5 : |x| / 0.5 ≤ |y| / 0.5 := div_le_div_of_nonneg_right hxy (by norm_num)
      have hsq : |x| / 0.5 * (|x| / 0.5) ≤ |y| / 0.5 * (|y| / 0.5) :=
        mul_le_mul h5 h5 h5x (le_trans h5x h5)
      have := mul_le_mul_of_nonneg_right
        (mul_le_mul_of_nonneg_right hsq hh.le) (show (0 : α) ≤ 0.3 by norm_num)
      linarith
    · rw [TransientDesigner.processSnapWaveshaper_large td x h,
        TransientDesigner.processSnapWaveshaper_large td y (le_trans h hxy)]
      have hex : 0 ≤ |x| - 0.5 := by linarith
      have hey : 0 ≤ |y| - 0.5 := by linarith
      have hdx : 0 < 1 + (|x| - 0.5) * td.snapHardness := by
        have := mul_nonneg hex hh.le
        linarith
      have hdy : 0 < 1 + (|y| - 0.5) * td.snapHardness := by
        have := mul_nonneg hey hh.le
        linarith
      have hdiv : (|x| - 0.5) / (1 + (|x| - 0.5) * td.snapHardness) ≤
          (|y| - 0.5) / (1 + (|y| - 0.5) * td.snapHardness) := by
        rw [div_le_div_iff₀ hdx hdy]
        nlinarith
      have := mul_le_mul_of_nonneg_right hdiv (show (0 : α) ≤ 0.2 by norm_num)
      linarith
  · intro x h1 h2
    have h01 : |(0.1 : α)| = 0.1 := abs_of_pos (by norm_num)
    rw [TransientDesigner.processSnapWaveshaper_small td x h2,
      TransientDesigner.processSnapWaveshaper_mid td 0.1 (by rw [h01])
        (by rw [h01]; norm_num), h01]
    have : (0.024 : α) * td.snapHardness < |x| * td.snapHardness :=
      mul_lt_mul_of_pos_right h1 hh
    have e : (0.1 : α) / 0.5 * (0.1 / 0.5) * td.snapHardness * 0.3 =
        0.024 * td.snapHardness * 0.5 := by
      norm_num
      ring
    rw [e]
    have := mul_lt_mul_of_pos_right this (show (0 : α) < 0.5 by norm_num)
    linarith

/-- C34 amended, at the default designer: the factor at curve input `3` is at least `1`, the
curve inputs `0.2` and `0.3` of the mid-range region are in order, and the curve input `0.05`
gives a larger factor than `0.1`. -/
theorem snap_curve_regions_witness :
    (0 : ℚ) < (TransientDesigner.new : TransientDesigner ℚ).snapHardness ∧
      1 ≤ (TransientDesigner.new : TransientDesigner ℚ).processSnapWaveshaper 3 ∧
      (TransientDesigner.new : TransientDesigner ℚ).processSnapWaveshaper 0.2 ≤
        (TransientDesigner.new : TransientDesigner ℚ).processSnapWaveshaper 0.3 ∧
      (TransientDesigner.new : TransientDesigner ℚ).processSnapWaveshaper 0.1 <
        (TransientDesigner.new : TransientDesigner ℚ).processSnapWaveshaper 0.05 :=
  ⟨by norm_num [TransientDesigner.new],
    (snap_curve_regions (TransientDesigner.new : TransientDesigner ℚ)
      (by norm_num [TransientDesigner.new])).1 3,
    (snap_curve_regions (TransientDesigner.new : TransientDesigner ℚ)
      (by norm_num [TransientDesigner.new])).2.1 0.2 0.3 (by norm_num [abs_of_pos])
      (Or.inr (Or.inl ⟨by norm_num [abs_of_pos], by norm_num [abs_of_pos]⟩)),
    (snap_curve_regions (TransientDesigner.new : TransientDesigner ℚ)
      (by norm_num [TransientDesigner.new])).2.2 0.05 (by norm_num [abs_of_pos])
      (by norm_num [abs_of_pos])⟩

end AtakAtak
